/-
  Verification of the collaborative-canvas client state engine
  (force-app/main/default/lwc/collab_collaborativeCanvas and
  collab_canvasDrawingUtils, collab_canvasViewerOnly).

  The JavaScript component state is shallowly embedded: the three scene
  collections are lists, entity records are structures whose optional JS
  fields are Option-typed, coordinates are rationals, and each handler or
  method of the component becomes a pure Lean function of the same name
  transforming an explicit state value.
-/
import Mathlib

namespace Collab

/-- A 2D point, as the plain JS object with x and y fields. -/
structure Pt where
  x : ℚ
  y : ℚ
  deriving DecidableEq, Repr

/-- An anchor reference stored on a connector endpoint:
    the id of the anchored object and a named position on it. -/
structure Anchor where
  objectId : String
  position : String
  deriving DecidableEq, Repr

/-- A canvas object (sticky, shape, record card, or group).
    Fields that a JS object may lack are Option-typed; `none` models an
    absent (undefined) field. -/
structure CanvasObject where
  id : String
  type : String
  x : ℚ
  y : ℚ
  width : ℚ
  height : ℚ
  zIndex : Option Int := none
  color : Option String := none
  borderColor : Option String := none
  borderWidth : Option ℚ := none
  text : Option String := none
  textAlign : Option String := none
  textOverflow : Option String := none
  fontSize : Option ℚ := none
  children : Option (List String) := none
  connectorIds : Option (List String) := none
  deriving DecidableEq, Repr

/-- A connector. The source stores literal endpoint coordinates in
    startX/startY/endX/endY, optional anchor references, and (in the
    group-move code path) optional startPoint/endPoint point objects,
    waypoints for elbow connectors and control points for curved ones. -/
structure Connector where
  id : String
  connectorType : String := "arrow"
  startX : ℚ := 0
  startY : ℚ := 0
  endX : ℚ := 0
  endY : ℚ := 0
  startAnchor : Option Anchor := none
  endAnchor : Option Anchor := none
  startPoint : Option Pt := none
  endPoint : Option Pt := none
  waypoints : Option (List Pt) := none
  controlPoint1 : Option Pt := none
  controlPoint2 : Option Pt := none
  label : Option String := none
  labelPosition : Option ℚ := none
  zIndex : Option Int := none
  color : Option String := none
  lineWidth : Option ℚ := none
  deriving DecidableEq, Repr

/-- A freehand stroke. Strokes in the source never carry a zIndex field. -/
structure Stroke where
  id : String
  points : List Pt := []
  color : Option String := none
  width : Option ℚ := none
  deriving DecidableEq, Repr

/-- The aggregate Scene: the three authoritative collections. -/
structure Scene where
  objects : List CanvasObject := []
  strokes : List Stroke := []
  connectors : List Connector := []
  deriving DecidableEq, Repr

/-- Replace the first element satisfying p by its image under f, leaving
    the rest unchanged. This models the source idiom
    `const e = list.find(...); if (e) mutate(e);` on a JS array. -/
def updateFirst (p : α → Bool) (f : α → α) : List α → List α
  | [] => []
  | x :: xs => if p x then f x :: xs else x :: updateFirst p f xs

/-- Translate a point by (dx, dy). -/
def movePt (dx dy : ℚ) (pt : Pt) : Pt :=
  ⟨pt.x + dx, pt.y + dy⟩

/-- The JS expression `e.zIndex || 0`: an absent zIndex counts as 0. -/
def zOf (z : Option Int) : Int := z.getD 0

/-- getNextZIndex from collab_collaborativeCanvas.js (lines 6534-6540):
    collects `o.zIndex || 0` over objects and `c.zIndex || 0` over
    connectors, returns 1 on an empty collection and `Math.max(...) + 1`
    otherwise. Strokes are not consulted (they carry no zIndex field). -/
def getNextZIndex (sc : Scene) : Int :=
  let objectZs := sc.objects.map (fun o => zOf o.zIndex)
  let connectorZs := sc.connectors.map (fun c => zOf c.zIndex)
  let allZs := objectZs ++ connectorZs
  match allZs with
  | [] => 1
  | z :: zs => zs.foldl max z + 1

/-- getAnchorPoint from collab_canvasDrawingUtils.js (lines 1073-1122):
    vertex-style anchors for diamond and triangle, bounding-box edge
    midpoints for every other shape, center as the default position. -/
def getAnchorPoint (obj : CanvasObject) (position : String) : Pt :=
  if obj.type == "diamond" then
    let cx := obj.x + obj.width / 2
    let cy := obj.y + obj.height / 2
    if position == "top" then ⟨cx, obj.y⟩
    else if position == "bottom" then ⟨cx, obj.y + obj.height⟩
    else if position == "left" then ⟨obj.x, cy⟩
    else if position == "right" then ⟨obj.x + obj.width, cy⟩
    else ⟨cx, cy⟩
  else if obj.type == "triangle" then
    if position == "top" then ⟨obj.x + obj.width / 2, obj.y⟩
    else if position == "bottom" then ⟨obj.x + obj.width / 2, obj.y + obj.height⟩
    else if position == "left" then ⟨obj.x + obj.width * (1/4), obj.y + obj.height * (1/2)⟩
    else if position == "right" then ⟨obj.x + obj.width * (3/4), obj.y + obj.height * (1/2)⟩
    else ⟨obj.x + obj.width / 2, obj.y + obj.height * (3/5)⟩
  else
    if position == "top" then ⟨obj.x + obj.width / 2, obj.y⟩
    else if position == "bottom" then ⟨obj.x + obj.width / 2, obj.y + obj.height⟩
    else if position == "left" then ⟨obj.x, obj.y + obj.height / 2⟩
    else if position == "right" then ⟨obj.x + obj.width, obj.y + obj.height / 2⟩
    else ⟨obj.x + obj.width / 2, obj.y + obj.height / 2⟩

/-- resolveConnectorPoint from collab_collaborativeCanvas.js (lines
    1792-1807): when the requested endpoint carries an anchor with a
    truthy objectId and the referenced object is found, compute the
    anchor point on the live object; otherwise return the literal
    stored coordinates. `objects` stands for `this.objects`. -/
def resolveConnectorPoint (objects : List CanvasObject) (connector : Connector)
    (pointType : String) : Pt :=
  let anchor := if pointType == "start" then connector.startAnchor else connector.endAnchor
  let x := if pointType == "start" then connector.startX else connector.endX
  let y := if pointType == "start" then connector.startY else connector.endY
  match anchor with
  | some a =>
    if a.objectId == "" then ⟨x, y⟩
    else
      match objects.find? (fun o => o.id == a.objectId) with
      | some obj => getAnchorPoint obj a.position
      | none => ⟨x, y⟩
  | none => ⟨x, y⟩

/-- The per-connector mutation performed inside moveGroupChildren
    (lines 4199-4232): floating (non-anchored) endpoints, waypoints and
    control points are each translated by (dx, dy) when present. -/
def moveConnectorBy (dx dy : ℚ) (c : Connector) : Connector :=
  let c1 := if c.startPoint.isSome && !c.startAnchor.isSome then
      { c with startPoint := c.startPoint.map (movePt dx dy) } else c
  let c2 := if c1.endPoint.isSome && !c1.endAnchor.isSome then
      { c1 with endPoint := c1.endPoint.map (movePt dx dy) } else c1
  let c3 := match c2.waypoints with
    | some wps => { c2 with waypoints := some (wps.map (movePt dx dy)) }
    | none => c2
  let c4 := match c3.controlPoint1 with
    | some cp => { c3 with controlPoint1 := some (movePt dx dy cp) }
    | none => c3
  match c4.controlPoint2 with
  | some cp => { c4 with controlPoint2 := some (movePt dx dy cp) }
  | none => c4

/-- moveGroupChildren from collab_collaborativeCanvas.js (lines
    4189-4234): for each child id, find the child object and translate
    it; for each grouped connector id, find the connector and translate
    its floating endpoints, waypoints and control points. -/
def moveGroupChildren (group : CanvasObject) (dx dy : ℚ) (sc : Scene) : Scene :=
  let objs := (group.children.getD []).foldl
    (fun acc childId =>
      updateFirst (fun o => o.id == childId)
        (fun o => { o with x := o.x + dx, y := o.y + dy }) acc)
    sc.objects
  let conns := (group.connectorIds.getD []).foldl
    (fun acc connectorId =>
      updateFirst (fun c => c.id == connectorId) (moveConnectorBy dx dy) acc)
    sc.connectors
  { sc with objects := objs, connectors := conns }

/-- A bounding box result, as returned by calculateBoundingBox. -/
structure Bounds where
  x : ℚ
  y : ℚ
  width : ℚ
  height : ℚ
  deriving DecidableEq, Repr

/-- calculateBoundingBox from collab_collaborativeCanvas.js (lines
    4002-4025): minima and maxima over the objects found for the given
    ids; none when no object is found. -/
def calculateBoundingBox (objects : List CanvasObject) (objectIds : List String) :
    Option Bounds :=
  let found := objectIds.filterMap (fun i => objects.find? (fun o => o.id == i))
  match found with
  | [] => none
  | o :: os =>
    let minX := os.foldl (fun acc b => min acc b.x) o.x
    let minY := os.foldl (fun acc b => min acc b.y) o.y
    let maxX := os.foldl (fun acc b => max acc (b.x + b.width)) (o.x + o.width)
    let maxY := os.foldl (fun acc b => max acc (b.y + b.height)) (o.y + o.height)
    some ⟨minX, minY, maxX - minX, maxY - minY⟩

/-- updateGroupBounds from collab_collaborativeCanvas.js (lines
    4239-4247): recompute the group box from its children when a
    bounding box exists. -/
def updateGroupBounds (objects : List CanvasObject) (group : CanvasObject) :
    CanvasObject :=
  match calculateBoundingBox objects (group.children.getD []) with
  | some b => { group with x := b.x, y := b.y, width := b.width, height := b.height }
  | none => group

/-- Undo-stack entries. Constructor = the entry `type` string; arguments
    = the `data` fields the source stores for that type at its
    recordAction call sites (and returns from executeRedo). The
    timestamp field is omitted: the source never reads it. -/
inductive UAct
  | objectAdd (objectId : String)
  | objectDelete (object : CanvasObject)
  | objectMove (objectId : String) (previousX previousY : ℚ)
  | objectResize (objectId : String) (previousX previousY previousWidth previousHeight : ℚ)
  | objectText (objectId : String) (previousText : Option String)
  | connectorAdd (connectorId : String)
  | connectorDelete (connector : Connector)
  | strokeAdd (strokeId : String)
  | strokeDelete (stroke : Stroke)
  | groupCreate (groupId : String)
  | groupUngroup (group : CanvasObject)
  deriving DecidableEq, Repr

/-- Redo-stack entries: the `data` shapes executeUndo returns per type. -/
inductive RAct
  | objectAdd (object : CanvasObject)
  | objectDelete (objectId : String)
  | objectMove (objectId : String) (previousX previousY : ℚ)
  | objectResize (objectId : String) (previousX previousY previousWidth previousHeight : ℚ)
  | objectText (objectId : String) (previousText : Option String)
  | connectorAdd (connector : Connector)
  | connectorDelete (connectorId : String)
  | strokeAdd (stroke : Stroke)
  | strokeDelete (strokeId : String)
  | groupCreate (group : CanvasObject)
  | groupUngroup (groupId : String) (childIds : List String)
  deriving DecidableEq, Repr

/-- The scene effect of executeUndo (collab_collaborativeCanvas.js lines
    3449-3613), per action type. Returns the reverse data pushed on the
    redo stack together with the updated scene; none models the null
    return (which mutates nothing). -/
def undoScene : UAct → Scene → Option (RAct × Scene)
  | .objectAdd objectId, sc =>
    match sc.objects.find? (fun o => o.id == objectId) with
    | none => none
    | some obj => some (.objectAdd obj,
        { sc with objects := sc.objects.filter (fun o => !(o.id == objectId)) })
  | .objectDelete obj, sc =>
    some (.objectDelete obj.id, { sc with objects := sc.objects ++ [obj] })
  | .objectMove objectId px py, sc =>
    match sc.objects.find? (fun o => o.id == objectId) with
    | none => none
    | some obj =>
      let objs := updateFirst (fun o => o.id == objectId)
        (fun o => { o with x := px, y := py }) sc.objects
      some (.objectMove objectId obj.x obj.y, { sc with objects := objs })
  | .objectResize objectId px py pw ph, sc =>
    match sc.objects.find? (fun o => o.id == objectId) with
    | none => none
    | some obj =>
      let objs := updateFirst (fun o => o.id == objectId)
        (fun o => { o with x := px, y := py, width := pw, height := ph }) sc.objects
      some (.objectResize objectId obj.x obj.y obj.width obj.height, { sc with objects := objs })
  | .objectText objectId pt, sc =>
    match sc.objects.find? (fun o => o.id == objectId) with
    | none => none
    | some obj =>
      let objs := updateFirst (fun o => o.id == objectId)
        (fun o => { o with text := pt }) sc.objects
      some (.objectText objectId obj.text, { sc with objects := objs })
  | .connectorAdd connectorId, sc =>
    match sc.connectors.find? (fun c => c.id == connectorId) with
    | none => none
    | some conn => some (.connectorAdd conn,
        { sc with connectors := sc.connectors.filter (fun c => !(c.id == connectorId)) })
  | .connectorDelete conn, sc =>
    some (.connectorDelete conn.id, { sc with connectors := sc.connectors ++ [conn] })
  | .strokeAdd strokeId, sc =>
    match sc.strokes.find? (fun s => s.id == strokeId) with
    | none => none
    | some stroke => some (.strokeAdd stroke,
        { sc with strokes := sc.strokes.filter (fun s => !(s.id == strokeId)) })
  | .strokeDelete stroke, sc =>
    some (.strokeDelete stroke.id, { sc with strokes := sc.strokes ++ [stroke] })
  | .groupCreate groupId, sc =>
    match sc.objects.find? (fun o => o.id == groupId) with
    | none => none
    | some group => some (.groupCreate group,
        { sc with objects := sc.objects.filter (fun o => !(o.id == groupId)) })
  | .groupUngroup group, sc =>
    some (.groupUngroup group.id (group.children.getD []),
      { sc with objects := sc.objects ++ [group] })

/-- The scene effect of executeRedo (lines 3619-3719), per action type.
    The move, resize and text cases delegate to executeUndo in the
    source; their logic is repeated here verbatim. -/
def redoScene : RAct → Scene → Option (UAct × Scene)
  | .objectAdd obj, sc =>
    some (.objectAdd obj.id, { sc with objects := sc.objects ++ [obj] })
  | .objectDelete objectId, sc =>
    match sc.objects.find? (fun o => o.id == objectId) with
    | none => none
    | some obj => some (.objectDelete obj,
        { sc with objects := sc.objects.filter (fun o => !(o.id == objectId)) })
  | .objectMove objectId px py, sc =>
    match sc.objects.find? (fun o => o.id == objectId) with
    | none => none
    | some obj =>
      let objs := updateFirst (fun o => o.id == objectId)
        (fun o => { o with x := px, y := py }) sc.objects
      some (.objectMove objectId obj.x obj.y, { sc with objects := objs })
  | .objectResize objectId px py pw ph, sc =>
    match sc.objects.find? (fun o => o.id == objectId) with
    | none => none
    | some obj =>
      let objs := updateFirst (fun o => o.id == objectId)
        (fun o => { o with x := px, y := py, width := pw, height := ph }) sc.objects
      some (.objectResize objectId obj.x obj.y obj.width obj.height, { sc with objects := objs })
  | .objectText objectId pt, sc =>
    match sc.objects.find? (fun o => o.id == objectId) with
    | none => none
    | some obj =>
      let objs := updateFirst (fun o => o.id == objectId)
        (fun o => { o with text := pt }) sc.objects
      some (.objectText objectId obj.text, { sc with objects := objs })
  | .connectorAdd conn, sc =>
    some (.connectorAdd conn.id, { sc with connectors := sc.connectors ++ [conn] })
  | .connectorDelete connectorId, sc =>
    match sc.connectors.find? (fun c => c.id == connectorId) with
    | none => none
    | some conn => some (.connectorDelete conn,
        { sc with connectors := sc.connectors.filter (fun c => !(c.id == connectorId)) })
  | .strokeAdd stroke, sc =>
    some (.strokeAdd stroke.id, { sc with strokes := sc.strokes ++ [stroke] })
  | .strokeDelete strokeId, sc =>
    match sc.strokes.find? (fun s => s.id == strokeId) with
    | none => none
    | some stroke => some (.strokeDelete stroke,
        { sc with strokes := sc.strokes.filter (fun s => !(s.id == strokeId)) })
  | .groupCreate group, sc =>
    some (.groupCreate group.id, { sc with objects := sc.objects ++ [group] })
  | .groupUngroup groupId _, sc =>
    match sc.objects.find? (fun o => o.id == groupId) with
    | none => none
    | some group => some (.groupUngroup group,
        { sc with objects := sc.objects.filter (fun o => !(o.id == groupId)) })

/-- The full client state modelled for the event, selection and history
    machinery: the scene collections plus the local selection/hover
    references and the two history stacks. The head of each stack list
    is its top (the end of the JS array). -/
structure CanvasState where
  scene : Scene := {}
  selectedObject : Option CanvasObject := none
  selectedObjects : List CanvasObject := []
  hoveredStroke : Option Stroke := none
  selectedConnector : Option Connector := none
  undoStack : List UAct := []
  redoStack : List RAct := []
  deriving DecidableEq, Repr

/-- The selection clearing executeUndo performs in addition to the scene
    effect: undoing object_add or group_create deselects the removed
    object when it was selected; undoing connector_add deselects the
    removed connector. -/
def undoSelClear (a : UAct) (s : CanvasState) : CanvasState :=
  match a with
  | .objectAdd objectId =>
    { s with selectedObject :=
        match s.selectedObject with
        | some o => if o.id == objectId then none else some o
        | none => none }
  | .groupCreate groupId =>
    { s with selectedObject :=
        match s.selectedObject with
        | some o => if o.id == groupId then none else some o
        | none => none }
  | .connectorAdd connectorId =>
    { s with selectedConnector :=
        match s.selectedConnector with
        | some c => if c.id == connectorId then none else some c
        | none => none }
  | _ => s

/-- executeUndo on the full state: the scene effect plus the selection
    clearing of the matching source branch. -/
def executeUndo (a : UAct) (s : CanvasState) : Option (RAct × CanvasState) :=
  match undoScene a s.scene with
  | none => none
  | some (r, sc) => some (r, undoSelClear a { s with scene := sc })

/-- executeRedo on the full state. No executeRedo branch touches the
    selection or hover references. -/
def executeRedo (r : RAct) (s : CanvasState) : Option (UAct × CanvasState) :=
  match redoScene r s.scene with
  | none => none
  | some (a, sc) => some (a, { s with scene := sc })

/-- recordAction (lines 3368-3381): push the new entry, shift the oldest
    entry out when the stack exceeds 5, and clear the redo stack. -/
def recordAction (a : UAct) (s : CanvasState) : CanvasState :=
  let l := a :: s.undoStack
  { s with undoStack := if l.length > 5 then l.dropLast else l, redoStack := [] }

/-- undo (lines 3400-3419): pop the top undo entry, run executeUndo, and
    push the reverse data on the redo stack when it is non-null. -/
def undoStep (s : CanvasState) : CanvasState :=
  match s.undoStack with
  | [] => s
  | a :: rest =>
    match executeUndo a s with
    | none => { s with undoStack := rest }
    | some (r, s1) => { s1 with undoStack := rest, redoStack := r :: s.redoStack }

/-- redo (lines 3424-3443): pop the top redo entry, run executeRedo, and
    push the reverse data back on the undo stack (without the cap check)
    when it is non-null. -/
def redoStep (s : CanvasState) : CanvasState :=
  match s.redoStack with
  | [] => s
  | r :: rest =>
    match executeRedo r s with
    | none => { s with redoStack := rest }
    | some (a, s1) => { s1 with redoStack := rest, undoStack := a :: s.undoStack }

/-- n successive undo operations. -/
def undoN : Nat → CanvasState → CanvasState
  | 0, s => s
  | n + 1, s => undoN n (undoStep s)

/-- n successive redo operations. -/
def redoN : Nat → CanvasState → CanvasState
  | 0, s => s
  | n + 1, s => redoN n (redoStep s)

/-- One history-machinery operation, for interleaving runs. -/
inductive MOp
  | record (a : UAct)
  | und
  | red
  deriving DecidableEq, Repr

/-- Run a sequence of recordAction / undo / redo operations. -/
def runMOps (ops : List MOp) (s : CanvasState) : CanvasState :=
  ops.foldl (fun st op =>
    match op with
    | .record a => recordAction a st
    | .und => undoStep st
    | .red => redoStep st) s

/-- JS truthiness for an optional string: absent and empty are falsy. -/
def truthyStr : Option String → Bool
  | none => false
  | some s => !(s == "")

/-- Merge of one optional field under Object.assign / object spread: a
    serialized payload carries the field exactly when it is present, so
    a present payload field overwrites and an absent one is kept. -/
def mergeOpt (payload old : Option α) : Option α :=
  match payload with
  | some v => some v
  | none => old

/-- Object.assign(obj, payload) where payload is a full serialized
    CanvasObject (the object_move payloads publish the whole object):
    mandatory fields overwrite, optional fields overwrite when present. -/
def assignObject (obj payload : CanvasObject) : CanvasObject :=
  { id := payload.id, type := payload.type,
    x := payload.x, y := payload.y, width := payload.width, height := payload.height,
    zIndex := mergeOpt payload.zIndex obj.zIndex,
    color := mergeOpt payload.color obj.color,
    borderColor := mergeOpt payload.borderColor obj.borderColor,
    borderWidth := mergeOpt payload.borderWidth obj.borderWidth,
    text := mergeOpt payload.text obj.text,
    textAlign := mergeOpt payload.textAlign obj.textAlign,
    textOverflow := mergeOpt payload.textOverflow obj.textOverflow,
    fontSize := mergeOpt payload.fontSize obj.fontSize,
    children := mergeOpt payload.children obj.children,
    connectorIds := mergeOpt payload.connectorIds obj.connectorIds }

/-- The spread merge performed by handleRemoteConnectorUpdate,
    with a full serialized Connector payload. -/
def assignConnector (conn payload : Connector) : Connector :=
  { id := payload.id, connectorType := payload.connectorType,
    startX := payload.startX, startY := payload.startY,
    endX := payload.endX, endY := payload.endY,
    startAnchor := mergeOpt payload.startAnchor conn.startAnchor,
    endAnchor := mergeOpt payload.endAnchor conn.endAnchor,
    startPoint := mergeOpt payload.startPoint conn.startPoint,
    endPoint := mergeOpt payload.endPoint conn.endPoint,
    waypoints := mergeOpt payload.waypoints conn.waypoints,
    controlPoint1 := mergeOpt payload.controlPoint1 conn.controlPoint1,
    controlPoint2 := mergeOpt payload.controlPoint2 conn.controlPoint2,
    label := mergeOpt payload.label conn.label,
    labelPosition := mergeOpt payload.labelPosition conn.labelPosition,
    zIndex := mergeOpt payload.zIndex conn.zIndex,
    color := mergeOpt payload.color conn.color,
    lineWidth := mergeOpt payload.lineWidth conn.lineWidth }

/-- handleRemoteObjectAdd (lines 5850-5856): push the payload unless an
    object with that id already exists. -/
def handleRemoteObjectAdd (payload : CanvasObject) (s : CanvasState) : CanvasState :=
  if s.scene.objects.any (fun o => o.id == payload.id) then s
  else { s with scene := { s.scene with objects := s.scene.objects ++ [payload] } }

/-- handleRemoteObjectMove (lines 5858-5864): merge all payload fields
    into the existing object, when found. -/
def handleRemoteObjectMove (payload : CanvasObject) (s : CanvasState) : CanvasState :=
  let objs := updateFirst (fun o => o.id == payload.id)
    (fun o => assignObject o payload) s.scene.objects
  { s with scene := { s.scene with objects := objs } }

/-- The object_resize payload: id plus the four geometry fields. -/
structure ResizePayload where
  id : String
  x : ℚ
  y : ℚ
  width : ℚ
  height : ℚ
  deriving DecidableEq, Repr

/-- handleRemoteObjectResize (lines 5866-5874). -/
def handleRemoteObjectResize (payload : ResizePayload) (s : CanvasState) : CanvasState :=
  let objs := updateFirst (fun o => o.id == payload.id)
    (fun o => { o with x := payload.x, y := payload.y,
                       width := payload.width, height := payload.height }) s.scene.objects
  { s with scene := { s.scene with objects := objs } }

/-- The object_style payload. -/
structure StylePayload where
  id : String
  color : Option String := none
  borderColor : Option String := none
  borderWidth : Option ℚ := none
  deriving DecidableEq, Repr

/-- handleRemoteObjectStyle (lines 5876-5883): color and borderColor are
    applied when truthy, borderWidth whenever defined. -/
def handleRemoteObjectStyle (payload : StylePayload) (s : CanvasState) : CanvasState :=
  let objs := updateFirst (fun o => o.id == payload.id)
    (fun o =>
      let o1 := if truthyStr payload.color then { o with color := payload.color } else o
      let o2 := if truthyStr payload.borderColor then
          { o1 with borderColor := payload.borderColor } else o1
      if payload.borderWidth.isSome then { o2 with borderWidth := payload.borderWidth } else o2)
    s.scene.objects
  { s with scene := { s.scene with objects := objs } }

/-- handleRemoteObjectDelete (lines 5885-5887): filter the object out.
    This branch touches no selection or hover reference. -/
def handleRemoteObjectDelete (payloadId : String) (s : CanvasState) : CanvasState :=
  { s with scene :=
      { s.scene with objects := s.scene.objects.filter (fun o => !(o.id == payloadId)) } }

/-- handleRemoteStroke (lines 5889-5894): push unless the id exists. -/
def handleRemoteStroke (payload : Stroke) (s : CanvasState) : CanvasState :=
  if s.scene.strokes.any (fun st => st.id == payload.id) then s
  else { s with scene := { s.scene with strokes := s.scene.strokes ++ [payload] } }

/-- handleRemoteStrokeDelete (lines 5896-5902): filter the stroke out
    and clear hoveredStroke when it was the deleted one. -/
def handleRemoteStrokeDelete (payloadId : String) (s : CanvasState) : CanvasState :=
  { s with
    scene := { s.scene with strokes := s.scene.strokes.filter (fun st => !(st.id == payloadId)) },
    hoveredStroke :=
      match s.hoveredStroke with
      | some st => if st.id == payloadId then none else some st
      | none => none }

/-- handleRemoteConnectorAdd (lines 5904-5913): push unless the id exists. -/
def handleRemoteConnectorAdd (payload : Connector) (s : CanvasState) : CanvasState :=
  if s.scene.connectors.any (fun c => c.id == payload.id) then s
  else { s with scene := { s.scene with connectors := s.scene.connectors ++ [payload] } }

/-- handleRemoteConnectorDelete (lines 5915-5921): filter the connector
    out and deselect it when it was the selected one. -/
def handleRemoteConnectorDelete (payloadId : String) (s : CanvasState) : CanvasState :=
  { s with
    scene := { s.scene with connectors :=
        s.scene.connectors.filter (fun c => !(c.id == payloadId)) },
    selectedConnector :=
      match s.selectedConnector with
      | some c => if c.id == payloadId then none else some c
      | none => none }

/-- handleRemoteConnectorUpdate (lines 5923-5933): spread-merge the
    payload into the connector at its index and refresh the selected
    connector reference when it is the updated one. -/
def handleRemoteConnectorUpdate (payload : Connector) (s : CanvasState) : CanvasState :=
  match s.scene.connectors.find? (fun c => c.id == payload.id) with
  | none => s
  | some conn =>
    let merged := assignConnector conn payload
    let conns := updateFirst (fun c => c.id == payload.id)
      (fun c => assignConnector c payload) s.scene.connectors
    { s with
      scene := { s.scene with connectors := conns },
      selectedConnector :=
        match s.selectedConnector with
        | some c => if c.id == payload.id then some merged else some c
        | none => none }

/-- The object_layer / connector_layer payload. -/
structure LayerPayload where
  id : String
  zIndex : Option Int := none
  deriving DecidableEq, Repr

/-- handleRemoteLayerChange (lines 5650-5655). -/
def handleRemoteLayerChange (payload : LayerPayload) (s : CanvasState) : CanvasState :=
  let objs := updateFirst (fun o => o.id == payload.id)
    (fun o => { o with zIndex := payload.zIndex }) s.scene.objects
  { s with scene := { s.scene with objects := objs } }

/-- handleRemoteConnectorLayerChange (lines 5660-5665). -/
def handleRemoteConnectorLayerChange (payload : LayerPayload) (s : CanvasState) : CanvasState :=
  let conns := updateFirst (fun c => c.id == payload.id)
    (fun c => { c with zIndex := payload.zIndex }) s.scene.connectors
  { s with scene := { s.scene with connectors := conns } }

/-- handleRemoteGroupCreate (lines 4157-4168): replace the object at the
    found index, or push the new group. -/
def handleRemoteGroupCreate (payload : CanvasObject) (s : CanvasState) : CanvasState :=
  if s.scene.objects.any (fun o => o.id == payload.id) then
    let objs := updateFirst (fun o => o.id == payload.id) (fun _ => payload) s.scene.objects
    { s with scene := { s.scene with objects := objs } }
  else
    { s with scene := { s.scene with objects := s.scene.objects ++ [payload] } }

/-- handleRemoteGroupUngroup (lines 4173-4184): remove the group object
    and clear the selection when the group was selected. -/
def handleRemoteGroupUngroup (groupId : String) (s : CanvasState) : CanvasState :=
  { s with
    scene := { s.scene with objects := s.scene.objects.filter (fun o => !(o.id == groupId)) },
    selectedObject :=
      match s.selectedObject with
      | some o => if o.id == groupId then none else some o
      | none => none }

/-- The typed per-event payload of the platform-event dispatch;
    the constructor corresponds to the eventType string. -/
inductive EventPayload
  | objectAdd (o : CanvasObject)
  | objectMove (o : CanvasObject)
  | objectResize (p : ResizePayload)
  | objectStyle (p : StylePayload)
  | objectDelete (id : String)
  | drawStroke (st : Stroke)
  | strokeDelete (id : String)
  | connectorAdd (c : Connector)
  | connectorUpdate (c : Connector)
  | connectorDelete (id : String)
  | objectLayer (p : LayerPayload)
  | connectorLayer (p : LayerPayload)
  | groupCreate (g : CanvasObject)
  | groupUngroup (groupId : String) (childIds : List String)
  | userJoin
  | userLeave
  | unknown (eventType : String)
  deriving Repr

/-- One inbound platform event: the publishing user and canvas ids and
    the typed payload. -/
structure PlatformEvent where
  userId : String
  canvasId : String
  userName : String
  payload : EventPayload

/-- handlePlatformEvent (lines 924-997): drop own echoes and events for
    another canvas, then dispatch by event type. The user_join branch
    shows a toast and triggers a courtesy save (no local state change);
    user_leave and unknown types only log or toast. -/
def handlePlatformEvent (myUserId myCanvasId : String) (ev : PlatformEvent)
    (s : CanvasState) : CanvasState :=
  if ev.userId == myUserId then s
  else if !(ev.canvasId == myCanvasId) then s
  else
    match ev.payload with
    | .objectAdd o => handleRemoteObjectAdd o s
    | .objectMove o => handleRemoteObjectMove o s
    | .objectResize p => handleRemoteObjectResize p s
    | .objectStyle p => handleRemoteObjectStyle p s
    | .objectDelete i => handleRemoteObjectDelete i s
    | .drawStroke st => handleRemoteStroke st s
    | .strokeDelete i => handleRemoteStrokeDelete i s
    | .connectorAdd c => handleRemoteConnectorAdd c s
    | .connectorUpdate c => handleRemoteConnectorUpdate c s
    | .connectorDelete i => handleRemoteConnectorDelete i s
    | .objectLayer p => handleRemoteLayerChange p s
    | .connectorLayer p => handleRemoteConnectorLayerChange p s
    | .groupCreate g => handleRemoteGroupCreate g s
    | .groupUngroup gid _ => handleRemoteGroupUngroup gid s
    | .userJoin => s
    | .userLeave => s
    | .unknown _ => s

/-- Constant CURSOR_UPDATE_THROTTLE = 50 ms (line 68). -/
def CURSOR_UPDATE_THROTTLE : Int := 50

/-- Constant DELTA_THRESHOLD = 10 pixels (line 71). -/
def DELTA_THRESHOLD : ℚ := 10

/-- The cursor-throttle state read and written by sendCursorUpdate:
    the last sent position and the last send time. -/
structure CursorState where
  lastSentX : ℚ := 0
  lastSentY : ℚ := 0
  lastCursorSendTime : Int := 0
  deriving DecidableEq, Repr

/-- sendCursorUpdate (lines 1061-1079): send exactly when
    (|dx| > DELTA_THRESHOLD or |dy| > DELTA_THRESHOLD) and
    now - lastCursorSendTime > CURSOR_UPDATE_THROTTLE; on a send the
    last sent position and time are updated. Returns the new state and
    whether an update was sent. -/
def sendCursorUpdate (s : CursorState) (x y : ℚ) (now : Int) : CursorState × Bool :=
  let dx := |x - s.lastSentX|
  let dy := |y - s.lastSentY|
  if (dx > DELTA_THRESHOLD ∨ dy > DELTA_THRESHOLD) ∧
      now - s.lastCursorSendTime > CURSOR_UPDATE_THROTTLE then
    (⟨x, y, now⟩, true)
  else
    (s, false)

/-- One pointer move: canvas coordinates and the clock value. -/
structure CursorMove where
  x : ℚ
  y : ℚ
  now : Int
  deriving DecidableEq, Repr

/-- Run sendCursorUpdate over a sequence of moves, counting sends. -/
def processMoves (s : CursorState) : List CursorMove → CursorState × Nat
  | [] => (s, 0)
  | m :: ms =>
    let r := sendCursorUpdate s m.x m.y m.now
    let rest := processMoves r.1 ms
    (rest.1, (if r.2 then 1 else 0) + rest.2)

/-- A user-visible toast notification (ShowToastEvent). -/
structure Toast where
  title : String
  message : String
  variant : String
  deriving DecidableEq, Repr

/-- Outcome of the saveCanvasState Apex call. -/
inductive SaveResult
  | ok
  | err
  deriving DecidableEq, Repr

/-- The parsed state blob a successful loadCanvasState returns; each
    collection key may be absent. -/
structure LoadPayload where
  objects : Option (List CanvasObject) := none
  strokes : Option (List Stroke) := none
  connectors : Option (List Connector) := none
  deriving DecidableEq, Repr

/-- Outcome of the loadCanvasState Apex call. -/
inductive LoadResult
  | ok (st : LoadPayload)
  | err
  deriving DecidableEq, Repr

/-- handleSave (lines 6119-6146): a success toast on success, an error
    toast on failure; the scene is read but never modified. Returns the
    toasts shown. -/
def handleSave (outcome : SaveResult) : List Toast :=
  match outcome with
  | .ok => [⟨"Success", "Canvas saved successfully", "success"⟩]
  | .err => [⟨"Error", "Failed to save canvas", "error"⟩]

/-- loadState of the editor component (lines 6148-6184): on success each
    present collection replaces the local one; on failure the error is
    only logged to the console - no toast is shown, no error flag is
    set, and the state is left unchanged. Returns the new state and the
    toasts shown. -/
def loadState (s : CanvasState) (outcome : LoadResult) : CanvasState × List Toast :=
  match outcome with
  | .ok st =>
    ({ s with scene :=
        { objects := st.objects.getD s.scene.objects,
          strokes := st.strokes.getD s.scene.strokes,
          connectors := st.connectors.getD s.scene.connectors } }, [])
  | .err => (s, [])

/-- The viewer-only component state relevant to load failure
    (collab_canvasViewerOnly.js): the error message, loading flag,
    content flag and collections. -/
structure ViewerState where
  errorMessage : String := ""
  isLoading : Bool := true
  hasContent : Bool := false
  objects : List CanvasObject := []
  strokes : List Stroke := []
  connectors : List Connector := []
  deriving DecidableEq, Repr

/-- loadState of the viewer-only component (collab_canvasViewerOnly.js
    lines 165-218): on success each non-empty collection is stored and
    marks content; on failure errorMessage is set and loading ends. -/
def viewerLoadState (v : ViewerState) (outcome : LoadResult) : ViewerState :=
  match outcome with
  | .ok st =>
    let v1 := match st.objects with
      | some l => if l.length > 0 then { v with objects := l, hasContent := true } else v
      | none => v
    let v2 := match st.strokes with
      | some l => if l.length > 0 then { v1 with strokes := l, hasContent := true } else v1
      | none => v1
    let v3 := match st.connectors with
      | some l => if l.length > 0 then { v2 with connectors := l, hasContent := true } else v2
      | none => v2
    { v3 with isLoading := false }
  | .err =>
    { v with errorMessage := "Unable to load canvas preview", isLoading := false }

/-- The hasError getter of the viewer component: `!!this.errorMessage`. -/
def viewerHasError (v : ViewerState) : Bool := !(v.errorMessage == "")

/-- The showCanvas getter of the viewer component:
    `!isLoading && !hasError && hasContent`. -/
def viewerShowCanvas (v : ViewerState) : Bool :=
  !v.isLoading && !(viewerHasError v) && v.hasContent

/-- p holds at the last element of the list and nowhere else. -/
def lastOnly (p : α → Bool) : List α → Bool
  | [] => false
  | [e] => p e
  | x :: y :: xs => !p x && lastOnly p (y :: xs)

/-- The scene after undoing one action (identity on a null undo). -/
def applyUndoScene (a : UAct) (sc : Scene) : Scene :=
  match undoScene a sc with
  | some r => r.2
  | none => sc

/-- Number of elements matching p. -/
def countMatches (p : α → Bool) (l : List α) : Nat :=
  (l.filter p).length

/-- The in-place translation `obj.x += dx; obj.y += dy` applied to the
    object found by id, as the drag and group-move code paths mutate a
    found object. -/
def translateObject (objects : List CanvasObject) (objectId : String) (dx dy : ℚ) :
    List CanvasObject :=
  updateFirst (fun o => o.id == objectId)
    (fun o => { o with x := o.x + dx, y := o.y + dy }) objects

/-- Example object with id "a". -/
def objA : CanvasObject :=
  { id := "a", type := "rectangle", x := 0, y := 0, width := 10, height := 10 }

/-- Example object with id "b". -/
def objB : CanvasObject :=
  { id := "b", type := "sticky", x := 20, y := 0, width := 10, height := 10,
    text := some "note" }

/-- Example object with id "z", used as a deleted-object record. -/
def objZ : CanvasObject :=
  { id := "z", type := "circle", x := 5, y := 5, width := 4, height := 4 }

/-- Example stroke. -/
def strokeS : Stroke :=
  { id := "s1", points := [⟨0, 0⟩, ⟨1, 1⟩] }

/-- Example connector. -/
def connC : Connector :=
  { id := "c1", startX := 0, startY := 0, endX := 5, endY := 5 }

/-- A state in which the object with id "a" is selected. -/
def stateC6 : CanvasState :=
  { scene := { objects := [objA] }, selectedObject := some objA }

/-- A plain one-object state. -/
def stateC8 : CanvasState :=
  { scene := { objects := [objA] } }

/-- The two grouped example objects of the group-move scenario. -/
def objO1 : CanvasObject :=
  { id := "o1", type := "rectangle", x := 0, y := 0, width := 20, height := 20 }

/-- Second grouped example object. -/
def objO2 : CanvasObject :=
  { id := "o2", type := "rectangle", x := 50, y := 0, width := 20, height := 20 }

/-- The example group containing o1 and o2. -/
def groupG : CanvasObject :=
  { id := "g", type := "group", x := 0, y := 0, width := 70, height := 20,
    zIndex := some 3, children := some ["o1", "o2"], connectorIds := some [] }

/-- The scene of the group-move scenario. -/
def sceneC4 : Scene :=
  { objects := [objO1, objO2, groupG] }

/-- An example connector anchored to object "a" on its right side. -/
def connC5 : Connector :=
  { id := "c5", startX := 1, startY := 2, endX := 30, endY := 30,
    startAnchor := some ⟨"a", "right"⟩ }

/-! The recorded forward operations and the coherence invariants of the
    undo machinery. -/

/-- The ids a replayed (redone) delete-type entry removes again: the id
    recorded in object_delete, connector_delete, stroke_delete and
    group_ungroup entries. Add-type and in-place entries delete nothing
    when replayed. -/
def delId : UAct → List String
  | .objectDelete v => [v.id]
  | .connectorDelete v => [v.id]
  | .strokeDelete v => [v.id]
  | .groupUngroup v => [v.id]
  | _ => []

/-- Number of elements of a collection carrying the given id, under a
    key projection. -/
def cntK (key : α → String) (i : String) (l : List α) : Nat :=
  countMatches (fun x => key x == i) l

/-- Two collections agree up to a set D of pending-delete ids: the
    subsequences of elements whose id is not pending coincide exactly,
    and every id occurs equally often in both. -/
def EquivD (key : α → String) (D : List String) (l l2 : List α) : Prop :=
  l.filter (fun x => !(D.contains (key x))) = l2.filter (fun x => !(D.contains (key x))) ∧
  ∀ i : String, cntK key i l = cntK key i l2

/-- EquivD on all three scene collections. -/
def EquivScene (D : List String) (sc sc2 : Scene) : Prop :=
  EquivD (fun o => o.id) D sc.objects sc2.objects ∧
  EquivD (fun c => c.id) D sc.connectors sc2.connectors ∧
  EquivD (fun st => st.id) D sc.strokes sc2.strokes

/-- The id is absent from all three scene collections (ids are globally
    unique and never reused, so a deleted entity's id satisfies this
    everywhere). -/
def absentAllB (i : String) (sc : Scene) : Bool :=
  sc.objects.all (fun o => !(o.id == i)) &&
  sc.connectors.all (fun c => !(c.id == i)) &&
  sc.strokes.all (fun st => !(st.id == i))

/-- What holds of an add-type entry when its turn to be undone comes:
    either its entity was removed again by a later unrecorded deletion
    (count 0, making the undo a null undo), or it is present exactly
    once and - unless a pending outer delete in D will re-remove it
    during the redo phase anyway - sits last among the elements not
    covered by a pending delete. -/
def addOk (key : α → String) (D : List String) (i : String) (l : List α) : Prop :=
  cntK key i l = 0 ∨
    (cntK key i l = 1 ∧
      (D.contains i = true ∨
        lastOnly (fun x => key x == i) (l.filter (fun x => !(D.contains (key x)))) = true))

/-- Coherence of one undo entry with the scene at the moment it is
    undone, relative to the pending-delete ids D accumulated from the
    delete-type entries already undone above it. -/
def entryOk : UAct → Scene → List String → Prop
  | .objectAdd i, sc, D => addOk (fun o => o.id) D i sc.objects
  | .objectDelete v, sc, _ => absentAllB v.id sc = true
  | .objectMove i _ _, sc, _ => cntK (fun o => o.id) i sc.objects ≤ 1
  | .objectResize i _ _ _ _, sc, _ => cntK (fun o => o.id) i sc.objects ≤ 1
  | .objectText i _, sc, _ => cntK (fun o => o.id) i sc.objects ≤ 1
  | .connectorAdd i, sc, D => addOk (fun c => c.id) D i sc.connectors
  | .connectorDelete v, sc, _ => absentAllB v.id sc = true
  | .strokeAdd i, sc, D => addOk (fun st => st.id) D i sc.strokes
  | .strokeDelete v, sc, _ => absentAllB v.id sc = true
  | .groupCreate i, sc, D => addOk (fun o => o.id) D i sc.objects
  | .groupUngroup v, sc, _ => absentAllB v.id sc = true

/-- Coherence of a whole undo stack (top first) with the current scene:
    every entry satisfies entryOk at the moment it is undone, with the
    pending-delete ids collected from the delete-type entries undone
    before it. -/
def stackOk : List UAct → Scene → List String → Prop
  | [], _, _ => True
  | a :: rest, sc, D => entryOk a sc D ∧ stackOk rest (applyUndoScene a sc) (delId a ++ D)

/-- How a scene collection changes under the unrecorded removals of a
    forward operation (the ids in R: cascaded connectors or merged-away
    groups) combined with restored pending-delete elements drifting to
    the tail: outside the enlarged pending set Dp the surviving
    subsequences coincide, and each id count is either wiped (R) or
    preserved. -/
def RelD (key : α → String) (Dp R : List String) (l l2 : List α) : Prop :=
  l2.filter (fun x => !(Dp.contains (key x))) =
    l.filter (fun x => !(Dp.contains (key x)) && !(R.contains (key x))) ∧
  ∀ i : String, cntK key i l2 = if R.contains i then 0 else cntK key i l

/-- RelD on all three scene collections. -/
def RelScene (Dp R : List String) (sc sc2 : Scene) : Prop :=
  RelD (fun o => o.id) Dp R sc.objects sc2.objects ∧
  RelD (fun c => c.id) Dp R sc.connectors sc2.connectors ∧
  RelD (fun st => st.id) Dp R sc.strokes sc2.strokes

/-- The recorded local forward operations: one constructor per
    recordAction call-site family in collab_collaborativeCanvas.js.
    object_add covers the six creation helpers (lines 5684-6495);
    object_delete is deleteSelectedObject (3294) with its connector
    cascade; object_move/resize/text are the drag, resize and text-edit
    commits (2267, 5327, 2521); connector/stroke add and delete are
    finishConnector (4697), deleteSelectedConnector (3273),
    finishStroke (4625) and deleteStroke (4490); group_create is
    createGroupFromSelection (3994) including the unrecorded removal of
    the merged previously selected groups; group_ungroup is
    ungroupSelection (4100). -/
inductive LocalOp
  | addObject (obj : CanvasObject)
  | deleteObject (objectId : String)
  | moveObject (objectId : String) (nx ny : ℚ)
  | resizeObject (objectId : String) (nx ny nw nh : ℚ)
  | setObjectText (objectId : String) (newText : Option String)
  | addConnector (conn : Connector)
  | deleteConnector (connectorId : String)
  | addStroke (stroke : Stroke)
  | deleteStroke (strokeId : String)
  | createGroup (group : CanvasObject) (mergedGroupIds : List String)
  | ungroup (groupId : String)
  deriving DecidableEq, Repr

/-- A connector is anchored to the object at its start or end, as
    deleteSelectedObject collects them (lines 3299-3304). -/
def anchoredTo (objectId : String) (c : Connector) : Bool :=
  (match c.startAnchor with | some a => a.objectId == objectId | none => false) ||
  (match c.endAnchor with | some a => a.objectId == objectId | none => false)

/-- The connected connector ids deleteSelectedObject collects before
    removing them one by one (lines 3299-3304). -/
def cascadeIds (objectId : String) (sc : Scene) : List String :=
  (sc.connectors.filter (fun c => anchoredTo objectId c)).map (fun c => c.id)

/-- The forward effect of each recorded local operation: the scene
    mutation the handler performs plus its recordAction call, as at the
    source call sites. deleteObject records a copy of the object, then
    removes the connectors anchored to it one by one without recording
    them (lines 3299-3310), then removes the object; createGroup first
    removes the merged-away previously selected groups without
    recording them, then pushes the group and records its id; move,
    resize and text record the previous values the source captured in
    dragStartState / resizeStartState / previousTextValue and set the
    new ones. Operations whose target id is missing mutate and record
    nothing (the source guards them behind a live selection). Selection
    mutations are omitted: neither the recorded data nor any scene
    collection depends on them. -/
def applyLocal : LocalOp → CanvasState → CanvasState
  | .addObject obj, s =>
    recordAction (.objectAdd obj.id)
      { s with scene := { s.scene with objects := s.scene.objects ++ [obj] } }
  | .deleteObject oid, s =>
    match s.scene.objects.find? (fun o => o.id == oid) with
    | none => s
    | some obj =>
      let conns := (cascadeIds oid s.scene).foldl
        (fun acc cid => acc.filter (fun c => !(c.id == cid))) s.scene.connectors
      let objs := s.scene.objects.filter (fun o => !(o.id == oid))
      recordAction (.objectDelete obj)
        { s with scene := { s.scene with objects := objs, connectors := conns } }
  | .moveObject oid nx ny, s =>
    match s.scene.objects.find? (fun o => o.id == oid) with
    | none => s
    | some obj =>
      let objs := updateFirst (fun o => o.id == oid)
        (fun o => { o with x := nx, y := ny }) s.scene.objects
      recordAction (.objectMove oid obj.x obj.y)
        { s with scene := { s.scene with objects := objs } }
  | .resizeObject oid nx ny nw nh, s =>
    match s.scene.objects.find? (fun o => o.id == oid) with
    | none => s
    | some obj =>
      let objs := updateFirst (fun o => o.id == oid)
        (fun o => { o with x := nx, y := ny, width := nw, height := nh }) s.scene.objects
      recordAction (.objectResize oid obj.x obj.y obj.width obj.height)
        { s with scene := { s.scene with objects := objs } }
  | .setObjectText oid t, s =>
    match s.scene.objects.find? (fun o => o.id == oid) with
    | none => s
    | some obj =>
      let objs := updateFirst (fun o => o.id == oid)
        (fun o => { o with text := t }) s.scene.objects
      recordAction (.objectText oid obj.text)
        { s with scene := { s.scene with objects := objs } }
  | .addConnector conn, s =>
    recordAction (.connectorAdd conn.id)
      { s with scene := { s.scene with connectors := s.scene.connectors ++ [conn] } }
  | .deleteConnector cid, s =>
    match s.scene.connectors.find? (fun c => c.id == cid) with
    | none => s
    | some conn =>
      let conns := s.scene.connectors.filter (fun c => !(c.id == cid))
      recordAction (.connectorDelete conn)
        { s with scene := { s.scene with connectors := conns } }
  | .addStroke stroke, s =>
    recordAction (.strokeAdd stroke.id)
      { s with scene := { s.scene with strokes := s.scene.strokes ++ [stroke] } }
  | .deleteStroke sid, s =>
    match s.scene.strokes.find? (fun st => st.id == sid) with
    | none => s
    | some stroke =>
      let strokes := s.scene.strokes.filter (fun st => !(st.id == sid))
      recordAction (.strokeDelete stroke)
        { s with scene := { s.scene with strokes := strokes } }
  | .createGroup g merged, s =>
    let objs := (s.scene.objects.filter (fun o => !(merged.contains o.id))) ++ [g]
    recordAction (.groupCreate g.id)
      { s with scene := { s.scene with objects := objs } }
  | .ungroup gid, s =>
    match s.scene.objects.find? (fun o => o.id == gid) with
    | none => s
    | some g =>
      let objs := s.scene.objects.filter (fun o => !(o.id == gid))
      recordAction (.groupUngroup g)
        { s with scene := { s.scene with objects := objs } }

/-- generateId freshness: a newly generated id is absent from the whole
    scene and was never used before, in particular it is not the id
    recorded in any delete-type entry of the undo history. -/
def freshIdB (i : String) (s : CanvasState) : Bool :=
  absentAllB i s.scene && s.undoStack.all (fun a => !((delId a).contains i))

/-- The guards the source enforces before each recording call site:
    adds carry a freshly generated id, deletes and in-place edits act
    on a live (selected or hovered) entity, and the groups merged away
    by createGroupFromSelection are live selected groups. -/
def opValid : LocalOp → CanvasState → Bool
  | .addObject obj, s => freshIdB obj.id s
  | .deleteObject oid, s => s.scene.objects.any (fun o => o.id == oid)
  | .moveObject oid _ _, s => s.scene.objects.any (fun o => o.id == oid)
  | .resizeObject oid _ _ _ _, s => s.scene.objects.any (fun o => o.id == oid)
  | .setObjectText oid _, s => s.scene.objects.any (fun o => o.id == oid)
  | .addConnector conn, s => freshIdB conn.id s
  | .deleteConnector cid, s => s.scene.connectors.any (fun c => c.id == cid)
  | .addStroke stroke, s => freshIdB stroke.id s
  | .deleteStroke sid, s => s.scene.strokes.any (fun st => st.id == sid)
  | .createGroup g merged, s =>
    freshIdB g.id s && merged.all (fun i => s.scene.objects.any (fun o => o.id == i))
  | .ungroup gid, s => s.scene.objects.any (fun o => o.id == gid)

/-- Validity of a whole operation sequence: each operation is valid in
    the state reached by the previous ones. -/
def ValidOps : List LocalOp → CanvasState → Bool
  | [], _ => true
  | op :: rest, s => opValid op s && ValidOps rest (applyLocal op s)

/-- Run a sequence of recorded local operations. -/
def runLocal (ops : List LocalOp) (s : CanvasState) : CanvasState :=
  ops.foldl (fun st op => applyLocal op st) s

/-- All ids of a scene, across the three collections. -/
def sceneIds (sc : Scene) : List String :=
  sc.objects.map (fun o => o.id) ++ sc.connectors.map (fun c => c.id) ++
    sc.strokes.map (fun st => st.id)

/-- Total number of scene entities carrying the given id. -/
def sceneCntAll (i : String) (sc : Scene) : Nat :=
  cntK (fun o : CanvasObject => o.id) i sc.objects +
  cntK (fun c : Connector => c.id) i sc.connectors +
  cntK (fun st : Stroke => st.id) i sc.strokes

/-- The internal reachability invariant of a state produced by recorded
    forward operations: the undo stack is coherent with the scene, the
    id recorded in every delete-type entry is absent from the whole
    scene (ids are never reused), and ids are globally unique. -/
def GoodHist (s : CanvasState) : Prop :=
  stackOk s.undoStack s.scene [] ∧
  (∀ a ∈ s.undoStack, ∀ i ∈ delId a, absentAllB i s.scene = true) ∧
  (∀ i : String, sceneCntAll i s.scene ≤ 1)

/-- The concrete operation sequence of the C2 witness: add object "a",
    add a connector anchored to "a", add object "b", then delete "a"
    (which also cascades the connector away unrecorded). -/
def opsC2 : List LocalOp :=
  [.addObject objA, .addConnector connC5, .addObject objB, .deleteObject "a"]

/-! Helper lemmas about the list operations used by the handlers. -/

theorem updateFirst_of_forall_neg (p : α → Bool) (f : α → α) :
    ∀ l : List α, (∀ x ∈ l, p x = false) → updateFirst p f l = l := by
  intro l h
  induction l with
  | nil => rfl
  | cons x xs ih =>
    have hx : p x = false := h x (List.mem_cons_self x xs)
    simp [updateFirst, hx, ih fun y hy => h y (List.mem_cons_of_mem x hy)]

theorem find?_updateFirst (p : α → Bool) (f : α → α)
    (hpf : ∀ x, p x = true → p (f x) = true) :
    ∀ l : List α, (updateFirst p f l).find? p = (l.find? p).map f := by
  intro l
  induction l with
  | nil => rfl
  | cons x xs ih =>
    by_cases hx : p x = true
    · simp [updateFirst, hx, List.find?_cons, hpf x hx]
    · have hx' : p x = false := by simpa using hx
      simp [updateFirst, hx', List.find?_cons, ih]

theorem updateFirst_updateFirst (p : α → Bool) (f g : α → α)
    (hpf : ∀ x, p x = true → p (f x) = true) :
    ∀ l : List α, updateFirst p g (updateFirst p f l) = updateFirst p (fun x => g (f x)) l := by
  intro l
  induction l with
  | nil => rfl
  | cons x xs ih =>
    by_cases hx : p x = true
    · simp [updateFirst, hx, hpf x hx]
    · have hx' : p x = false := by simpa using hx
      simp [updateFirst, hx', ih]

theorem updateFirst_eq_self (p : α → Bool) (h : α → α) :
    ∀ (l : List α) (a : α), l.find? p = some a → h a = a → updateFirst p h l = l := by
  intro l
  induction l with
  | nil => intro a ha; simp at ha
  | cons x xs ih =>
    intro a ha hha
    by_cases hx : p x = true
    · rw [List.find?_cons_of_pos _ hx] at ha
      cases ha
      simp [updateFirst, hx, hha]
    · have hx' : p x = false := by simpa using hx
      rw [List.find?_cons_of_neg _ (by simp [hx'])] at ha
      simp [updateFirst, hx', ih a ha hha]

theorem lastOnly_spec (p : α → Bool) :
    ∀ l : List α, lastOnly p l = true →
      ∃ front e, l = front ++ [e] ∧ p e = true ∧ ∀ x ∈ front, p x = false := by
  intro l
  induction l with
  | nil => intro h; simp [lastOnly] at h
  | cons x xs ih =>
    intro h
    cases xs with
    | nil =>
      exact ⟨[], x, by simp, by simpa [lastOnly] using h, by simp⟩
    | cons y ys =>
      have h' : p x = false ∧ lastOnly p (y :: ys) = true := by
        simpa [lastOnly, Bool.and_eq_true] using h
      obtain ⟨front, e, hfe, hpe, hfront⟩ := ih h'.2
      refine ⟨x :: front, e, by simp [hfe], hpe, ?_⟩
      intro z hz
      rcases List.mem_cons.mp hz with hz | hz
      · exact hz ▸ h'.1
      · exact hfront z hz

theorem find?_append_left_none (p : α → Bool) :
    ∀ l1 l2 : List α, (∀ x ∈ l1, p x = false) → (l1 ++ l2).find? p = l2.find? p := by
  intro l1 l2 h
  induction l1 with
  | nil => rfl
  | cons x xs ih =>
    have hx : p x = false := h x (List.mem_cons_self x xs)
    simp [List.find?_cons, hx, ih fun y hy => h y (List.mem_cons_of_mem x hy)]

theorem filter_append_last (p : α → Bool) (l : List α) (e : α)
    (h : ∀ x ∈ l, p x = false) (he : p e = true) :
    (l ++ [e]).filter (fun x => !(p x)) = l := by
  rw [List.filter_append]
  have h1 : l.filter (fun x => !(p x)) = l :=
    List.filter_eq_self.mpr (fun x hx => by simp [h x hx])
  have h2 : [e].filter (fun x => !(p x)) = [] := by simp [List.filter, he]
  simp [h1, h2]

theorem find?_of_any (p : α → Bool) :
    ∀ l : List α, l.any p = true → ∃ a, l.find? p = some a := by
  intro l
  induction l with
  | nil => intro h; simp at h
  | cons x xs ih =>
    intro h
    by_cases hx : p x = true
    · exact ⟨x, List.find?_cons_of_pos _ hx⟩
    · have hx' : p x = false := by simpa using hx
      have hxs : xs.any p = true := by simpa [List.any_cons, hx'] using h
      obtain ⟨a, ha⟩ := ih hxs
      exact ⟨a, by rw [List.find?_cons_of_neg _ (by simp [hx'])]; exact ha⟩

theorem undoSelClear_scene (a : UAct) (s : CanvasState) :
    (undoSelClear a s).scene = s.scene := by
  cases a <;> rfl

theorem undoStep_fields (s : CanvasState) (a : UAct) (rest : List UAct) (r : RAct) (sc1 : Scene)
    (hs : s.undoStack = a :: rest) (h : undoScene a s.scene = some (r, sc1)) :
    (undoStep s).scene = sc1 ∧ (undoStep s).undoStack = rest ∧
      (undoStep s).redoStack = r :: s.redoStack := by
  simp [undoStep, executeUndo, hs, h, undoSelClear_scene]

theorem redoStep_fields (s : CanvasState) (r : RAct) (rest : List RAct) (a1 : UAct) (sc1 : Scene)
    (hs : s.redoStack = r :: rest) (h : redoScene r s.scene = some (a1, sc1)) :
    (redoStep s).scene = sc1 ∧ (redoStep s).undoStack = a1 :: s.undoStack ∧
      (redoStep s).redoStack = rest := by
  simp [redoStep, executeRedo, hs, h]

theorem redoN_succ_last (n : Nat) : ∀ s, redoN (n + 1) s = redoStep (redoN n s) := by
  induction n with
  | zero => intro s; rfl
  | succ n ih =>
    intro s
    calc redoN (n + 1 + 1) s = redoN (n + 1) (redoStep s) := rfl
      _ = redoStep (redoN n (redoStep s)) := ih (redoStep s)
      _ = redoStep (redoN (n + 1) s) := rfl

theorem runMOps_inv (ops : List MOp) : ∀ s : CanvasState,
    s.undoStack.length + s.redoStack.length ≤ 5 →
    (runMOps ops s).undoStack.length + (runMOps ops s).redoStack.length ≤ 5 := by
  induction ops with
  | nil => intro s h; exact h
  | cons op rest ih =>
    intro s h
    have hstep : ∀ s1 : CanvasState,
        s1.undoStack.length + s1.redoStack.length ≤ 5 →
        (match op with
          | MOp.record a => recordAction a s1
          | MOp.und => undoStep s1
          | MOp.red => redoStep s1).undoStack.length +
        (match op with
          | MOp.record a => recordAction a s1
          | MOp.und => undoStep s1
          | MOp.red => redoStep s1).redoStack.length ≤ 5 := by
      intro s1 h1
      cases op with
      | record a =>
        show (recordAction a s1).undoStack.length + (recordAction a s1).redoStack.length ≤ 5
        have hred : (recordAction a s1).redoStack = [] := rfl
        have hund : (recordAction a s1).undoStack =
            if (a :: s1.undoStack).length > 5 then (a :: s1.undoStack).dropLast
            else a :: s1.undoStack := rfl
        rw [hred, hund]
        split
        · simp only [List.length_dropLast, List.length_cons, List.length_nil]
          omega
        · next hc =>
          simp only [List.length_cons, List.length_nil] at hc ⊢
          omega
      | und =>
        rcases hu : s1.undoStack with _ | ⟨a, rest2⟩
        · simpa [undoStep, hu, hu ▸ h1] using h1
        · rcases he : executeUndo a s1 with _ | ⟨r2, s2⟩ <;>
            simp [undoStep, hu, he] <;> rw [hu] at h1 <;> simp at h1 <;> omega
      | red =>
        rcases hr : s1.redoStack with _ | ⟨r2, rest2⟩
        · simpa [redoStep, hr] using h1
        · rcases he : executeRedo r2 s1 with _ | ⟨a2, s2⟩ <;>
            simp [redoStep, hr, he] <;> rw [hr] at h1 <;> simp at h1 <;> omega
    exact ih _ (hstep s h)

/-- Claim C9: after any interleaving of recordAction, undo and redo
    operations starting from empty stacks, the undo stack holds at most
    5 entries; the preserved invariant is that the combined size of the
    two stacks never exceeds 5. -/
theorem c9_undo_stack_bound (ops : List MOp) (s0 : CanvasState)
    (hu : s0.undoStack = []) (hr : s0.redoStack = []) :
    (runMOps ops s0).undoStack.length ≤ 5 := by
  have h := runMOps_inv ops s0 (by simp [hu, hr])
  omega

/-- Witness for C9 on a concrete nine-operation interleaving. -/
theorem c9_undo_stack_bound_witness :
    ({} : CanvasState).undoStack = [] ∧ ({} : CanvasState).redoStack = [] ∧
      (runMOps [.record (.objectAdd "a"), .record (.objectAdd "b"), .und, .red,
        .record (.objectAdd "c"), .record (.objectAdd "d"), .record (.objectAdd "e"),
        .record (.objectAdd "f"), .record (.objectAdd "g")] {}).undoStack.length ≤ 5 :=
  ⟨rfl, rfl, c9_undo_stack_bound _ _ rfl rfl⟩

/-- Claim C10: applying any inbound platform event - every branch of
    the dispatch, including the own-echo and canvas-id filters and all
    object, connector, stroke and group merge handlers - leaves the
    local undo stack and redo stack unchanged. -/
theorem c10_remote_events_preserve_history (myUserId myCanvasId : String)
    (ev : PlatformEvent) (s : CanvasState) :
    (handlePlatformEvent myUserId myCanvasId ev s).undoStack = s.undoStack ∧
    (handlePlatformEvent myUserId myCanvasId ev s).redoStack = s.redoStack := by
  unfold handlePlatformEvent
  split
  · exact ⟨rfl, rfl⟩
  · split
    · exact ⟨rfl, rfl⟩
    · cases ev.payload <;>
        simp only [handleRemoteObjectAdd, handleRemoteObjectMove, handleRemoteObjectResize,
          handleRemoteObjectStyle, handleRemoteObjectDelete, handleRemoteStroke,
          handleRemoteStrokeDelete, handleRemoteConnectorAdd, handleRemoteConnectorUpdate,
          handleRemoteConnectorDelete, handleRemoteLayerChange,
          handleRemoteConnectorLayerChange, handleRemoteGroupCreate,
          handleRemoteGroupUngroup] <;>
        (try split) <;> simp

theorem addOnce_count (p : α → Bool) (l : List α) (e : α) (hpe : p e = true)
    (hany : l.any p = false) : ((l ++ [e]).filter p).length = 1 := by
  have h0 : l.filter p = [] :=
    List.filter_eq_nil_iff.mpr (List.any_eq_false.mp hany)
  simp [List.filter_append, h0, List.filter_cons, hpe]

theorem count_pos_of_any (p : α → Bool) (l : List α) (h : l.any p = true) :
    0 < (l.filter p).length := by
  obtain ⟨x, hx, hpx⟩ := List.any_eq_true.mp h
  exact List.length_pos.mpr (List.ne_nil_of_mem (List.mem_filter.mpr ⟨hx, hpx⟩))

/-- Claim C1: applying the same object_add, connector_add or stroke_add
    event twice results in exactly one entity with that id (the second
    application is a no-op), and applying an object_delete,
    connector_delete or stroke_delete whose id matches no existing
    entity leaves the Scene unchanged (and, being a total function,
    cannot throw). -/
theorem c1_idempotent_add_and_delete (s : CanvasState) (o : CanvasObject)
    (c : Connector) (st : Stroke) (pid : String) :
    (handleRemoteObjectAdd o (handleRemoteObjectAdd o s) = handleRemoteObjectAdd o s) ∧
    (handleRemoteConnectorAdd c (handleRemoteConnectorAdd c s) = handleRemoteConnectorAdd c s) ∧
    (handleRemoteStroke st (handleRemoteStroke st s) = handleRemoteStroke st s) ∧
    (countMatches (fun x => x.id == o.id) s.scene.objects ≤ 1 →
      countMatches (fun x => x.id == o.id)
        (handleRemoteObjectAdd o (handleRemoteObjectAdd o s)).scene.objects = 1) ∧
    (countMatches (fun x => x.id == c.id) s.scene.connectors ≤ 1 →
      countMatches (fun x => x.id == c.id)
        (handleRemoteConnectorAdd c (handleRemoteConnectorAdd c s)).scene.connectors = 1) ∧
    (countMatches (fun x => x.id == st.id) s.scene.strokes ≤ 1 →
      countMatches (fun x => x.id == st.id)
        (handleRemoteStroke st (handleRemoteStroke st s)).scene.strokes = 1) ∧
    (s.scene.objects.all (fun x => !(x.id == pid)) = true →
      (handleRemoteObjectDelete pid s).scene = s.scene) ∧
    (s.scene.connectors.all (fun x => !(x.id == pid)) = true →
      (handleRemoteConnectorDelete pid s).scene = s.scene) ∧
    (s.scene.strokes.all (fun x => !(x.id == pid)) = true →
      (handleRemoteStrokeDelete pid s).scene = s.scene) := by
  refine ⟨?_, ?_, ?_, ?_, ?_, ?_, ?_, ?_, ?_⟩
  · by_cases h : s.scene.objects.any (fun x => x.id == o.id) = true
    · simp [handleRemoteObjectAdd, h]
    · simp [handleRemoteObjectAdd, eq_false_of_ne_true h, List.any_append]
  · by_cases h : s.scene.connectors.any (fun x => x.id == c.id) = true
    · simp [handleRemoteConnectorAdd, h]
    · simp [handleRemoteConnectorAdd, eq_false_of_ne_true h, List.any_append]
  · by_cases h : s.scene.strokes.any (fun x => x.id == st.id) = true
    · simp [handleRemoteStroke, h]
    · simp [handleRemoteStroke, eq_false_of_ne_true h, List.any_append]
  · intro hle
    by_cases h : s.scene.objects.any (fun x => x.id == o.id) = true
    · have hpos := count_pos_of_any _ _ h
      simp only [handleRemoteObjectAdd, h, if_true, countMatches] at hle hpos ⊢
      omega
    · have h' := eq_false_of_ne_true h
      simp only [handleRemoteObjectAdd, h', Bool.false_eq_true, if_false]
      have hany2 : (s.scene.objects ++ [o]).any (fun x => x.id == o.id) = true := by
        simp [List.any_append]
      simp only [hany2, if_true, countMatches]
      exact addOnce_count _ _ _ (by simp) h'
  · intro hle
    by_cases h : s.scene.connectors.any (fun x => x.id == c.id) = true
    · have hpos := count_pos_of_any _ _ h
      simp only [handleRemoteConnectorAdd, h, if_true, countMatches] at hle hpos ⊢
      omega
    · have h' := eq_false_of_ne_true h
      simp only [handleRemoteConnectorAdd, h', Bool.false_eq_true, if_false]
      have hany2 : (s.scene.connectors ++ [c]).any (fun x => x.id == c.id) = true := by
        simp [List.any_append]
      simp only [hany2, if_true, countMatches]
      exact addOnce_count _ _ _ (by simp) h'
  · intro hle
    by_cases h : s.scene.strokes.any (fun x => x.id == st.id) = true
    · have hpos := count_pos_of_any _ _ h
      simp only [handleRemoteStroke, h, if_true, countMatches] at hle hpos ⊢
      omega
    · have h' := eq_false_of_ne_true h
      simp only [handleRemoteStroke, h', Bool.false_eq_true, if_false]
      have hany2 : (s.scene.strokes ++ [st]).any (fun x => x.id == st.id) = true := by
        simp [List.any_append]
      simp only [hany2, if_true, countMatches]
      exact addOnce_count _ _ _ (by simp) h'
  · intro hall
    have hf : s.scene.objects.filter (fun x => !(x.id == pid)) = s.scene.objects :=
      List.filter_eq_self.mpr (List.all_eq_true.mp hall)
    simp [handleRemoteObjectDelete, hf]
  · intro hall
    have hf : s.scene.connectors.filter (fun x => !(x.id == pid)) = s.scene.connectors :=
      List.filter_eq_self.mpr (List.all_eq_true.mp hall)
    simp [handleRemoteConnectorDelete, hf]
  · intro hall
    have hf : s.scene.strokes.filter (fun x => !(x.id == pid)) = s.scene.strokes :=
      List.filter_eq_self.mpr (List.all_eq_true.mp hall)
    simp [handleRemoteStrokeDelete, hf]

/-- Witness for C1: the concrete entities on an initially empty state. -/
theorem c1_idempotent_add_and_delete_witness :
    countMatches (fun x => x.id == objA.id) ({} : CanvasState).scene.objects ≤ 1 ∧
    ({} : CanvasState).scene.objects.all (fun x => !(x.id == "ghost")) = true ∧
    countMatches (fun x => x.id == objA.id)
      (handleRemoteObjectAdd objA (handleRemoteObjectAdd objA {})).scene.objects = 1 ∧
    (handleRemoteObjectDelete "ghost" ({} : CanvasState)).scene = ({} : CanvasState).scene :=
  ⟨by decide, by decide,
    (c1_idempotent_add_and_delete {} objA connC strokeS "ghost").2.2.2.1 (by decide),
    (c1_idempotent_add_and_delete {} objA connC strokeS "ghost").2.2.2.2.2.2.1 (by decide)⟩

/-- Counterexample to claim C6: in a state where the object with id "a"
    is selected, the remote object_delete for "a" removes the object
    from the scene but the selection still references the removed id -
    handleRemoteObjectDelete clears no hover or selection reference. -/
theorem c6_counterexample :
    stateC6.selectedObject = some objA ∧
    objA.id = "a" ∧
    objA ∈ stateC6.scene.objects ∧
    (handleRemoteObjectDelete "a" stateC6).scene.objects = [] ∧
    (handleRemoteObjectDelete "a" stateC6).selectedObject = some objA := by
  exact ⟨rfl, rfl, by decide, by decide, rfl⟩

/-- Claim C6 amended: every remote delete removes the entity by id
    filtering; stroke_delete clears the hovered-stroke reference when it
    matches the removed id and connector_delete clears the
    selected-connector reference when it matches, but object_delete
    leaves every hover and selection reference untouched. -/
theorem c6_amended_delete_behavior (s : CanvasState) (pid : String) :
    ((handleRemoteObjectDelete pid s).scene.objects
      = s.scene.objects.filter (fun o => !(o.id == pid))) ∧
    ((handleRemoteObjectDelete pid s).selectedObject = s.selectedObject) ∧
    ((handleRemoteObjectDelete pid s).selectedObjects = s.selectedObjects) ∧
    ((handleRemoteObjectDelete pid s).hoveredStroke = s.hoveredStroke) ∧
    ((handleRemoteObjectDelete pid s).selectedConnector = s.selectedConnector) ∧
    ((handleRemoteStrokeDelete pid s).scene.strokes
      = s.scene.strokes.filter (fun st => !(st.id == pid))) ∧
    ((handleRemoteStrokeDelete pid s).hoveredStroke
      = match s.hoveredStroke with
        | some st => if st.id == pid then none else some st
        | none => none) ∧
    ((handleRemoteConnectorDelete pid s).scene.connectors
      = s.scene.connectors.filter (fun c => !(c.id == pid))) ∧
    ((handleRemoteConnectorDelete pid s).selectedConnector
      = match s.selectedConnector with
        | some c => if c.id == pid then none else some c
        | none => none) :=
  ⟨rfl, rfl, rfl, rfl, rfl, rfl, rfl, rfl, rfl⟩

theorem foldl_max_le_self (l : List Int) : ∀ a : Int, a ≤ l.foldl max a := by
  induction l with
  | nil => intro a; exact le_refl a
  | cons x xs ih =>
    intro a
    exact le_trans (le_max_left a x) (ih (max a x))

theorem le_foldl_max (l : List Int) : ∀ (a z : Int), z ∈ l → z ≤ l.foldl max a := by
  induction l with
  | nil => intro a z hz; simp at hz
  | cons x xs ih =>
    intro a z hz
    rcases List.mem_cons.mp hz with rfl | hz
    · exact le_trans (le_max_right a z) (foldl_max_le_self xs (max a z))
    · exact ih (max a x) z hz

theorem foldl_max_attained (l : List Int) :
    ∀ a : Int, l.foldl max a = a ∨ l.foldl max a ∈ l := by
  induction l with
  | nil => intro a; exact Or.inl rfl
  | cons x xs ih =>
    intro a
    rcases ih (max a x) with h | h
    · rcases max_choice a x with hm | hm
      · exact Or.inl (by rw [List.foldl_cons, h, hm])
      · exact Or.inr (by rw [List.foldl_cons, h, hm]; exact List.mem_cons_self x xs)
    · exact Or.inr (List.mem_cons_of_mem x h)

theorem getNextZIndex_gt (sc : Scene) :
    ∀ z ∈ sc.objects.map (fun o => zOf o.zIndex)
        ++ sc.connectors.map (fun c => zOf c.zIndex), z < getNextZIndex sc := by
  intro z hz
  unfold getNextZIndex
  dsimp only
  split
  · next hl => rw [hl] at hz; simp at hz
  · next z0 zs hl =>
    rw [hl] at hz
    rcases List.mem_cons.mp hz with h | h
    · have := foldl_max_le_self zs z0
      omega
    · have := le_foldl_max zs z0 z h
      omega

/-- Claim C3: getNextZIndex returns a value strictly greater than the
    zIndex of every existing object and connector; strokes carry no
    zIndex field in the source and the function is independent of the
    strokes collection; on a non-empty combined collection the result
    is one plus the maximum zIndex across the collections (the maximum
    is attained by some object or connector). -/
theorem c3_next_zindex (sc : Scene) :
    (∀ o ∈ sc.objects, zOf o.zIndex < getNextZIndex sc) ∧
    (∀ c ∈ sc.connectors, zOf c.zIndex < getNextZIndex sc) ∧
    (∀ strokes2 : List Stroke,
      getNextZIndex { sc with strokes := strokes2 } = getNextZIndex sc) ∧
    (sc.objects ≠ [] ∨ sc.connectors ≠ [] →
      (∃ o ∈ sc.objects, zOf o.zIndex = getNextZIndex sc - 1) ∨
      (∃ c ∈ sc.connectors, zOf c.zIndex = getNextZIndex sc - 1)) := by
  refine ⟨?_, ?_, fun _ => rfl, ?_⟩
  · intro o ho
    exact getNextZIndex_gt sc _ (List.mem_append_left _ (List.mem_map_of_mem _ ho))
  · intro c hc
    exact getNextZIndex_gt sc _ (List.mem_append_right _ (List.mem_map_of_mem _ hc))
  · intro hne
    have hm : getNextZIndex sc - 1 ∈ sc.objects.map (fun o => zOf o.zIndex)
        ++ sc.connectors.map (fun c => zOf c.zIndex) := by
      unfold getNextZIndex
      dsimp only
      split
      · next hl =>
        rcases hne with h | h
        · rcases List.append_eq_nil.mp hl with ⟨h1, _⟩
          exact absurd (List.map_eq_nil_iff.mp h1) h
        · rcases List.append_eq_nil.mp hl with ⟨_, h2⟩
          exact absurd (List.map_eq_nil_iff.mp h2) h
      · next z0 zs hl =>
        rw [hl]
        have hsub : zs.foldl max z0 + 1 - 1 = zs.foldl max z0 := by omega
        rw [hsub]
        rcases foldl_max_attained zs z0 with h | h
        · rw [h]; exact List.mem_cons_self z0 zs
        · exact List.mem_cons_of_mem z0 h
    rcases List.mem_append.mp hm with h | h
    · obtain ⟨o, ho, hoz⟩ := List.mem_map.mp h
      exact Or.inl ⟨o, ho, hoz⟩
    · obtain ⟨c, hc, hcz⟩ := List.mem_map.mp h
      exact Or.inr ⟨c, hc, hcz⟩

/-- Witness for C3 at a concrete scene. -/
theorem c3_next_zindex_witness :
    groupG ∈ sceneC4.objects ∧ zOf groupG.zIndex < getNextZIndex sceneC4 ∧
      (sceneC4.objects ≠ [] ∨ sceneC4.connectors ≠ []) ∧
      ((∃ o ∈ sceneC4.objects, zOf o.zIndex = getNextZIndex sceneC4 - 1) ∨
        (∃ c ∈ sceneC4.connectors, zOf c.zIndex = getNextZIndex sceneC4 - 1)) :=
  ⟨by decide, (c3_next_zindex sceneC4).1 groupG (by decide), by decide,
    (c3_next_zindex sceneC4).2.2.2 (by decide)⟩

theorem updateFirst_eq_map_of_count (p : α → Bool) (f : α → α) :
    ∀ l : List α, (l.filter p).length ≤ 1 →
      updateFirst p f l = l.map (fun x => if p x then f x else x) := by
  intro l
  induction l with
  | nil => intro _; rfl
  | cons x xs ih =>
    intro h
    by_cases hx : p x = true
    · have hxs : xs.filter p = [] := by
        rw [List.filter_cons_of_pos hx] at h
        simp only [List.length_cons] at h
        exact List.length_eq_zero.mp (by omega)
      have hrest : xs.map (fun y => if p y then f y else y) = xs := by
        have hall := List.filter_eq_nil_iff.mp hxs
        calc xs.map (fun y => if p y then f y else y) = xs.map id := by
              apply List.map_congr_left
              intro y hy
              simp [eq_false_of_ne_true (hall y hy)]
          _ = xs := List.map_id xs
      simp [updateFirst, hx, hrest]
    · have hx' := eq_false_of_ne_true hx
      rw [List.filter_cons_of_neg (by simp [hx'])] at h
      simp [updateFirst, hx', ih h]

theorem nodup_key_count (key : α → String) :
    ∀ l : List α, (l.map key).Nodup →
      ∀ c : String, (l.filter (fun x => key x == c)).length ≤ 1 := by
  intro l
  induction l with
  | nil => intro _ c; simp
  | cons x xs ih =>
    intro hnd c
    have hnd1 : (key x :: xs.map key).Nodup := by simpa using hnd
    have hnd2 := List.nodup_cons.mp hnd1
    by_cases hx : (key x == c) = true
    · have hkc : key x = c := by simpa using hx
      have hxs : xs.filter (fun y => key y == c) = [] := by
        apply List.filter_eq_nil_iff.mpr
        intro y hy hyc
        have hyc' : key y = c := by simpa using hyc
        exact hnd2.1 (by
          rw [hkc, ← hyc']
          exact List.mem_map_of_mem key hy)
      simp [List.filter_cons, hx, hxs]
    · simp only [List.filter_cons, hx, if_false]
      exact ih hnd2.2 c

theorem foldl_updateFirst_eq_map (key : α → String) (f : α → α)
    (hkey : ∀ x, key (f x) = key x) :
    ∀ (cids : List String) (l : List α), cids.Nodup → (l.map key).Nodup →
      cids.foldl (fun acc cid => updateFirst (fun x => key x == cid) f acc) l
        = l.map (fun x => if key x ∈ cids then f x else x) := by
  intro cids
  induction cids with
  | nil =>
    intro l _ _
    simp
  | cons cid cs ih =>
    intro l hnd hlnd
    have hnd2 := List.nodup_cons.mp hnd
    have hcount := nodup_key_count key l hlnd cid
    have h1 : updateFirst (fun x => key x == cid) f l
        = l.map (fun x => if (key x == cid) = true then f x else x) :=
      updateFirst_eq_map_of_count _ _ l hcount
    have hmapkey : (l.map (fun x => if (key x == cid) = true then f x else x)).map key
        = l.map key := by
      rw [List.map_map]
      apply List.map_congr_left
      intro x _
      by_cases h : (key x == cid) = true <;> simp [Function.comp, h, hkey]
    rw [List.foldl_cons, h1, ih _ hnd2.2 (by rw [hmapkey]; exact hlnd), List.map_map]
    apply List.map_congr_left
    intro x _
    by_cases h : key x = cid
    · have hb : (key x == cid) = true := by simpa using h
      have hnotin : key (f x) ∉ cs := by
        rw [hkey, h]
        exact hnd2.1
      simp [Function.comp, hb, hnotin, h]
    · have hb : (key x == cid) = false := by simpa using h
      by_cases hmem : key x ∈ cs <;>
        simp [Function.comp, hb, hmem, h, List.mem_cons]

theorem moveConnectorBy_eq (dx dy : ℚ) (c : Connector) :
    moveConnectorBy dx dy c = { c with
      startPoint := if c.startAnchor.isSome then c.startPoint
        else c.startPoint.map (movePt dx dy),
      endPoint := if c.endAnchor.isSome then c.endPoint
        else c.endPoint.map (movePt dx dy),
      waypoints := c.waypoints.map (fun wps => wps.map (movePt dx dy)),
      controlPoint1 := c.controlPoint1.map (movePt dx dy),
      controlPoint2 := c.controlPoint2.map (movePt dx dy) } := by
  obtain ⟨cid, ct, sx, sy, ex, ey, sa, ea, sp, ep, wp, q1, q2, lb, lp, zz, col, lw⟩ := c
  cases sp <;> cases sa <;> cases ep <;> cases ea <;> cases wp <;> cases q1 <;> cases q2 <;>
    simp [moveConnectorBy]

/-- Claim C4: moving a group by (dx, dy) translates every child object
    found in the scene by exactly (dx, dy) and applies to every grouped
    connector the translation of its floating (non-anchored) endpoints,
    its waypoints and its control points by the same delta; strokes are
    untouched. Id uniqueness (a documented Scene invariant) and
    duplicate-free group membership lists are assumed. -/
theorem c4_group_move (group : CanvasObject) (dx dy : ℚ) (sc : Scene)
    (hchild : (group.children.getD []).Nodup)
    (hconn : (group.connectorIds.getD []).Nodup)
    (hobjIds : (sc.objects.map (fun o => o.id)).Nodup)
    (hconnIds : (sc.connectors.map (fun c => c.id)).Nodup) :
    ((moveGroupChildren group dx dy sc).objects
      = sc.objects.map (fun o => if o.id ∈ group.children.getD []
          then { o with x := o.x + dx, y := o.y + dy } else o)) ∧
    ((moveGroupChildren group dx dy sc).connectors
      = sc.connectors.map (fun c => if c.id ∈ group.connectorIds.getD []
          then moveConnectorBy dx dy c else c)) ∧
    ((moveGroupChildren group dx dy sc).strokes = sc.strokes) ∧
    (∀ c : Connector, c.startAnchor = none →
      (moveConnectorBy dx dy c).startPoint = c.startPoint.map (movePt dx dy)) ∧
    (∀ c : Connector, c.endAnchor = none →
      (moveConnectorBy dx dy c).endPoint = c.endPoint.map (movePt dx dy)) ∧
    (∀ c : Connector, (moveConnectorBy dx dy c).waypoints
      = c.waypoints.map (fun wps => wps.map (movePt dx dy))) ∧
    (∀ c : Connector, (moveConnectorBy dx dy c).controlPoint1
      = c.controlPoint1.map (movePt dx dy)) ∧
    (∀ c : Connector, (moveConnectorBy dx dy c).controlPoint2
      = c.controlPoint2.map (movePt dx dy)) := by
  refine ⟨?_, ?_, rfl, ?_, ?_, ?_, ?_, ?_⟩
  · exact foldl_updateFirst_eq_map (fun o : CanvasObject => o.id)
      (fun o => { o with x := o.x + dx, y := o.y + dy }) (fun o => rfl) _ _ hchild hobjIds
  · exact foldl_updateFirst_eq_map (fun c : Connector => c.id) (moveConnectorBy dx dy)
      (fun c => by rw [moveConnectorBy_eq]) _ _ hconn hconnIds
  · intro c hc
    rw [moveConnectorBy_eq]
    simp [hc]
  · intro c hc
    rw [moveConnectorBy_eq]
    simp [hc]
  · intro c
    rw [moveConnectorBy_eq]
  · intro c
    rw [moveConnectorBy_eq]
  · intro c
    rw [moveConnectorBy_eq]

/-- Witness for C4: the spec scenario - O1 at (0,0) and O2 at (50,0)
    grouped into G, moved by (10,20), end at (10,20) and (60,20). -/
theorem c4_group_move_witness :
    ((groupG.children.getD []).Nodup ∧ (groupG.connectorIds.getD []).Nodup ∧
      (sceneC4.objects.map (fun o => o.id)).Nodup ∧
      (sceneC4.connectors.map (fun c => c.id)).Nodup) ∧
    ((moveGroupChildren groupG 10 20 sceneC4).objects
      = sceneC4.objects.map (fun o => if o.id ∈ groupG.children.getD []
          then { o with x := o.x + 10, y := o.y + 20 } else o)) ∧
    ((moveGroupChildren groupG 10 20 sceneC4).objects.map (fun o => (o.id, o.x, o.y))
      = [("o1", 10, 20), ("o2", 60, 20), ("g", 0, 0)]) :=
  ⟨⟨by decide, by decide, by decide, by decide⟩,
    (c4_group_move groupG 10 20 sceneC4 (by decide) (by decide) (by decide) (by decide)).1,
    by norm_num [moveGroupChildren, sceneC4, groupG, objO1, objO2, updateFirst]; simp⟩

theorem getAnchorPoint_translate (obj : CanvasObject) (dx dy : ℚ) (pos : String) :
    getAnchorPoint { obj with x := obj.x + dx, y := obj.y + dy } pos
      = movePt dx dy (getAnchorPoint obj pos) := by
  unfold getAnchorPoint movePt
  dsimp only
  split_ifs <;> simp only [Pt.mk.injEq] <;> constructor <;> ring_nf

theorem resolveConnectorPoint_start (objects : List CanvasObject) (c : Connector) :
    resolveConnectorPoint objects c "start"
      = match c.startAnchor with
        | some a =>
          if a.objectId == "" then ⟨c.startX, c.startY⟩
          else
            match objects.find? (fun o => o.id == a.objectId) with
            | some obj => getAnchorPoint obj a.position
            | none => ⟨c.startX, c.startY⟩
        | none => ⟨c.startX, c.startY⟩ := rfl

/-- Claim C5: for a connector whose start endpoint is anchored to
    object A, translating A by (dx, dy) changes the resolved start
    point by exactly (dx, dy) with no connector mutation; when A does
    not exist, resolution returns the literal stored coordinates. -/
theorem c5_anchor_reresolution (sc : Scene) (c : Connector) (A p : String) (dx dy : ℚ)
    (hA : c.startAnchor = some ⟨A, p⟩) (hne : ¬(A = "")) :
    (sc.objects.any (fun o => o.id == A) = true →
      resolveConnectorPoint (translateObject sc.objects A dx dy) c "start"
        = movePt dx dy (resolveConnectorPoint sc.objects c "start")) ∧
    ((∀ o ∈ sc.objects, ¬(o.id = A)) →
      resolveConnectorPoint sc.objects c "start" = ⟨c.startX, c.startY⟩) := by
  have hne2 : (A == "") = false := by simpa using hne
  constructor
  · intro hany
    obtain ⟨obj, hfind⟩ := find?_of_any _ _ hany
    have hpf : ∀ o : CanvasObject, (o.id == A) = true →
        ((({ o with x := o.x + dx, y := o.y + dy } : CanvasObject)).id == A) = true :=
      fun o ho => ho
    have hfind2 : (translateObject sc.objects A dx dy).find? (fun o => o.id == A)
        = some { obj with x := obj.x + dx, y := obj.y + dy } := by
      unfold translateObject
      rw [find?_updateFirst _ _ hpf, hfind]
      rfl
    rw [resolveConnectorPoint_start, resolveConnectorPoint_start, hA]
    dsimp only
    simp only [hne2, Bool.false_eq_true, if_false]
    rw [hfind, hfind2]
    exact getAnchorPoint_translate obj dx dy p
  · intro hnone
    have hfind : sc.objects.find? (fun o => o.id == A) = none :=
      List.find?_eq_none.mpr (fun o ho => by simpa using hnone o ho)
    rw [resolveConnectorPoint_start, hA]
    dsimp only
    simp only [hne2, Bool.false_eq_true, if_false]
    rw [hfind]

/-- Witness for C5: a connector anchored to the right side of object
    "a", which exists in the scene. -/
theorem c5_anchor_reresolution_witness :
    connC5.startAnchor = some ⟨"a", "right"⟩ ∧ ¬("a" = "") ∧
      (stateC6.scene.objects.any (fun o => o.id == "a") = true) ∧
      resolveConnectorPoint (translateObject stateC6.scene.objects "a" 7 9) connC5 "start"
        = movePt 7 9 (resolveConnectorPoint stateC6.scene.objects connC5 "start") :=
  ⟨rfl, by decide, by decide,
    (c5_anchor_reresolution stateC6.scene connC5 "a" "right" 7 9 rfl (by decide)).1 (by decide)⟩

/-- Counterexample to claim C7: at a delta of 11px arriving exactly
    50ms after the last send, both gating conditions of the claim hold
    (delta exceeds 10px and at least 50ms have elapsed), yet
    sendCursorUpdate sends nothing because the code requires strictly
    more than 50ms. -/
theorem c7_counterexample :
    |(11 : ℚ) - (0 : ℚ)| > DELTA_THRESHOLD ∧
    (50 : Int) - (0 : Int) ≥ CURSOR_UPDATE_THROTTLE ∧
    (sendCursorUpdate ⟨0, 0, 0⟩ 11 0 50).2 = false := by
  refine ⟨by norm_num [DELTA_THRESHOLD], by norm_num [CURSOR_UPDATE_THROTTLE], ?_⟩
  simp [sendCursorUpdate, DELTA_THRESHOLD, CURSOR_UPDATE_THROTTLE]

theorem sendCursorUpdate_pos (s : CursorState) (x y : ℚ) (now : Int)
    (hc : (|x - s.lastSentX| > DELTA_THRESHOLD ∨ |y - s.lastSentY| > DELTA_THRESHOLD) ∧
      now - s.lastCursorSendTime > CURSOR_UPDATE_THROTTLE) :
    sendCursorUpdate s x y now = (⟨x, y, now⟩, true) := by
  unfold sendCursorUpdate
  dsimp only
  rw [if_pos hc]

theorem sendCursorUpdate_neg (s : CursorState) (x y : ℚ) (now : Int)
    (hc : ¬((|x - s.lastSentX| > DELTA_THRESHOLD ∨ |y - s.lastSentY| > DELTA_THRESHOLD) ∧
      now - s.lastCursorSendTime > CURSOR_UPDATE_THROTTLE)) :
    sendCursorUpdate s x y now = (s, false) := by
  unfold sendCursorUpdate
  dsimp only
  rw [if_neg hc]

/-- Claim C7 amended: a cursor update is sent exactly when the delta
    from the last sent position exceeds 10px in |dx| or |dy| and
    strictly more than 50ms have elapsed since the last send; on a send
    the state records the new position and time, otherwise it is
    unchanged; a sequence of moves each within 10px of the last sent
    position produces zero outbound sends; a single qualifying move
    produces exactly one send. -/
theorem c7_cursor_gating (s : CursorState) (x y : ℚ) (now : Int) :
    ((sendCursorUpdate s x y now).2 = true ↔
      ((|x - s.lastSentX| > DELTA_THRESHOLD ∨ |y - s.lastSentY| > DELTA_THRESHOLD) ∧
        now - s.lastCursorSendTime > CURSOR_UPDATE_THROTTLE)) ∧
    ((sendCursorUpdate s x y now).2 = true → (sendCursorUpdate s x y now).1 = ⟨x, y, now⟩) ∧
    ((sendCursorUpdate s x y now).2 = false → (sendCursorUpdate s x y now).1 = s) ∧
    (∀ moves : List CursorMove,
      (∀ m ∈ moves, |m.x - s.lastSentX| ≤ DELTA_THRESHOLD ∧
        |m.y - s.lastSentY| ≤ DELTA_THRESHOLD) →
      (processMoves s moves).2 = 0) ∧
    (((|x - s.lastSentX| > DELTA_THRESHOLD ∨ |y - s.lastSentY| > DELTA_THRESHOLD) ∧
        now - s.lastCursorSendTime > CURSOR_UPDATE_THROTTLE) →
      (processMoves s [⟨x, y, now⟩]).2 = 1) := by
  refine ⟨?_, ?_, ?_, ?_, ?_⟩
  · by_cases hc : (|x - s.lastSentX| > DELTA_THRESHOLD ∨ |y - s.lastSentY| > DELTA_THRESHOLD) ∧
        now - s.lastCursorSendTime > CURSOR_UPDATE_THROTTLE
    · simp [sendCursorUpdate_pos s x y now hc, hc]
    · simp [sendCursorUpdate_neg s x y now hc, hc]
  · intro hsent
    by_cases hc : (|x - s.lastSentX| > DELTA_THRESHOLD ∨ |y - s.lastSentY| > DELTA_THRESHOLD) ∧
        now - s.lastCursorSendTime > CURSOR_UPDATE_THROTTLE
    · rw [sendCursorUpdate_pos s x y now hc]
    · rw [sendCursorUpdate_neg s x y now hc] at hsent
      simp at hsent
  · intro hsent
    by_cases hc : (|x - s.lastSentX| > DELTA_THRESHOLD ∨ |y - s.lastSentY| > DELTA_THRESHOLD) ∧
        now - s.lastCursorSendTime > CURSOR_UPDATE_THROTTLE
    · rw [sendCursorUpdate_pos s x y now hc] at hsent
      simp at hsent
    · rw [sendCursorUpdate_neg s x y now hc]
  · intro moves
    induction moves with
    | nil => intro _; rfl
    | cons m ms ih =>
      intro hall
      have hm := hall m (List.mem_cons_self m ms)
      have hnc : ¬((|m.x - s.lastSentX| > DELTA_THRESHOLD ∨
          |m.y - s.lastSentY| > DELTA_THRESHOLD) ∧
          m.now - s.lastCursorSendTime > CURSOR_UPDATE_THROTTLE) := by
        intro hcon
        rcases hcon.1 with h | h
        · exact absurd h (not_lt.mpr hm.1)
        · exact absurd h (not_lt.mpr hm.2)
      have hstep := sendCursorUpdate_neg s m.x m.y m.now hnc
      show (let r := sendCursorUpdate s m.x m.y m.now
            let rest := processMoves r.1 ms
            (rest.1, (if r.2 then 1 else 0) + rest.2)).2 = 0
      rw [hstep]
      simpa using ih (fun m2 hm2 => hall m2 (List.mem_cons_of_mem m hm2))
  · intro hcond
    have hstep := sendCursorUpdate_pos s x y now hcond
    show (let r := sendCursorUpdate s x y now
          let rest := processMoves r.1 []
          (rest.1, (if r.2 then 1 else 0) + rest.2)).2 = 1
    rw [hstep]
    simp [processMoves]

/-- Witness for C7 at concrete moves: three small jittery moves send
    nothing and one 11px move after 60ms sends once. -/
theorem c7_cursor_gating_witness :
    (∀ m ∈ [(⟨3, 0, 10⟩ : CursorMove), ⟨0, 4, 20⟩, ⟨5, 5, 30⟩],
      |m.x - (0 : ℚ)| ≤ DELTA_THRESHOLD ∧ |m.y - (0 : ℚ)| ≤ DELTA_THRESHOLD) ∧
    (processMoves ⟨0, 0, 0⟩ [⟨3, 0, 10⟩, ⟨0, 4, 20⟩, ⟨5, 5, 30⟩]).2 = 0 ∧
    (((|(11 : ℚ) - 0| > DELTA_THRESHOLD ∨ |(0 : ℚ) - 0| > DELTA_THRESHOLD) ∧
        (60 : Int) - 0 > CURSOR_UPDATE_THROTTLE)) ∧
    (processMoves ⟨0, 0, 0⟩ [⟨11, 0, 60⟩]).2 = 1 := by
  have h1 : ∀ m ∈ [(⟨3, 0, 10⟩ : CursorMove), ⟨0, 4, 20⟩, ⟨5, 5, 30⟩],
      |m.x - (0 : ℚ)| ≤ DELTA_THRESHOLD ∧ |m.y - (0 : ℚ)| ≤ DELTA_THRESHOLD := by
    intro m hm
    fin_cases hm <;> constructor <;> norm_num [DELTA_THRESHOLD]
  have h2 : ((|(11 : ℚ) - 0| > DELTA_THRESHOLD ∨ |(0 : ℚ) - 0| > DELTA_THRESHOLD) ∧
      (60 : Int) - 0 > CURSOR_UPDATE_THROTTLE) := by
    constructor
    · left; norm_num [DELTA_THRESHOLD]
    · norm_num [CURSOR_UPDATE_THROTTLE]
  exact ⟨h1, (c7_cursor_gating ⟨0, 0, 0⟩ 11 0 60).2.2.2.1 _ h1,
    h2, (c7_cursor_gating ⟨0, 0, 0⟩ 11 0 60).2.2.2.2 h2⟩

/-- Counterexample to claim C8: a failed load in the editor component
    produces no visible notification and sets no error state at all -
    loadState only logs the failure and leaves the state unchanged. -/
theorem c8_counterexample :
    (loadState stateC8 .err).2 = [] ∧ (loadState stateC8 .err).1 = stateC8 :=
  ⟨rfl, rfl⟩

/-- Claim C8 amended: a failed save produces a visible error toast (and
    a successful save a success toast); a failed load in the editor
    component is only logged - no notification, no error state, state
    unchanged; in the viewer-only component a failed load sets a sticky
    error message that suppresses canvas rendering. -/
theorem c8_persistence_failure_surfacing (s : CanvasState) (v : ViewerState) :
    (handleSave .err = [⟨"Error", "Failed to save canvas", "error"⟩]) ∧
    (handleSave .ok = [⟨"Success", "Canvas saved successfully", "success"⟩]) ∧
    ((loadState s .err).1 = s) ∧
    ((loadState s .err).2 = []) ∧
    (viewerHasError (viewerLoadState v .err) = true) ∧
    (viewerShowCanvas (viewerLoadState v .err) = false) := by
  refine ⟨rfl, rfl, rfl, rfl, ?_, ?_⟩
  · simp [viewerLoadState, viewerHasError]
  · simp [viewerShowCanvas, viewerLoadState, viewerHasError]

/-! Counting, filtering and update lemmas for the replay argument of the
    undo/redo round trip. -/

theorem countMatches_cons (p : α → Bool) (x : α) (l : List α) :
    countMatches p (x :: l) = (if p x = true then 1 else 0) + countMatches p l := by
  by_cases hx : p x = true
  · simp [countMatches, List.filter_cons, hx, Nat.add_comm]
  · have hx2 : p x = false := eq_false_of_ne_true hx
    simp [countMatches, List.filter_cons, hx2]

theorem countMatches_append (p : α → Bool) (l1 l2 : List α) :
    countMatches p (l1 ++ l2) = countMatches p l1 + countMatches p l2 := by
  simp [countMatches, List.filter_append]

theorem countMatches_eq_zero (p : α → Bool) (l : List α) :
    countMatches p l = 0 ↔ ∀ x ∈ l, p x = false := by
  constructor
  · intro h x hx
    have h0 : l.filter p = [] := List.length_eq_zero.mp h
    by_cases hp : p x = true
    · exact absurd (List.mem_filter.mpr ⟨hx, hp⟩) (by simp [h0])
    · exact eq_false_of_ne_true hp
  · intro h
    have h0 : l.filter p = [] := List.filter_eq_nil_iff.mpr (fun x hx => by simp [h x hx])
    simp [countMatches, h0]

theorem filter_and (p q : α → Bool) :
    ∀ l : List α, (l.filter p).filter q = l.filter (fun x => p x && q x) := by
  intro l
  induction l with
  | nil => rfl
  | cons x xs ih =>
    by_cases hp : p x = true
    · by_cases hq : q x = true
      · simp [List.filter_cons, hp, hq, ih]
      · have hq2 : q x = false := eq_false_of_ne_true hq
        simp [List.filter_cons, hp, hq2, ih]
    · have hp2 : p x = false := eq_false_of_ne_true hp
      simp [List.filter_cons, hp2, ih]

theorem filter_comm (p q : α → Bool) (l : List α) :
    (l.filter p).filter q = (l.filter q).filter p := by
  rw [filter_and, filter_and]
  congr 1
  funext x
  exact Bool.and_comm (p x) (q x)

theorem filter_congr_mem (p q : α → Bool) :
    ∀ l : List α, (∀ x ∈ l, p x = q x) → l.filter p = l.filter q := by
  intro l
  induction l with
  | nil => intro _; rfl
  | cons x xs ih =>
    intro h
    have hx := h x (List.mem_cons_self x xs)
    have ihx := ih fun y hy => h y (List.mem_cons_of_mem x hy)
    by_cases hp : p x = true
    · simp [List.filter_cons, hp, hx ▸ hp, ihx]
    · have hp2 : p x = false := eq_false_of_ne_true hp
      simp [List.filter_cons, hp2, hx ▸ hp2, ihx]

theorem countMatches_filter_imp (p q : α → Bool) (h : ∀ x, p x = true → q x = true) :
    ∀ l : List α, countMatches p (l.filter q) = countMatches p l := by
  intro l
  induction l with
  | nil => rfl
  | cons x xs ih =>
    by_cases hq : q x = true
    · simp [List.filter_cons, hq, countMatches_cons, ih]
    · have hq2 : q x = false := eq_false_of_ne_true hq
      have hp2 : p x = false := by
        cases hpx : p x
        · rfl
        · exact absurd (h x hpx) (by simp [hq2])
      simp [List.filter_cons, hq2, countMatches_cons, hp2, ih]

theorem countMatches_filter_zero (p q : α → Bool) (l : List α)
    (h : ∀ x, p x = true → q x = false) :
    countMatches p (l.filter q) = 0 := by
  rw [countMatches_eq_zero]
  intro x hx
  have hq := (List.mem_filter.mp hx).2
  cases hpx : p x
  · rfl
  · exact absurd hq (by simp [h x hpx])

theorem countMatches_updateFirst (key : α → String) (i : String) (p : α → Bool) (f : α → α)
    (hf : ∀ x, key (f x) = key x) :
    ∀ l : List α, cntK key i (updateFirst p f l) = cntK key i l := by
  intro l
  induction l with
  | nil => rfl
  | cons x xs ih =>
    by_cases hp : p x = true
    · have h1 : updateFirst p f (x :: xs) = f x :: xs := by simp [updateFirst, hp]
      rw [h1]
      unfold cntK
      rw [countMatches_cons, countMatches_cons, hf x]
    · have hp2 : p x = false := eq_false_of_ne_true hp
      have h1 : updateFirst p f (x :: xs) = x :: updateFirst p f xs := by
        simp [updateFirst, hp2]
      rw [h1]
      unfold cntK at ih ⊢
      rw [countMatches_cons, countMatches_cons, ih]

theorem find?_of_count_pos (p : α → Bool) (l : List α) (h : 0 < countMatches p l) :
    ∃ e, l.find? p = some e := by
  have hne : l.filter p ≠ [] := by
    intro h0
    rw [countMatches, h0] at h
    simp at h
  obtain ⟨e, he⟩ := List.exists_mem_of_ne_nil _ hne
  have hm := List.mem_filter.mp he
  exact find?_of_any p l (List.any_eq_true.mpr ⟨e, hm.1, hm.2⟩)

theorem find?_eq_head_filter (p : α → Bool) :
    ∀ l : List α, l.find? p = (l.filter p).head? := by
  intro l
  induction l with
  | nil => rfl
  | cons x xs ih =>
    by_cases hp : p x = true
    · simp [List.find?_cons, List.filter_cons, hp]
    · have hp2 : p x = false := eq_false_of_ne_true hp
      have e1 : (x :: xs).find? p = xs.find? p := by
        rw [List.find?_cons]
        simp [hp2]
      have e2 : (x :: xs).filter p = xs.filter p := by
        rw [List.filter_cons]
        simp [hp2]
      rw [e1, e2, ih]

theorem filter_eq_of_count_one (p : α → Bool) (l : List α) (h : countMatches p l = 1) :
    ∃ e, l.filter p = [e] ∧ l.find? p = some e := by
  obtain ⟨e, he⟩ := List.length_eq_one.mp (h : (l.filter p).length = 1)
  exact ⟨e, he, by rw [find?_eq_head_filter, he]; rfl⟩

theorem updateFirst_filter_comm (p q : α → Bool) (f : α → α)
    (hpq : ∀ x, p x = true → q x = true) (hqf : ∀ x, p x = true → q (f x) = true) :
    ∀ l : List α, (updateFirst p f l).filter q = updateFirst p f (l.filter q) := by
  intro l
  induction l with
  | nil => rfl
  | cons x xs ih =>
    by_cases hp : p x = true
    · simp [updateFirst, List.filter_cons, hp, hpq x hp, hqf x hp]
    · have hp2 : p x = false := eq_false_of_ne_true hp
      by_cases hq : q x = true
      · simp [updateFirst, List.filter_cons, hp2, hq, ih]
      · have hq2 : q x = false := eq_false_of_ne_true hq
        simp [updateFirst, List.filter_cons, hp2, hq2, ih]

theorem filter_updateFirst_excl (p q : α → Bool) (f : α → α)
    (hpq : ∀ x, p x = true → q x = false) (hqf : ∀ x, p x = true → q (f x) = false) :
    ∀ l : List α, (updateFirst p f l).filter q = l.filter q := by
  intro l
  induction l with
  | nil => rfl
  | cons x xs ih =>
    by_cases hp : p x = true
    · simp [updateFirst, List.filter_cons, hp, hpq x hp, hqf x hp]
    · have hp2 : p x = false := eq_false_of_ne_true hp
      simp [updateFirst, List.filter_cons, hp2, ih]

theorem lastOnly_intro (p : α → Bool) :
    ∀ (front : List α) (e : α), p e = true → (∀ x ∈ front, p x = false) →
      lastOnly p (front ++ [e]) = true := by
  intro front
  induction front with
  | nil => intro e he _; simpa [lastOnly] using he
  | cons x fr ih =>
    intro e he hfr
    have hx : p x = false := hfr x (List.mem_cons_self x fr)
    have hrest := ih e he fun y hy => hfr y (List.mem_cons_of_mem x hy)
    cases fr with
    | nil => simp [lastOnly, hx, he]
    | cons z zs =>
      simp only [List.cons_append, lastOnly, hx, Bool.not_false, Bool.true_and]
      exact hrest

theorem lastOnly_filter (p q : α → Bool) (l : List α)
    (h : lastOnly p l = true) (hq : ∀ x, p x = true → q x = true) :
    lastOnly p (l.filter q) = true := by
  obtain ⟨front, e, rfl, hpe, hfront⟩ := lastOnly_spec p l h
  rw [List.filter_append, show [e].filter q = [e] from by simp [List.filter, hq e hpe]]
  exact lastOnly_intro p (front.filter q) e hpe
    fun x hx => hfront x (List.mem_of_mem_filter hx)

theorem contains_cons_eq (a i : String) (D : List String) :
    (a :: D).contains i = (i == a || D.contains i) := by
  simp only [List.contains, List.elem_cons]
  cases h : i == a <;> simp

theorem contains_append_eq (D E : List String) (i : String) :
    (D ++ E).contains i = (D.contains i || E.contains i) := by
  induction D with
  | nil => rfl
  | cons a as ih =>
    rw [List.cons_append, contains_cons_eq, contains_cons_eq, ih, Bool.or_assoc]

theorem contains_mem (D : List String) (i : String) : D.contains i = true ↔ i ∈ D :=
  List.elem_iff

theorem foldl_filter_contains (key : α → String) :
    ∀ (ids : List String) (l : List α),
      ids.foldl (fun acc i => acc.filter (fun x => !(key x == i))) l =
        l.filter (fun x => !(ids.contains (key x))) := by
  intro ids
  induction ids with
  | nil =>
    intro l
    exact (List.filter_eq_self.mpr fun x _ => rfl).symm
  | cons i ids ih =>
    intro l
    rw [List.foldl_cons, ih, filter_and]
    congr 1
    funext x
    rw [contains_cons_eq, Bool.not_or]

theorem countMatches_map_key (key : α → String) (i : String) :
    ∀ l : List α, cntK key i l = countMatches (fun k => k == i) (l.map key) := by
  intro l
  induction l with
  | nil => rfl
  | cons x xs ih =>
    unfold cntK at ih ⊢
    rw [List.map_cons, countMatches_cons, countMatches_cons, ih]

theorem nodup_count_le_one (i : String) :
    ∀ l : List String, l.Nodup → countMatches (fun k => k == i) l ≤ 1 := by
  intro l
  induction l with
  | nil => intro _; simp [countMatches]
  | cons a as ih =>
    intro hnd
    have hnd2 := List.nodup_cons.mp hnd
    rw [countMatches_cons]
    by_cases ha : (a == i) = true
    · have hai : a = i := by simpa using ha
      have h0 : countMatches (fun k => k == i) as = 0 := by
        rw [countMatches_eq_zero]
        intro x hx
        cases hxi : x == i
        · rfl
        · exfalso
          have hx2 : x = i := by simpa using hxi
          exact hnd2.1 (by rw [hai, ← hx2]; exact hx)
      simp [ha, h0]
    · have ha2 : (a == i) = false := eq_false_of_ne_true ha
      simpa [ha2] using ih hnd2.2

theorem filter_notin_nil (key : α → String) (l : List α) :
    l.filter (fun x => !(([] : List String).contains (key x))) = l :=
  List.filter_eq_self.mpr fun _ _ => rfl

theorem EquivD_refl (key : α → String) (D : List String) (l : List α) :
    EquivD key D l l := ⟨rfl, fun _ => rfl⟩

theorem EquivScene_refl (D : List String) (sc : Scene) : EquivScene D sc sc :=
  ⟨EquivD_refl _ _ _, EquivD_refl _ _ _, EquivD_refl _ _ _⟩

theorem EquivD_nil_eq (key : α → String) (l l2 : List α) (h : EquivD key [] l l2) :
    l = l2 := by
  have h1 := h.1
  rwa [filter_notin_nil, filter_notin_nil] at h1

theorem EquivScene_nil_eq (sc sc2 : Scene) (h : EquivScene [] sc sc2) : sc = sc2 := by
  obtain ⟨o, st, c⟩ := sc
  obtain ⟨o2, st2, c2⟩ := sc2
  obtain ⟨h1, h2, h3⟩ := h
  have e1 : o = o2 := EquivD_nil_eq _ _ _ h1
  have e2 : c = c2 := EquivD_nil_eq _ _ _ h2
  have e3 : st = st2 := EquivD_nil_eq _ _ _ h3
  rw [e1, e2, e3]

theorem EquivD_shrink (key : α → String) (j : String) (D : List String) (l l2 : List α)
    (h : EquivD key (j :: D) l l2) (h0 : cntK key j l = 0) :
    EquivD key D l l2 := by
  have h02 : cntK key j l2 = 0 := by rw [← h.2 j]; exact h0
  constructor
  · have hc : ∀ (m : List α), cntK key j m = 0 →
        m.filter (fun x => !(D.contains (key x))) =
          m.filter (fun x => !((j :: D).contains (key x))) := by
      intro m hm
      apply filter_congr_mem
      intro x hx
      have hxj : (key x == j) = false := (countMatches_eq_zero _ _).mp hm x hx
      rw [contains_cons_eq, hxj, Bool.false_or]
    rw [hc l h0, hc l2 h02]
    exact h.1
  · exact h.2

/-- Replay transfer for an add-type entry: undoing it removed its
    unique entity e from the collection; after the earlier redos have
    rebuilt a collection agreeing with that removal up to the pending
    deletes, re-pushing e at the end restores agreement with the
    original collection (exactly when e was last among the non-pending
    elements, and up to the pending deletes otherwise). -/
theorem add_transfer (key : α → String) (D : List String) (i : String) (l vl : List α) (e : α)
    (hfind : l.find? (fun x => key x == i) = some e)
    (hcnt : cntK key i l = 1)
    (hpos : D.contains i = true ∨
      lastOnly (fun x => key x == i) (l.filter (fun x => !(D.contains (key x)))) = true)
    (hEq : EquivD key D vl (l.filter (fun x => !(key x == i)))) :
    EquivD key D (vl ++ [e]) l := by
  have hpe := List.find?_some hfind
  have hei : key e = i := by simpa using hpe
  constructor
  · by_cases hiD : D.contains i = true
    · have hmemD : i ∈ D := (contains_mem D i).mp hiD
      have he0 : [e].filter (fun x => !(D.contains (key x))) = [] := by
        simp [List.filter_cons, hei, hiD, hmemD]
      rw [List.filter_append, he0, List.append_nil, hEq.1, filter_and]
      apply filter_congr_mem
      intro x _
      cases hxi : (key x == i)
      · simp
      · have hx2 : key x = i := by simpa using hxi
        simp [hx2, hiD, hmemD]
    · have hiD2 : D.contains i = false := eq_false_of_ne_true hiD
      have hlast : lastOnly (fun x => key x == i)
          (l.filter (fun x => !(D.contains (key x)))) = true := by
        rcases hpos with h | h
        · rw [hiD2] at h
          exact absurd h Bool.false_ne_true
        · exact h
      obtain ⟨front, e2, hfe, hpe2, hfront⟩ := lastOnly_spec _ _ hlast
      obtain ⟨u, hu, hufind⟩ := filter_eq_of_count_one _ l hcnt
      have heu : e = u := by
        rw [hfind] at hufind
        exact Option.some.inj hufind
      have he2mem : e2 ∈ l.filter (fun x => key x == i) := List.mem_filter.mpr
        ⟨List.mem_of_mem_filter
          (by rw [hfe]; exact List.mem_append_right _ (by simp)), hpe2⟩
      have hee2 : e2 = e := by
        rw [hu] at he2mem
        have h3 : e2 = u := by simpa using he2mem
        rw [h3, ← heu]
      have hmemD : i ∉ D := fun hm => by
        have hc := (contains_mem D i).mpr hm
        rw [hiD2] at hc
        exact Bool.false_ne_true hc
      rw [List.filter_append,
        show [e].filter (fun x => !(D.contains (key x))) = [e] from by
          simp [List.filter_cons, hei, hiD2, hmemD],
        hEq.1, filter_and,
        show (fun x => (!(key x == i)) && !(D.contains (key x))) =
            (fun x => (!(D.contains (key x))) && !(key x == i)) from
          funext fun x => Bool.and_comm _ _,
        ← filter_and, hfe, filter_append_last _ _ _ hfront hpe2, hee2]
  · intro j
    have hvl := hEq.2 j
    have happ : cntK key j (vl ++ [e]) = cntK key j vl + cntK key j [e] :=
      countMatches_append _ _ _
    by_cases hij : i = j
    · subst hij
      have h0 : cntK key i (l.filter (fun x => !(key x == i))) = 0 :=
        countMatches_filter_zero _ _ l fun x hx => by rw [hx]; rfl
      have he1 : cntK key i [e] = 1 := by
        simp [cntK, countMatches, List.filter_cons, hpe]
      rw [happ, hvl, h0, he1, hcnt]
    · have hji : ∀ x, (key x == j) = true → (!(key x == i)) = true := by
        intro x hx
        have hx2 : key x = j := by simpa using hx
        have hne : (key x == i) = false := by
          rw [hx2]
          exact beq_eq_false_iff_ne.mpr fun hc => hij hc.symm
        rw [hne]
        rfl
      have hfil : cntK key j (l.filter (fun x => !(key x == i))) = cntK key j l :=
        countMatches_filter_imp _ _ hji l
      have hne2 : (key e == j) = false := by
        rw [hei]
        exact beq_eq_false_iff_ne.mpr hij
      have he0 : cntK key j [e] = 0 := by
        simp [cntK, countMatches, List.filter_cons, hne2]
      rw [happ, hvl, hfil, he0]
      rfl

/-- Replay transfer for a delete-type entry: undoing it appended the
    recorded entity v back, so the collection the earlier redos rebuilt
    holds exactly one element with v's id, and re-deleting it restores
    agreement with the original collection off the remaining pending
    deletes (the original holds no such element at all). -/
theorem del_transfer (key : α → String) (D : List String) (l vl : List α) (v : α)
    (hcnt : cntK key (key v) l = 0)
    (hEq : EquivD key (key v :: D) vl (l ++ [v])) :
    cntK key (key v) vl = 1 ∧
      EquivD key D (vl.filter (fun x => !(key x == key v))) l := by
  have hc1 : cntK key (key v) vl = 1 := by
    rw [hEq.2 (key v)]
    unfold cntK at hcnt ⊢
    rw [countMatches_append, hcnt]
    simp [countMatches, List.filter_cons]
  refine ⟨hc1, ?_, ?_⟩
  · have h1 : (vl.filter (fun x => !(key x == key v))).filter
        (fun x => !(D.contains (key x))) =
        vl.filter (fun x => !((key v :: D).contains (key x))) := by
      rw [filter_and]
      congr 1
      funext x
      rw [contains_cons_eq, Bool.not_or]
    have h2 : (l ++ [v]).filter (fun x => !((key v :: D).contains (key x))) =
        l.filter (fun x => !((key v :: D).contains (key x))) := by
      rw [List.filter_append]
      have h3 : [v].filter (fun x => !((key v :: D).contains (key x))) = [] := by
        simp [List.filter_cons, contains_cons_eq]
      rw [h3, List.append_nil]
    have h4 : l.filter (fun x => !((key v :: D).contains (key x))) =
        l.filter (fun x => !(D.contains (key x))) := by
      apply filter_congr_mem
      intro x hx
      have hxi : (key x == key v) = false := (countMatches_eq_zero _ _).mp hcnt x hx
      rw [contains_cons_eq, hxi, Bool.false_or]
    rw [h1, hEq.1, h2, h4]
  · intro j
    by_cases hij : key v = j
    · subst hij
      have h0 : cntK key (key v) (vl.filter (fun x => !(key x == key v))) = 0 :=
        countMatches_filter_zero _ _ vl fun x hx => by rw [hx]; rfl
      rw [h0, hcnt]
    · have hji : ∀ x, (key x == j) = true → (!(key x == key v)) = true := by
        intro x hx
        have hx2 : key x = j := by simpa using hx
        have hne : (key x == key v) = false := by
          rw [hx2]
          exact beq_eq_false_iff_ne.mpr fun hc => hij hc.symm
        rw [hne]
        rfl
      have hvv := hEq.2 j
      unfold cntK at hvv ⊢
      rw [countMatches_filter_imp _ _ hji vl, hvv, countMatches_append]
      have hv0 : countMatches (fun x => key x == j) [v] = 0 := by
        have hne : (key v == j) = false := beq_eq_false_iff_ne.mpr hij
        simp [countMatches, List.filter_cons, hne]
      rw [hv0]
      rfl

/-- Replay transfer for an in-place entry (move, resize, text): the
    target is unique, undoing it restored the recorded previous values
    while capturing the current ones, and replaying the redo entry sets
    the captured values back, composing to the identity on the
    entity. -/
theorem upd_transfer (key : α → String) (D : List String) (i : String) (f g : α → α)
    (hkf : ∀ x, key (f x) = key x) (hkg : ∀ x, key (g x) = key x)
    (l vl : List α) (e : α)
    (hfind : l.find? (fun x => key x == i) = some e)
    (hcnt : cntK key i l = 1)
    (hge : g (f e) = e)
    (hEq : EquivD key D vl (updateFirst (fun x => key x == i) f l)) :
    (∃ w, vl.find? (fun x => key x == i) = some w) ∧
      EquivD key D (updateFirst (fun x => key x == i) g vl) l := by
  have hpf : ∀ x, (key x == i) = true → (key (f x) == i) = true := by
    intro x hx
    rw [hkf]
    exact hx
  have hcv : cntK key i vl = 1 := by
    rw [hEq.2 i, countMatches_updateFirst key i _ f hkf, hcnt]
  have hw : ∃ w, vl.find? (fun x => key x == i) = some w := by
    apply find?_of_count_pos
    rw [show countMatches (fun x => key x == i) vl = cntK key i vl from rfl, hcv]
    exact Nat.one_pos
  refine ⟨hw, ?_, ?_⟩
  · by_cases hiD : D.contains i = true
    · have hexcl : ∀ (h : α → α), (∀ x, key (h x) = key x) → ∀ m : List α,
          (updateFirst (fun x => key x == i) h m).filter
              (fun x => !(D.contains (key x))) =
            m.filter (fun x => !(D.contains (key x))) := by
        intro h hk m
        apply filter_updateFirst_excl
        · intro x hx
          have hx2 : key x = i := by simpa using hx
          rw [hx2, hiD]
          rfl
        · intro x hx
          have hx2 : key x = i := by simpa using hx
          rw [hk, hx2, hiD]
          rfl
      rw [hexcl g hkg vl, hEq.1, hexcl f hkf l]
    · have hiD2 : D.contains i = false := eq_false_of_ne_true hiD
      have hsub : ∀ x, (key x == i) = true → (!(D.contains (key x))) = true := by
        intro x hx
        have hx2 : key x = i := by simpa using hx
        rw [hx2, hiD2]
        rfl
      have hsubg : ∀ x, (key x == i) = true → (!(D.contains (key (g x)))) = true := by
        intro x hx
        rw [hkg]
        exact hsub x hx
      have hsubf : ∀ x, (key x == i) = true → (!(D.contains (key (f x)))) = true := by
        intro x hx
        rw [hkf]
        exact hsub x hx
      have hfindD : (l.filter (fun x => !(D.contains (key x)))).find?
          (fun x => key x == i) = some e := by
        obtain ⟨u, hu, hufind⟩ := filter_eq_of_count_one _ l hcnt
        have heu : e = u := by
          rw [hfind] at hufind
          exact Option.some.inj hufind
        have hei : key e = i := by simpa using List.find?_some hfind
        have hmemD : i ∉ D := fun hm => by
          have hc := (contains_mem D i).mpr hm
          rw [hiD2] at hc
          exact Bool.false_ne_true hc
        rw [find?_eq_head_filter, filter_comm, hu, ← heu]
        simp [List.filter_cons, hei, hiD2, hmemD]
      rw [updateFirst_filter_comm _ _ g hsub hsubg vl, hEq.1,
        updateFirst_filter_comm _ _ f hsub hsubf l,
        updateFirst_updateFirst _ f g hpf,
        updateFirst_eq_self _ _ _ e hfindD hge]
  · intro j
    rw [countMatches_updateFirst key j _ g hkg, hEq.2 j,
      countMatches_updateFirst key j _ f hkf]

theorem all_neg_iff_count_zero (key : α → String) (i : String) (l : List α) :
    (l.all (fun x => !(key x == i)) = true) ↔ cntK key i l = 0 := by
  rw [cntK, countMatches_eq_zero]
  constructor
  · intro hall x hx
    simpa using List.all_eq_true.mp hall x hx
  · intro hc
    apply List.all_eq_true.mpr
    intro x hx
    simpa using hc x hx

theorem absentAll_iff (i : String) (sc : Scene) :
    absentAllB i sc = true ↔
      (cntK (fun o : CanvasObject => o.id) i sc.objects = 0 ∧
       cntK (fun c : Connector => c.id) i sc.connectors = 0 ∧
       cntK (fun st : Stroke => st.id) i sc.strokes = 0) := by
  unfold absentAllB
  rw [Bool.and_eq_true, Bool.and_eq_true, all_neg_iff_count_zero,
    all_neg_iff_count_zero, all_neg_iff_count_zero]
  exact and_assoc

theorem undoStep_none_fields (s : CanvasState) (a : UAct) (rest : List UAct)
    (hs : s.undoStack = a :: rest) (h : undoScene a s.scene = none) :
    (undoStep s).scene = s.scene ∧ (undoStep s).undoStack = rest ∧
      (undoStep s).redoStack = s.redoStack := by
  simp [undoStep, executeUndo, hs, h]

theorem delId_nil_of_undo_none (a : UAct) (sc : Scene) (h : undoScene a sc = none) :
    delId a = [] := by
  cases a <;> first | rfl | simp [undoScene] at h

theorem redoN_add (m n : Nat) : ∀ s, redoN (m + n) s = redoN n (redoN m s) := by
  induction m with
  | zero =>
    intro s
    rw [Nat.zero_add]
    rfl
  | succ m ih =>
    intro s
    rw [Nat.succ_add]
    show redoN (m + n) (redoStep s) = redoN n (redoN (m + 1) s)
    rw [ih (redoStep s)]
    rfl

theorem redoN_of_empty (n : Nat) : ∀ s : CanvasState, s.redoStack = [] → redoN n s = s := by
  induction n with
  | zero => intro s _; rfl
  | succ n ih =>
    intro s h
    have hstep : redoStep s = s := by
      unfold redoStep
      rw [h]
    show redoN n (redoStep s) = s
    rw [hstep]
    exact ih s h

/-- One-entry replay transfer: a coherent entry that undoes
    successfully produces a redo entry whose replay on any scene
    agreeing with the undone scene up to the enlarged pending-delete
    set succeeds and yields a scene agreeing with the original scene up
    to the original pending-delete set. -/
theorem entry_transfer (a : UAct) (sc : Scene) (D : List String) (r : RAct) (sc1 : Scene)
    (hOk : entryOk a sc D)
    (hundo : undoScene a sc = some (r, sc1))
    (V : Scene) (hEq : EquivScene (delId a ++ D) V sc1) :
    ∃ a1 V1, redoScene r V = some (a1, V1) ∧ EquivScene D V1 sc := by
  cases a with
  | objectAdd i =>
    simp only [undoScene] at hundo
    cases hfind : sc.objects.find? (fun x => x.id == i) with
    | none =>
      rw [hfind] at hundo
      simp at hundo
    | some e =>
      rw [hfind] at hundo
      simp only [Option.some.injEq, Prod.mk.injEq] at hundo
      obtain ⟨hr, hsc1⟩ := hundo
      subst hr
      subst hsc1
      have hpos : 0 < cntK (fun x : CanvasObject => x.id) i sc.objects := by
        have hpe := List.find?_some hfind
        have hmem := List.mem_of_find?_eq_some hfind
        exact count_pos_of_any _ _ (List.any_eq_true.mpr ⟨e, hmem, hpe⟩)
      rcases hOk with h0 | ⟨hcnt, hposD⟩
      · rw [h0] at hpos
        exact absurd hpos (Nat.lt_irrefl 0)
      · have hredo : redoScene (RAct.objectAdd e) V = some (.objectAdd e.id, { V with objects := V.objects ++ [e] }) := rfl
        exact ⟨_, _, hredo, add_transfer _ D i sc.objects V.objects e hfind hcnt hposD hEq.1, hEq.2.1, hEq.2.2⟩
  | groupCreate i =>
    simp only [undoScene] at hundo
    cases hfind : sc.objects.find? (fun x => x.id == i) with
    | none =>
      rw [hfind] at hundo
      simp at hundo
    | some e =>
      rw [hfind] at hundo
      simp only [Option.some.injEq, Prod.mk.injEq] at hundo
      obtain ⟨hr, hsc1⟩ := hundo
      subst hr
      subst hsc1
      have hpos : 0 < cntK (fun x : CanvasObject => x.id) i sc.objects := by
        have hpe := List.find?_some hfind
        have hmem := List.mem_of_find?_eq_some hfind
        exact count_pos_of_any _ _ (List.any_eq_true.mpr ⟨e, hmem, hpe⟩)
      rcases hOk with h0 | ⟨hcnt, hposD⟩
      · rw [h0] at hpos
        exact absurd hpos (Nat.lt_irrefl 0)
      · have hredo : redoScene (RAct.groupCreate e) V = some (.groupCreate e.id, { V with objects := V.objects ++ [e] }) := rfl
        exact ⟨_, _, hredo, add_transfer _ D i sc.objects V.objects e hfind hcnt hposD hEq.1, hEq.2.1, hEq.2.2⟩
  | connectorAdd i =>
    simp only [undoScene] at hundo
    cases hfind : sc.connectors.find? (fun x => x.id == i) with
    | none =>
      rw [hfind] at hundo
      simp at hundo
    | some e =>
      rw [hfind] at hundo
      simp only [Option.some.injEq, Prod.mk.injEq] at hundo
      obtain ⟨hr, hsc1⟩ := hundo
      subst hr
      subst hsc1
      have hpos : 0 < cntK (fun x : Connector => x.id) i sc.connectors := by
        have hpe := List.find?_some hfind
        have hmem := List.mem_of_find?_eq_some hfind
        exact count_pos_of_any _ _ (List.any_eq_true.mpr ⟨e, hmem, hpe⟩)
      rcases hOk with h0 | ⟨hcnt, hposD⟩
      · rw [h0] at hpos
        exact absurd hpos (Nat.lt_irrefl 0)
      · have hredo : redoScene (RAct.connectorAdd e) V = some (.connectorAdd e.id, { V with connectors := V.connectors ++ [e] }) := rfl
        exact ⟨_, _, hredo, hEq.1, add_transfer _ D i sc.connectors V.connectors e hfind hcnt hposD hEq.2.1, hEq.2.2⟩
  | strokeAdd i =>
    simp only [undoScene] at hundo
    cases hfind : sc.strokes.find? (fun x => x.id == i) with
    | none =>
      rw [hfind] at hundo
      simp at hundo
    | some e =>
      rw [hfind] at hundo
      simp only [Option.some.injEq, Prod.mk.injEq] at hundo
      obtain ⟨hr, hsc1⟩ := hundo
      subst hr
      subst hsc1
      have hpos : 0 < cntK (fun x : Stroke => x.id) i sc.strokes := by
        have hpe := List.find?_some hfind
        have hmem := List.mem_of_find?_eq_some hfind
        exact count_pos_of_any _ _ (List.any_eq_true.mpr ⟨e, hmem, hpe⟩)
      rcases hOk with h0 | ⟨hcnt, hposD⟩
      · rw [h0] at hpos
        exact absurd hpos (Nat.lt_irrefl 0)
      · have hredo : redoScene (RAct.strokeAdd e) V = some (.strokeAdd e.id, { V with strokes := V.strokes ++ [e] }) := rfl
        exact ⟨_, _, hredo, hEq.1, hEq.2.1, add_transfer _ D i sc.strokes V.strokes e hfind hcnt hposD hEq.2.2⟩
  | objectDelete v =>
    simp only [undoScene, Option.some.injEq, Prod.mk.injEq] at hundo
    obtain ⟨hr, hsc1⟩ := hundo
    subst hr
    subst hsc1
    obtain ⟨hcnto, hcntc, hcnts⟩ := (absentAll_iff v.id sc).mp hOk
    obtain ⟨hc1, hEqD⟩ := del_transfer _ D sc.objects V.objects v hcnto hEq.1
    obtain ⟨w, hw⟩ := find?_of_count_pos (fun x => x.id == v.id) V.objects (by
      rw [show countMatches (fun x : CanvasObject => x.id == v.id) V.objects = cntK (fun x : CanvasObject => x.id) v.id V.objects from rfl, hc1]
      exact Nat.one_pos)
    have hredo : redoScene (RAct.objectDelete v.id) V = some (.objectDelete w, { V with objects := V.objects.filter (fun x => !(x.id == v.id)) }) := by
      simp only [redoScene, hw]
    refine ⟨_, _, hredo, hEqD, (by
      have h0 : cntK (fun x : Connector => x.id) v.id V.connectors = 0 := by
        rw [hEq.2.1.2 v.id]
        exact hcntc
      exact EquivD_shrink _ v.id D _ _ hEq.2.1 h0),
      (by
      have h0 : cntK (fun x : Stroke => x.id) v.id V.strokes = 0 := by
        rw [hEq.2.2.2 v.id]
        exact hcnts
      exact EquivD_shrink _ v.id D _ _ hEq.2.2 h0)⟩
  | groupUngroup v =>
    simp only [undoScene, Option.some.injEq, Prod.mk.injEq] at hundo
    obtain ⟨hr, hsc1⟩ := hundo
    subst hr
    subst hsc1
    obtain ⟨hcnto, hcntc, hcnts⟩ := (absentAll_iff v.id sc).mp hOk
    obtain ⟨hc1, hEqD⟩ := del_transfer _ D sc.objects V.objects v hcnto hEq.1
    obtain ⟨w, hw⟩ := find?_of_count_pos (fun x => x.id == v.id) V.objects (by
      rw [show countMatches (fun x : CanvasObject => x.id == v.id) V.objects = cntK (fun x : CanvasObject => x.id) v.id V.objects from rfl, hc1]
      exact Nat.one_pos)
    have hredo : redoScene (RAct.groupUngroup v.id (v.children.getD [])) V = some (.groupUngroup w, { V with objects := V.objects.filter (fun x => !(x.id == v.id)) }) := by
      simp only [redoScene, hw]
    refine ⟨_, _, hredo, hEqD, (by
      have h0 : cntK (fun x : Connector => x.id) v.id V.connectors = 0 := by
        rw [hEq.2.1.2 v.id]
        exact hcntc
      exact EquivD_shrink _ v.id D _ _ hEq.2.1 h0),
      (by
      have h0 : cntK (fun x : Stroke => x.id) v.id V.strokes = 0 := by
        rw [hEq.2.2.2 v.id]
        exact hcnts
      exact EquivD_shrink _ v.id D _ _ hEq.2.2 h0)⟩
  | connectorDelete v =>
    simp only [undoScene, Option.some.injEq, Prod.mk.injEq] at hundo
    obtain ⟨hr, hsc1⟩ := hundo
    subst hr
    subst hsc1
    obtain ⟨hcnto, hcntc, hcnts⟩ := (absentAll_iff v.id sc).mp hOk
    obtain ⟨hc1, hEqD⟩ := del_transfer _ D sc.connectors V.connectors v hcntc hEq.2.1
    obtain ⟨w, hw⟩ := find?_of_count_pos (fun x => x.id == v.id) V.connectors (by
      rw [show countMatches (fun x : Connector => x.id == v.id) V.connectors = cntK (fun x : Connector => x.id) v.id V.connectors from rfl, hc1]
      exact Nat.one_pos)
    have hredo : redoScene (RAct.connectorDelete v.id) V = some (.connectorDelete w, { V with connectors := V.connectors.filter (fun x => !(x.id == v.id)) }) := by
      simp only [redoScene, hw]
    refine ⟨_, _, hredo, (by
      have h0 : cntK (fun x : CanvasObject => x.id) v.id V.objects = 0 := by
        rw [hEq.1.2 v.id]
        exact hcnto
      exact EquivD_shrink _ v.id D _ _ hEq.1 h0), hEqD,
      (by
      have h0 : cntK (fun x : Stroke => x.id) v.id V.strokes = 0 := by
        rw [hEq.2.2.2 v.id]
        exact hcnts
      exact EquivD_shrink _ v.id D _ _ hEq.2.2 h0)⟩
  | strokeDelete v =>
    simp only [undoScene, Option.some.injEq, Prod.mk.injEq] at hundo
    obtain ⟨hr, hsc1⟩ := hundo
    subst hr
    subst hsc1
    obtain ⟨hcnto, hcntc, hcnts⟩ := (absentAll_iff v.id sc).mp hOk
    obtain ⟨hc1, hEqD⟩ := del_transfer _ D sc.strokes V.strokes v hcnts hEq.2.2
    obtain ⟨w, hw⟩ := find?_of_count_pos (fun x => x.id == v.id) V.strokes (by
      rw [show countMatches (fun x : Stroke => x.id == v.id) V.strokes = cntK (fun x : Stroke => x.id) v.id V.strokes from rfl, hc1]
      exact Nat.one_pos)
    have hredo : redoScene (RAct.strokeDelete v.id) V = some (.strokeDelete w, { V with strokes := V.strokes.filter (fun x => !(x.id == v.id)) }) := by
      simp only [redoScene, hw]
    refine ⟨_, _, hredo, (by
      have h0 : cntK (fun x : CanvasObject => x.id) v.id V.objects = 0 := by
        rw [hEq.1.2 v.id]
        exact hcnto
      exact EquivD_shrink _ v.id D _ _ hEq.1 h0),
      (by
      have h0 : cntK (fun x : Connector => x.id) v.id V.connectors = 0 := by
        rw [hEq.2.1.2 v.id]
        exact hcntc
      exact EquivD_shrink _ v.id D _ _ hEq.2.1 h0), hEqD⟩
  | objectMove i px py =>
    simp only [undoScene] at hundo
    cases hfind : sc.objects.find? (fun o => o.id == i) with
    | none =>
      rw [hfind] at hundo
      simp at hundo
    | some e =>
      rw [hfind] at hundo
      simp only [Option.some.injEq, Prod.mk.injEq] at hundo
      obtain ⟨hr, hsc1⟩ := hundo
      subst hr
      subst hsc1
      have hcnt : cntK (fun o : CanvasObject => o.id) i sc.objects = 1 := by
        have hle : cntK (fun o : CanvasObject => o.id) i sc.objects ≤ 1 := hOk
        have hpos : 0 < cntK (fun o : CanvasObject => o.id) i sc.objects := by
          have hpe := List.find?_some hfind
          have hmem := List.mem_of_find?_eq_some hfind
          exact count_pos_of_any _ _ (List.any_eq_true.mpr ⟨e, hmem, hpe⟩)
        omega
      obtain ⟨⟨w, hw⟩, hEqD⟩ := upd_transfer (fun o : CanvasObject => o.id) D i (fun o => { o with x := px, y := py }) (fun o => { o with x := e.x, y := e.y }) (fun _ => rfl) (fun _ => rfl) sc.objects V.objects e hfind hcnt rfl hEq.1
      have hredo : redoScene (RAct.objectMove i e.x e.y) V = some (.objectMove i w.x w.y, { V with objects := updateFirst (fun o => o.id == i) (fun o => { o with x := e.x, y := e.y }) V.objects }) := by
        simp only [redoScene, hw]
      exact ⟨_, _, hredo, hEqD, hEq.2.1, hEq.2.2⟩
  | objectResize i px py pw ph =>
    simp only [undoScene] at hundo
    cases hfind : sc.objects.find? (fun o => o.id == i) with
    | none =>
      rw [hfind] at hundo
      simp at hundo
    | some e =>
      rw [hfind] at hundo
      simp only [Option.some.injEq, Prod.mk.injEq] at hundo
      obtain ⟨hr, hsc1⟩ := hundo
      subst hr
      subst hsc1
      have hcnt : cntK (fun o : CanvasObject => o.id) i sc.objects = 1 := by
        have hle : cntK (fun o : CanvasObject => o.id) i sc.objects ≤ 1 := hOk
        have hpos : 0 < cntK (fun o : CanvasObject => o.id) i sc.objects := by
          have hpe := List.find?_some hfind
          have hmem := List.mem_of_find?_eq_some hfind
          exact count_pos_of_any _ _ (List.any_eq_true.mpr ⟨e, hmem, hpe⟩)
        omega
      obtain ⟨⟨w, hw⟩, hEqD⟩ := upd_transfer (fun o : CanvasObject => o.id) D i (fun o => { o with x := px, y := py, width := pw, height := ph }) (fun o => { o with x := e.x, y := e.y, width := e.width, height := e.height }) (fun _ => rfl) (fun _ => rfl) sc.objects V.objects e hfind hcnt rfl hEq.1
      have hredo : redoScene (RAct.objectResize i e.x e.y e.width e.height) V = some (.objectResize i w.x w.y w.width w.height, { V with objects := updateFirst (fun o => o.id == i) (fun o => { o with x := e.x, y := e.y, width := e.width, height := e.height }) V.objects }) := by
        simp only [redoScene, hw]
      exact ⟨_, _, hredo, hEqD, hEq.2.1, hEq.2.2⟩
  | objectText i pt =>
    simp only [undoScene] at hundo
    cases hfind : sc.objects.find? (fun o => o.id == i) with
    | none =>
      rw [hfind] at hundo
      simp at hundo
    | some e =>
      rw [hfind] at hundo
      simp only [Option.some.injEq, Prod.mk.injEq] at hundo
      obtain ⟨hr, hsc1⟩ := hundo
      subst hr
      subst hsc1
      have hcnt : cntK (fun o : CanvasObject => o.id) i sc.objects = 1 := by
        have hle : cntK (fun o : CanvasObject => o.id) i sc.objects ≤ 1 := hOk
        have hpos : 0 < cntK (fun o : CanvasObject => o.id) i sc.objects := by
          have hpe := List.find?_some hfind
          have hmem := List.mem_of_find?_eq_some hfind
          exact count_pos_of_any _ _ (List.any_eq_true.mpr ⟨e, hmem, hpe⟩)
        omega
      obtain ⟨⟨w, hw⟩, hEqD⟩ := upd_transfer (fun o : CanvasObject => o.id) D i (fun o => { o with text := pt }) (fun o => { o with text := e.text }) (fun _ => rfl) (fun _ => rfl) sc.objects V.objects e hfind hcnt rfl hEq.1
      have hredo : redoScene (RAct.objectText i e.text) V = some (.objectText i w.text, { V with objects := updateFirst (fun o => o.id == i) (fun o => { o with text := e.text }) V.objects }) := by
        simp only [redoScene, hw]
      exact ⟨_, _, hredo, hEqD, hEq.2.1, hEq.2.2⟩

/-- Generalized round trip: undoing a coherent stack completely and
    then redoing every produced redo entry rebuilds the scene up to the
    pending-delete ids, for any state carrying the resulting scene and
    redo stack. With no pending deletes this is exact restoration. -/
theorem undo_redo_replay : ∀ (stack : List UAct) (s : CanvasState) (D : List String),
    s.undoStack = stack → stackOk stack s.scene D →
    ∃ rs : List RAct,
      rs.length ≤ stack.length ∧
      (undoN stack.length s).redoStack = rs ++ s.redoStack ∧
      ∀ t : CanvasState, t.scene = (undoN stack.length s).scene →
        t.redoStack = rs ++ s.redoStack →
        EquivScene D (redoN rs.length t).scene s.scene ∧
        (redoN rs.length t).redoStack = s.redoStack := by
  intro stack
  induction stack with
  | nil =>
    intro s D _ _
    refine ⟨[], by simp, by simp [undoN], ?_⟩
    intro t ht hr
    constructor
    · rw [show redoN ([] : List RAct).length t = t from rfl, ht]
      exact EquivScene_refl D _
    · simpa using hr
  | cons a rest ih =>
    intro s D hs hOkAll
    obtain ⟨hOk, hrest⟩ := hOkAll
    cases hu : undoScene a s.scene with
    | none =>
      have hfields := undoStep_none_fields s a rest hs hu
      have hdel : delId a = [] := delId_nil_of_undo_none a s.scene hu
      have happly : applyUndoScene a s.scene = s.scene := by
        simp [applyUndoScene, hu]
      have hrest2 : stackOk rest (undoStep s).scene D := by
        rw [hfields.1]
        rw [happly, hdel] at hrest
        exact hrest
      obtain ⟨rs, hlen, hrs, hinner⟩ := ih (undoStep s) D hfields.2.1 hrest2
      refine ⟨rs, Nat.le_succ_of_le hlen, ?_, ?_⟩
      · rw [show undoN ((a :: rest).length) s = undoN rest.length (undoStep s) from rfl,
          hrs, hfields.2.2]
      · intro t ht hr
        have ht2 : t.scene = (undoN rest.length (undoStep s)).scene := ht
        have hr2 : t.redoStack = rs ++ (undoStep s).redoStack := by
          rw [hr, hfields.2.2]
        have hres := hinner t ht2 hr2
        constructor
        · rw [← hfields.1]
          exact hres.1
        · rw [hres.2, hfields.2.2]
    | some rsc =>
      obtain ⟨r, sc1⟩ := rsc
      have hfields := undoStep_fields s a rest r sc1 hs hu
      have happly : applyUndoScene a s.scene = sc1 := by
        simp [applyUndoScene, hu]
      have hrest2 : stackOk rest (undoStep s).scene (delId a ++ D) := by
        rw [hfields.1, ← happly]
        exact hrest
      obtain ⟨rs1, hlen1, hrs1, hinner⟩ := ih (undoStep s) (delId a ++ D) hfields.2.1 hrest2
      refine ⟨rs1 ++ [r], ?_, ?_, ?_⟩
      · simp only [List.length_append, List.length_singleton, List.length_cons,
          List.length_nil]
        omega
      · rw [show undoN ((a :: rest).length) s = undoN rest.length (undoStep s) from rfl,
          hrs1, hfields.2.2]
        simp
      · intro t ht hr
        have ht2 : t.scene = (undoN rest.length (undoStep s)).scene := ht
        have hr2 : t.redoStack = rs1 ++ (undoStep s).redoStack := by
          rw [hr, hfields.2.2]
          simp
        have hres := hinner t ht2 hr2
        have hEqV : EquivScene (delId a ++ D) (redoN rs1.length t).scene sc1 := by
          have h3 := hres.1
          rwa [hfields.1] at h3
        obtain ⟨a1, V1, hredo, hEqV1⟩ :=
          entry_transfer a s.scene D r sc1 hOk hu (redoN rs1.length t).scene hEqV
        have hVredo : (redoN rs1.length t).redoStack = r :: s.redoStack := by
          rw [hres.2, hfields.2.2]
        have hstep := redoStep_fields (redoN rs1.length t) r s.redoStack a1 V1 hVredo hredo
        have hlaststep : redoN (rs1 ++ [r]).length t = redoStep (redoN rs1.length t) := by
          rw [List.length_append, List.length_singleton]
          exact redoN_succ_last rs1.length t
        rw [hlaststep]
        constructor
        · rw [hstep.1]
          exact hEqV1
        · exact hstep.2.2

theorem find?_none_of_count_zero (p : α → Bool) (l : List α) (h : countMatches p l = 0) :
    l.find? p = none :=
  List.find?_eq_none.mpr fun x hx => by
    rw [(countMatches_eq_zero p l).mp h x hx]
    exact Bool.false_ne_true

theorem RelD_filter_left (key : α → String) (Dp R : List String) (i : String)
    (l l2 : List α) (hrel : RelD key Dp R l l2) (hiR : R.contains i = true) :
    RelD key Dp R (l.filter (fun x => !(key x == i))) l2 := by
  constructor
  · rw [hrel.1, filter_and]
    apply filter_congr_mem
    intro x _
    cases hxi : (key x == i)
    · rfl
    · have hx2 : key x = i := by simpa using hxi
      rw [hx2, hiR]
      simp
  · intro j
    rw [hrel.2 j]
    by_cases hjR : R.contains j = true
    · rw [hjR]
      rfl
    · have hjR2 : R.contains j = false := eq_false_of_ne_true hjR
      have hji : (j == i) = false := by
        cases hj : (j == i)
        · rfl
        · have hj2 : j = i := by simpa using hj
          rw [hj2, hiR] at hjR2
          exact absurd hjR2 (by simp)
      have hcnt : cntK key j (l.filter (fun x => !(key x == i))) = cntK key j l := by
        apply countMatches_filter_imp
        intro x hx
        have hx2 : key x = j := by simpa using hx
        have hxn : (key x == i) = false := by rw [hx2]; exact hji
        rw [hxn]
        rfl
      rw [hjR2, hcnt]

theorem RelD_filter_both (key : α → String) (Dp R : List String) (i : String)
    (l l2 : List α) (hrel : RelD key Dp R l l2) :
    RelD key Dp R (l.filter (fun x => !(key x == i)))
      (l2.filter (fun x => !(key x == i))) := by
  constructor
  · rw [filter_comm, hrel.1, filter_and, filter_and]
    apply filter_congr_mem
    intro x _
    exact Bool.and_comm _ _
  · intro j
    by_cases hji : j = i
    · subst hji
      have h1 : cntK key j (l2.filter (fun x => !(key x == j))) = 0 :=
        countMatches_filter_zero _ _ l2 fun x hx => by rw [hx]; rfl
      have h2 : cntK key j (l.filter (fun x => !(key x == j))) = 0 :=
        countMatches_filter_zero _ _ l fun x hx => by rw [hx]; rfl
      rw [h1, h2]
      simp
    · have himp : ∀ x, (key x == j) = true → (!(key x == i)) = true := by
        intro x hx
        have hx2 : key x = j := by simpa using hx
        have hxn : (key x == i) = false := by
          rw [hx2]
          exact beq_eq_false_iff_ne.mpr hji
        rw [hxn]
        rfl
      have e2 : cntK key j (l2.filter (fun x => !(key x == i))) = cntK key j l2 :=
        countMatches_filter_imp _ _ himp l2
      have e1 : cntK key j (l.filter (fun x => !(key x == i))) = cntK key j l :=
        countMatches_filter_imp _ _ himp l
      rw [e2, e1]
      exact hrel.2 j

theorem RelD_append (key : α → String) (Dp R : List String) (l l2 : List α) (v : α)
    (hrel : RelD key Dp R l l2) (hvR : R.contains (key v) = false) :
    RelD key (key v :: Dp) R (l ++ [v]) (l2 ++ [v]) := by
  have hdropv : ∀ m : List α, (m ++ [v]).filter
      (fun x => !((key v :: Dp).contains (key x))) =
      m.filter (fun x => !((key v :: Dp).contains (key x))) := by
    intro m
    rw [List.filter_append]
    have h0 : [v].filter (fun x => !((key v :: Dp).contains (key x))) = [] := by
      simp [List.filter_cons, contains_cons_eq]
    rw [h0, List.append_nil]
  constructor
  · rw [hdropv l2]
    have h1 : l2.filter (fun x => !((key v :: Dp).contains (key x))) =
        (l2.filter (fun x => !(Dp.contains (key x)))).filter
          (fun x => !(key x == key v)) := by
      rw [filter_and]
      apply filter_congr_mem
      intro x _
      rw [contains_cons_eq, Bool.not_or, Bool.and_comm]
    have h2 : (l ++ [v]).filter (fun x =>
        (!((key v :: Dp).contains (key x))) && !(R.contains (key x))) =
        l.filter (fun x => (!((key v :: Dp).contains (key x))) && !(R.contains (key x))) := by
      rw [List.filter_append]
      have h0 : [v].filter (fun x =>
          (!((key v :: Dp).contains (key x))) && !(R.contains (key x))) = [] := by
        simp [List.filter_cons, contains_cons_eq]
      rw [h0, List.append_nil]
    have h3 : l.filter (fun x =>
        (!((key v :: Dp).contains (key x))) && !(R.contains (key x))) =
        (l.filter (fun x => (!(Dp.contains (key x))) && !(R.contains (key x)))).filter
          (fun x => !(key x == key v)) := by
      rw [filter_and]
      apply filter_congr_mem
      intro x _
      rw [contains_cons_eq, Bool.not_or]
      cases hxv : (key x == key v) <;> cases hdp : Dp.contains (key x) <;>
        cases hr : R.contains (key x) <;> simp [hxv, hdp, hr]
    rw [h1, h2, h3, hrel.1]
  · intro j
    have happ : ∀ m : List α, cntK key j (m ++ [v]) = cntK key j m + cntK key j [v] :=
      fun m => countMatches_append _ _ _
    rw [happ l2, happ l, hrel.2 j]
    by_cases hjv : j = key v
    · subst hjv
      rw [hvR]
      simp only [Bool.false_eq_true, if_false]
    · have hv0 : cntK key j [v] = 0 := by
        have : (key v == j) = false := beq_eq_false_iff_ne.mpr fun hc => hjv hc.symm
        simp [cntK, countMatches, List.filter_cons, this]
      rw [hv0]
      by_cases hjR : R.contains j = true
      · rw [hjR]
        simp
      · have hjR2 : R.contains j = false := eq_false_of_ne_true hjR
        rw [hjR2]
        simp

theorem RelD_extend (key : α → String) (Dp R : List String) (j : String)
    (l l2 : List α) (hrel : RelD key Dp R l l2) (h0 : cntK key j l = 0) :
    RelD key (j :: Dp) R l l2 := by
  have h02 : cntK key j l2 = 0 := by
    rw [hrel.2 j, h0]
    exact ite_self 0
  have hcongr : ∀ (m : List α), cntK key j m = 0 →
      ∀ q : α → Bool,
      m.filter (fun x => (!((j :: Dp).contains (key x))) && q x) =
        m.filter (fun x => (!(Dp.contains (key x))) && q x) := by
    intro m hm q
    apply filter_congr_mem
    intro x hx
    have hxj : (key x == j) = false := (countMatches_eq_zero _ _).mp hm x hx
    rw [contains_cons_eq, hxj, Bool.false_or]
  constructor
  · have e1 : l2.filter (fun x => !((j :: Dp).contains (key x))) =
        l2.filter (fun x => !(Dp.contains (key x))) := by
      apply filter_congr_mem
      intro x hx
      have hxj : (key x == j) = false := (countMatches_eq_zero _ _).mp h02 x hx
      rw [contains_cons_eq, hxj, Bool.false_or]
    rw [e1, hrel.1]
    exact (hcongr l h0 (fun x => !(R.contains (key x)))).symm
  · exact hrel.2

theorem RelD_upd_left (key : α → String) (Dp R : List String) (i : String) (f : α → α)
    (hkf : ∀ x, key (f x) = key x) (l l2 : List α)
    (hrel : RelD key Dp R l l2) (hiR : R.contains i = true) :
    RelD key Dp R (updateFirst (fun x => key x == i) f l) l2 := by
  constructor
  · rw [hrel.1]
    apply (filter_updateFirst_excl _ _ f ?_ ?_ l).symm
    · intro x hx
      have hx2 : key x = i := by simpa using hx
      rw [hx2, hiR]
      simp
    · intro x hx
      have hx2 : key x = i := by simpa using hx
      rw [hkf, hx2, hiR]
      simp
  · intro j
    rw [countMatches_updateFirst key j _ f hkf]
    exact hrel.2 j

theorem RelD_upd_both (key : α → String) (Dp R : List String) (i : String) (f : α → α)
    (hkf : ∀ x, key (f x) = key x) (l l2 : List α)
    (hrel : RelD key Dp R l l2) (hiR : R.contains i = false) :
    RelD key Dp R (updateFirst (fun x => key x == i) f l)
      (updateFirst (fun x => key x == i) f l2) := by
  constructor
  · by_cases hiDp : Dp.contains i = true
    · have e2 : (updateFirst (fun x => key x == i) f l2).filter
          (fun x => !(Dp.contains (key x))) =
          l2.filter (fun x => !(Dp.contains (key x))) := by
        apply filter_updateFirst_excl
        · intro x hx
          have hx2 : key x = i := by simpa using hx
          rw [hx2, hiDp]
          rfl
        · intro x hx
          have hx2 : key x = i := by simpa using hx
          rw [hkf, hx2, hiDp]
          rfl
      have e1 : (updateFirst (fun x => key x == i) f l).filter
          (fun x => (!(Dp.contains (key x))) && !(R.contains (key x))) =
          l.filter (fun x => (!(Dp.contains (key x))) && !(R.contains (key x))) := by
        apply filter_updateFirst_excl
        · intro x hx
          have hx2 : key x = i := by simpa using hx
          rw [hx2, hiDp]
          rfl
        · intro x hx
          have hx2 : key x = i := by simpa using hx
          rw [hkf, hx2, hiDp]
          rfl
      rw [e1, e2, hrel.1]
    · have hiDp2 : Dp.contains i = false := eq_false_of_ne_true hiDp
      have e2 : (updateFirst (fun x => key x == i) f l2).filter
          (fun x => !(Dp.contains (key x))) =
          updateFirst (fun x => key x == i) f
            (l2.filter (fun x => !(Dp.contains (key x)))) := by
        apply updateFirst_filter_comm
        · intro x hx
          have hx2 : key x = i := by simpa using hx
          rw [hx2, hiDp2]
          rfl
        · intro x hx
          have hx2 : key x = i := by simpa using hx
          rw [hkf, hx2, hiDp2]
          rfl
      have e1 : (updateFirst (fun x => key x == i) f l).filter
          (fun x => (!(Dp.contains (key x))) && !(R.contains (key x))) =
          updateFirst (fun x => key x == i) f
            (l.filter (fun x => (!(Dp.contains (key x))) && !(R.contains (key x)))) := by
        apply updateFirst_filter_comm
        · intro x hx
          have hx2 : key x = i := by simpa using hx
          rw [hx2, hiDp2, hiR]
          rfl
        · intro x hx
          have hx2 : key x = i := by simpa using hx
          rw [hkf, hx2, hiDp2, hiR]
          rfl
      rw [e1, e2, hrel.1]
  · intro j
    rw [countMatches_updateFirst key j _ f hkf, countMatches_updateFirst key j _ f hkf]
    exact hrel.2 j

theorem addOk_rel (key : α → String) (D Dp R : List String) (i : String) (l l2 : List α)
    (hsub : ∀ j, D.contains j = true → Dp.contains j = true)
    (hrel : RelD key Dp R l l2) (hOk : addOk key D i l) : addOk key Dp i l2 := by
  rcases hOk with h0 | ⟨hcnt, hposD⟩
  · left
    rw [hrel.2 i, h0]
    simp
  · by_cases hiR : R.contains i = true
    · left
      rw [hrel.2 i, hiR]
      simp
    · have hiR2 : R.contains i = false := eq_false_of_ne_true hiR
      right
      refine ⟨by rw [hrel.2 i, hiR2]; simpa using hcnt, ?_⟩
      rcases hposD with hD | hlast
      · exact Or.inl (hsub i hD)
      · by_cases hiDp : Dp.contains i = true
        · exact Or.inl hiDp
        · have hiDp2 : Dp.contains i = false := eq_false_of_ne_true hiDp
          right
          rw [hrel.1]
          have e1 : l.filter (fun x => (!(Dp.contains (key x))) && !(R.contains (key x))) =
              (l.filter (fun x => !(D.contains (key x)))).filter
                (fun x => (!(Dp.contains (key x))) && !(R.contains (key x))) := by
            rw [filter_and]
            apply filter_congr_mem
            intro x _
            cases hdp : Dp.contains (key x)
            · have hd : D.contains (key x) = false := by
                cases hdc : D.contains (key x)
                · rfl
                · rw [hsub (key x) hdc] at hdp
                  exact absurd hdp (by simp)
              rw [hd]
              rfl
            · simp [hdp]
          rw [e1]
          apply lastOnly_filter _ _ _ hlast
          intro x hx
          have hx2 : key x = i := by simpa using hx
          rw [hx2, hiDp2, hiR2]
          rfl

theorem count_pos_of_eq_one (key : α → String) (i : String) (l : List α)
    (h : cntK key i l = 1) : 0 < countMatches (fun x => key x == i) l := by
  have h2 : 0 < cntK key i l := by
    rw [h]
    exact Nat.one_pos
  exact h2

/-- Stability of stack coherence under the unrecorded side effects of a
    forward operation: wholesale removal of the ids in R (cascaded
    connectors, merged-away groups) and the tail drift of a restored
    just-deleted entity, absorbed by enlarging the pending-delete set
    from D to Dp. -/
theorem stackOk_stable : ∀ (stack : List UAct) (S T : Scene) (D Dp R : List String),
    (∀ j, D.contains j = true → Dp.contains j = true) →
    (∀ b ∈ stack, ∀ j ∈ delId b, R.contains j = false) →
    RelScene Dp R S T →
    stackOk stack S D → stackOk stack T Dp := by
  intro stack
  induction stack with
  | nil =>
    intro S T D Dp R _ _ _ _
    trivial
  | cons a rest ih =>
    intro S T D Dp R hsub hdisj hrel hOkAll
    obtain ⟨hrelO, hrelC, hrelS⟩ := hrel
    obtain ⟨hOk, hrest⟩ := hOkAll
    have htail : ∀ b ∈ rest, ∀ j ∈ delId b, R.contains j = false :=
      fun b hb => hdisj b (List.mem_cons_of_mem a hb)
    cases a with
    | objectAdd i =>
      refine ⟨addOk_rel _ D Dp R i S.objects T.objects hsub hrelO hOk, ?_⟩
      rcases hOk with h0 | ⟨hcnt, _⟩
      · have hT0 : cntK (fun x : CanvasObject => x.id) i T.objects = 0 := by
          rw [hrelO.2 i, h0]
          exact ite_self 0
        have hSnull : applyUndoScene (.objectAdd i) S = S := by
          have hf : S.objects.find? (fun x => x.id == i) = none :=
            find?_none_of_count_zero _ _ h0
          simp [applyUndoScene, undoScene, hf]
        have hTnull : applyUndoScene (.objectAdd i) T = T := by
          have hf : T.objects.find? (fun x => x.id == i) = none :=
            find?_none_of_count_zero _ _ hT0
          simp [applyUndoScene, undoScene, hf]
        rw [hTnull]
        rw [hSnull] at hrest
        exact ih S T D Dp R hsub htail ⟨hrelO, hrelC, hrelS⟩ hrest
      · obtain ⟨eS, hfS⟩ := find?_of_count_pos _ S.objects
          (count_pos_of_eq_one (fun x : CanvasObject => x.id) i S.objects hcnt)
        have hSdel : applyUndoScene (.objectAdd i) S =
            { S with objects := S.objects.filter (fun x => !(x.id == i)) } := by
          simp [applyUndoScene, undoScene, hfS]
        by_cases hiR : R.contains i = true
        · have hT0 : cntK (fun x : CanvasObject => x.id) i T.objects = 0 := by
            rw [hrelO.2 i, hiR]
            rfl
          have hTnull : applyUndoScene (.objectAdd i) T = T := by
            have hf : T.objects.find? (fun x => x.id == i) = none :=
              find?_none_of_count_zero _ _ hT0
            simp [applyUndoScene, undoScene, hf]
          rw [hTnull]
          rw [hSdel] at hrest
          refine ih { S with objects := S.objects.filter (fun x => !(x.id == i)) } T D Dp R hsub htail ⟨?_, hrelC, hrelS⟩ hrest
          exact RelD_filter_left _ Dp R i S.objects T.objects hrelO hiR
        · have hiR2 : R.contains i = false := eq_false_of_ne_true hiR
          have hT1 : cntK (fun x : CanvasObject => x.id) i T.objects = 1 := by
            rw [hrelO.2 i, hiR2]
            simp only [Bool.false_eq_true, if_false]
            exact hcnt
          obtain ⟨eT, hfT⟩ := find?_of_count_pos _ T.objects
            (count_pos_of_eq_one (fun x : CanvasObject => x.id) i T.objects hT1)
          have hTdel : applyUndoScene (.objectAdd i) T =
              { T with objects := T.objects.filter (fun x => !(x.id == i)) } := by
            simp [applyUndoScene, undoScene, hfT]
          rw [hTdel]
          rw [hSdel] at hrest
          refine ih { S with objects := S.objects.filter (fun x => !(x.id == i)) } { T with objects := T.objects.filter (fun x => !(x.id == i)) } D Dp R hsub htail ⟨?_, hrelC, hrelS⟩ hrest
          exact RelD_filter_both _ Dp R i S.objects T.objects hrelO
    | objectDelete v =>
      have hvR : R.contains v.id = false :=
        hdisj (.objectDelete v) (List.mem_cons_self _ _) v.id (by simp [delId])
      obtain ⟨hcnto, hcntc, hcnts⟩ := (absentAll_iff v.id S).mp hOk
      refine ⟨(absentAll_iff v.id T).mpr ⟨?_, ?_, ?_⟩, ?_⟩
      · rw [hrelO.2 v.id, hcnto]
        exact ite_self 0
      · rw [hrelC.2 v.id, hcntc]
        exact ite_self 0
      · rw [hrelS.2 v.id, hcnts]
        exact ite_self 0
      · have hS : applyUndoScene (.objectDelete v) S = { S with objects := S.objects ++ [v] } := rfl
        have hT : applyUndoScene (.objectDelete v) T = { T with objects := T.objects ++ [v] } := rfl
        rw [hT]
        rw [hS] at hrest
        have hsub2 : ∀ j, ((v.id :: D).contains j = true) →
            ((v.id :: Dp).contains j = true) := by
          intro j hj
          rw [contains_cons_eq] at hj
          rw [contains_cons_eq]
          cases hjv : (j == v.id)
          · simp only [hjv, Bool.false_or] at hj ⊢
            exact hsub j hj
          · simp [hjv]
        refine ih { S with objects := S.objects ++ [v] } { T with objects := T.objects ++ [v] } (v.id :: D) (v.id :: Dp) R hsub2 htail ⟨RelD_append _ Dp R S.objects T.objects v hrelO hvR,
          RelD_extend _ Dp R v.id S.connectors T.connectors hrelC hcntc,
          RelD_extend _ Dp R v.id S.strokes T.strokes hrelS hcnts⟩ hrest
    | objectMove i px py =>
      have hle : cntK (fun o : CanvasObject => o.id) i S.objects ≤ 1 := hOk
      constructor
      · show cntK (fun o : CanvasObject => o.id) i T.objects ≤ 1
        rw [hrelO.2 i]
        by_cases hiR : R.contains i = true
        · rw [hiR]
          exact Nat.zero_le 1
        · have hiR2 : R.contains i = false := eq_false_of_ne_true hiR
          rw [hiR2]
          simp only [Bool.false_eq_true, if_false]
          exact hle
      · by_cases h0 : cntK (fun o : CanvasObject => o.id) i S.objects = 0
        · have hT0 : cntK (fun o : CanvasObject => o.id) i T.objects = 0 := by
            rw [hrelO.2 i, h0]
            exact ite_self 0
          have hSnull : applyUndoScene (.objectMove i px py) S = S := by
            have hf : S.objects.find? (fun o => o.id == i) = none :=
              find?_none_of_count_zero _ _ h0
            simp [applyUndoScene, undoScene, hf]
          have hTnull : applyUndoScene (.objectMove i px py) T = T := by
            have hf : T.objects.find? (fun o => o.id == i) = none :=
              find?_none_of_count_zero _ _ hT0
            simp [applyUndoScene, undoScene, hf]
          rw [hTnull]
          rw [hSnull] at hrest
          exact ih S T D Dp R hsub htail ⟨hrelO, hrelC, hrelS⟩ hrest
        · have hcnt : cntK (fun o : CanvasObject => o.id) i S.objects = 1 :=
            Nat.le_antisymm hle (Nat.one_le_iff_ne_zero.mpr h0)
          obtain ⟨eS, hfS⟩ := find?_of_count_pos _ S.objects
            (count_pos_of_eq_one (fun o : CanvasObject => o.id) i S.objects hcnt)
          have hSupd : applyUndoScene (.objectMove i px py) S =
              { S with objects := updateFirst (fun o => o.id == i) (fun o => { o with x := px, y := py }) S.objects } := by
            simp [applyUndoScene, undoScene, hfS]
          by_cases hiR : R.contains i = true
          · have hT0 : cntK (fun o : CanvasObject => o.id) i T.objects = 0 := by
              rw [hrelO.2 i, hiR]
              rfl
            have hTnull : applyUndoScene (.objectMove i px py) T = T := by
              have hf : T.objects.find? (fun o => o.id == i) = none :=
                find?_none_of_count_zero _ _ hT0
              simp [applyUndoScene, undoScene, hf]
            rw [hTnull]
            rw [hSupd] at hrest
            refine ih { S with objects := updateFirst (fun o => o.id == i) (fun o => { o with x := px, y := py }) S.objects } T D Dp R hsub htail ⟨?_, hrelC, hrelS⟩ hrest
            exact RelD_upd_left _ Dp R i (fun o => { o with x := px, y := py }) (fun _ => rfl) S.objects T.objects hrelO hiR
          · have hiR2 : R.contains i = false := eq_false_of_ne_true hiR
            have hT1 : cntK (fun o : CanvasObject => o.id) i T.objects = 1 := by
              rw [hrelO.2 i, hiR2]
              simp only [Bool.false_eq_true, if_false]
              exact hcnt
            obtain ⟨eT, hfT⟩ := find?_of_count_pos _ T.objects
              (count_pos_of_eq_one (fun o : CanvasObject => o.id) i T.objects hT1)
            have hTupd : applyUndoScene (.objectMove i px py) T =
                { T with objects := updateFirst (fun o => o.id == i) (fun o => { o with x := px, y := py }) T.objects } := by
              simp [applyUndoScene, undoScene, hfT]
            rw [hTupd]
            rw [hSupd] at hrest
            refine ih { S with objects := updateFirst (fun o => o.id == i) (fun o => { o with x := px, y := py }) S.objects } { T with objects := updateFirst (fun o => o.id == i) (fun o => { o with x := px, y := py }) T.objects } D Dp R hsub htail ⟨?_, hrelC, hrelS⟩ hrest
            exact RelD_upd_both _ Dp R i (fun o => { o with x := px, y := py }) (fun _ => rfl) S.objects T.objects hrelO hiR2
    | objectResize i px py pw ph =>
      have hle : cntK (fun o : CanvasObject => o.id) i S.objects ≤ 1 := hOk
      constructor
      · show cntK (fun o : CanvasObject => o.id) i T.objects ≤ 1
        rw [hrelO.2 i]
        by_cases hiR : R.contains i = true
        · rw [hiR]
          exact Nat.zero_le 1
        · have hiR2 : R.contains i = false := eq_false_of_ne_true hiR
          rw [hiR2]
          simp only [Bool.false_eq_true, if_false]
          exact hle
      · by_cases h0 : cntK (fun o : CanvasObject => o.id) i S.objects = 0
        · have hT0 : cntK (fun o : CanvasObject => o.id) i T.objects = 0 := by
            rw [hrelO.2 i, h0]
            exact ite_self 0
          have hSnull : applyUndoScene (.objectResize i px py pw ph) S = S := by
            have hf : S.objects.find? (fun o => o.id == i) = none :=
              find?_none_of_count_zero _ _ h0
            simp [applyUndoScene, undoScene, hf]
          have hTnull : applyUndoScene (.objectResize i px py pw ph) T = T := by
            have hf : T.objects.find? (fun o => o.id == i) = none :=
              find?_none_of_count_zero _ _ hT0
            simp [applyUndoScene, undoScene, hf]
          rw [hTnull]
          rw [hSnull] at hrest
          exact ih S T D Dp R hsub htail ⟨hrelO, hrelC, hrelS⟩ hrest
        · have hcnt : cntK (fun o : CanvasObject => o.id) i S.objects = 1 :=
            Nat.le_antisymm hle (Nat.one_le_iff_ne_zero.mpr h0)
          obtain ⟨eS, hfS⟩ := find?_of_count_pos _ S.objects
            (count_pos_of_eq_one (fun o : CanvasObject => o.id) i S.objects hcnt)
          have hSupd : applyUndoScene (.objectResize i px py pw ph) S =
              { S with objects := updateFirst (fun o => o.id == i) (fun o => { o with x := px, y := py, width := pw, height := ph }) S.objects } := by
            simp [applyUndoScene, undoScene, hfS]
          by_cases hiR : R.contains i = true
          · have hT0 : cntK (fun o : CanvasObject => o.id) i T.objects = 0 := by
              rw [hrelO.2 i, hiR]
              rfl
            have hTnull : applyUndoScene (.objectResize i px py pw ph) T = T := by
              have hf : T.objects.find? (fun o => o.id == i) = none :=
                find?_none_of_count_zero _ _ hT0
              simp [applyUndoScene, undoScene, hf]
            rw [hTnull]
            rw [hSupd] at hrest
            refine ih { S with objects := updateFirst (fun o => o.id == i) (fun o => { o with x := px, y := py, width := pw, height := ph }) S.objects } T D Dp R hsub htail ⟨?_, hrelC, hrelS⟩ hrest
            exact RelD_upd_left _ Dp R i (fun o => { o with x := px, y := py, width := pw, height := ph }) (fun _ => rfl) S.objects T.objects hrelO hiR
          · have hiR2 : R.contains i = false := eq_false_of_ne_true hiR
            have hT1 : cntK (fun o : CanvasObject => o.id) i T.objects = 1 := by
              rw [hrelO.2 i, hiR2]
              simp only [Bool.false_eq_true, if_false]
              exact hcnt
            obtain ⟨eT, hfT⟩ := find?_of_count_pos _ T.objects
              (count_pos_of_eq_one (fun o : CanvasObject => o.id) i T.objects hT1)
            have hTupd : applyUndoScene (.objectResize i px py pw ph) T =
                { T with objects := updateFirst (fun o => o.id == i) (fun o => { o with x := px, y := py, width := pw, height := ph }) T.objects } := by
              simp [applyUndoScene, undoScene, hfT]
            rw [hTupd]
            rw [hSupd] at hrest
            refine ih { S with objects := updateFirst (fun o => o.id == i) (fun o => { o with x := px, y := py, width := pw, height := ph }) S.objects } { T with objects := updateFirst (fun o => o.id == i) (fun o => { o with x := px, y := py, width := pw, height := ph }) T.objects } D Dp R hsub htail ⟨?_, hrelC, hrelS⟩ hrest
            exact RelD_upd_both _ Dp R i (fun o => { o with x := px, y := py, width := pw, height := ph }) (fun _ => rfl) S.objects T.objects hrelO hiR2
    | objectText i pt =>
      have hle : cntK (fun o : CanvasObject => o.id) i S.objects ≤ 1 := hOk
      constructor
      · show cntK (fun o : CanvasObject => o.id) i T.objects ≤ 1
        rw [hrelO.2 i]
        by_cases hiR : R.contains i = true
        · rw [hiR]
          exact Nat.zero_le 1
        · have hiR2 : R.contains i = false := eq_false_of_ne_true hiR
          rw [hiR2]
          simp only [Bool.false_eq_true, if_false]
          exact hle
      · by_cases h0 : cntK (fun o : CanvasObject => o.id) i S.objects = 0
        · have hT0 : cntK (fun o : CanvasObject => o.id) i T.objects = 0 := by
            rw [hrelO.2 i, h0]
            exact ite_self 0
          have hSnull : applyUndoScene (.objectText i pt) S = S := by
            have hf : S.objects.find? (fun o => o.id == i) = none :=
              find?_none_of_count_zero _ _ h0
            simp [applyUndoScene, undoScene, hf]
          have hTnull : applyUndoScene (.objectText i pt) T = T := by
            have hf : T.objects.find? (fun o => o.id == i) = none :=
              find?_none_of_count_zero _ _ hT0
            simp [applyUndoScene, undoScene, hf]
          rw [hTnull]
          rw [hSnull] at hrest
          exact ih S T D Dp R hsub htail ⟨hrelO, hrelC, hrelS⟩ hrest
        · have hcnt : cntK (fun o : CanvasObject => o.id) i S.objects = 1 :=
            Nat.le_antisymm hle (Nat.one_le_iff_ne_zero.mpr h0)
          obtain ⟨eS, hfS⟩ := find?_of_count_pos _ S.objects
            (count_pos_of_eq_one (fun o : CanvasObject => o.id) i S.objects hcnt)
          have hSupd : applyUndoScene (.objectText i pt) S =
              { S with objects := updateFirst (fun o => o.id == i) (fun o => { o with text := pt }) S.objects } := by
            simp [applyUndoScene, undoScene, hfS]
          by_cases hiR : R.contains i = true
          · have hT0 : cntK (fun o : CanvasObject => o.id) i T.objects = 0 := by
              rw [hrelO.2 i, hiR]
              rfl
            have hTnull : applyUndoScene (.objectText i pt) T = T := by
              have hf : T.objects.find? (fun o => o.id == i) = none :=
                find?_none_of_count_zero _ _ hT0
              simp [applyUndoScene, undoScene, hf]
            rw [hTnull]
            rw [hSupd] at hrest
            refine ih { S with objects := updateFirst (fun o => o.id == i) (fun o => { o with text := pt }) S.objects } T D Dp R hsub htail ⟨?_, hrelC, hrelS⟩ hrest
            exact RelD_upd_left _ Dp R i (fun o => { o with text := pt }) (fun _ => rfl) S.objects T.objects hrelO hiR
          · have hiR2 : R.contains i = false := eq_false_of_ne_true hiR
            have hT1 : cntK (fun o : CanvasObject => o.id) i T.objects = 1 := by
              rw [hrelO.2 i, hiR2]
              simp only [Bool.false_eq_true, if_false]
              exact hcnt
            obtain ⟨eT, hfT⟩ := find?_of_count_pos _ T.objects
              (count_pos_of_eq_one (fun o : CanvasObject => o.id) i T.objects hT1)
            have hTupd : applyUndoScene (.objectText i pt) T =
                { T with objects := updateFirst (fun o => o.id == i) (fun o => { o with text := pt }) T.objects } := by
              simp [applyUndoScene, undoScene, hfT]
            rw [hTupd]
            rw [hSupd] at hrest
            refine ih { S with objects := updateFirst (fun o => o.id == i) (fun o => { o with text := pt }) S.objects } { T with objects := updateFirst (fun o => o.id == i) (fun o => { o with text := pt }) T.objects } D Dp R hsub htail ⟨?_, hrelC, hrelS⟩ hrest
            exact RelD_upd_both _ Dp R i (fun o => { o with text := pt }) (fun _ => rfl) S.objects T.objects hrelO hiR2
    | connectorAdd i =>
      refine ⟨addOk_rel _ D Dp R i S.connectors T.connectors hsub hrelC hOk, ?_⟩
      rcases hOk with h0 | ⟨hcnt, _⟩
      · have hT0 : cntK (fun x : Connector => x.id) i T.connectors = 0 := by
          rw [hrelC.2 i, h0]
          exact ite_self 0
        have hSnull : applyUndoScene (.connectorAdd i) S = S := by
          have hf : S.connectors.find? (fun x => x.id == i) = none :=
            find?_none_of_count_zero _ _ h0
          simp [applyUndoScene, undoScene, hf]
        have hTnull : applyUndoScene (.connectorAdd i) T = T := by
          have hf : T.connectors.find? (fun x => x.id == i) = none :=
            find?_none_of_count_zero _ _ hT0
          simp [applyUndoScene, undoScene, hf]
        rw [hTnull]
        rw [hSnull] at hrest
        exact ih S T D Dp R hsub htail ⟨hrelO, hrelC, hrelS⟩ hrest
      · obtain ⟨eS, hfS⟩ := find?_of_count_pos _ S.connectors
          (count_pos_of_eq_one (fun x : Connector => x.id) i S.connectors hcnt)
        have hSdel : applyUndoScene (.connectorAdd i) S =
            { S with connectors := S.connectors.filter (fun x => !(x.id == i)) } := by
          simp [applyUndoScene, undoScene, hfS]
        by_cases hiR : R.contains i = true
        · have hT0 : cntK (fun x : Connector => x.id) i T.connectors = 0 := by
            rw [hrelC.2 i, hiR]
            rfl
          have hTnull : applyUndoScene (.connectorAdd i) T = T := by
            have hf : T.connectors.find? (fun x => x.id == i) = none :=
              find?_none_of_count_zero _ _ hT0
            simp [applyUndoScene, undoScene, hf]
          rw [hTnull]
          rw [hSdel] at hrest
          refine ih { S with connectors := S.connectors.filter (fun x => !(x.id == i)) } T D Dp R hsub htail ⟨hrelO, ?_, hrelS⟩ hrest
          exact RelD_filter_left _ Dp R i S.connectors T.connectors hrelC hiR
        · have hiR2 : R.contains i = false := eq_false_of_ne_true hiR
          have hT1 : cntK (fun x : Connector => x.id) i T.connectors = 1 := by
            rw [hrelC.2 i, hiR2]
            simp only [Bool.false_eq_true, if_false]
            exact hcnt
          obtain ⟨eT, hfT⟩ := find?_of_count_pos _ T.connectors
            (count_pos_of_eq_one (fun x : Connector => x.id) i T.connectors hT1)
          have hTdel : applyUndoScene (.connectorAdd i) T =
              { T with connectors := T.connectors.filter (fun x => !(x.id == i)) } := by
            simp [applyUndoScene, undoScene, hfT]
          rw [hTdel]
          rw [hSdel] at hrest
          refine ih { S with connectors := S.connectors.filter (fun x => !(x.id == i)) } { T with connectors := T.connectors.filter (fun x => !(x.id == i)) } D Dp R hsub htail ⟨hrelO, ?_, hrelS⟩ hrest
          exact RelD_filter_both _ Dp R i S.connectors T.connectors hrelC
    | connectorDelete v =>
      have hvR : R.contains v.id = false :=
        hdisj (.connectorDelete v) (List.mem_cons_self _ _) v.id (by simp [delId])
      obtain ⟨hcnto, hcntc, hcnts⟩ := (absentAll_iff v.id S).mp hOk
      refine ⟨(absentAll_iff v.id T).mpr ⟨?_, ?_, ?_⟩, ?_⟩
      · rw [hrelO.2 v.id, hcnto]
        exact ite_self 0
      · rw [hrelC.2 v.id, hcntc]
        exact ite_self 0
      · rw [hrelS.2 v.id, hcnts]
        exact ite_self 0
      · have hS : applyUndoScene (.connectorDelete v) S = { S with connectors := S.connectors ++ [v] } := rfl
        have hT : applyUndoScene (.connectorDelete v) T = { T with connectors := T.connectors ++ [v] } := rfl
        rw [hT]
        rw [hS] at hrest
        have hsub2 : ∀ j, ((v.id :: D).contains j = true) →
            ((v.id :: Dp).contains j = true) := by
          intro j hj
          rw [contains_cons_eq] at hj
          rw [contains_cons_eq]
          cases hjv : (j == v.id)
          · simp only [hjv, Bool.false_or] at hj ⊢
            exact hsub j hj
          · simp [hjv]
        refine ih { S with connectors := S.connectors ++ [v] } { T with connectors := T.connectors ++ [v] } (v.id :: D) (v.id :: Dp) R hsub2 htail ⟨RelD_extend _ Dp R v.id S.objects T.objects hrelO hcnto,
          RelD_append _ Dp R S.connectors T.connectors v hrelC hvR,
          RelD_extend _ Dp R v.id S.strokes T.strokes hrelS hcnts⟩ hrest
    | strokeAdd i =>
      refine ⟨addOk_rel _ D Dp R i S.strokes T.strokes hsub hrelS hOk, ?_⟩
      rcases hOk with h0 | ⟨hcnt, _⟩
      · have hT0 : cntK (fun x : Stroke => x.id) i T.strokes = 0 := by
          rw [hrelS.2 i, h0]
          exact ite_self 0
        have hSnull : applyUndoScene (.strokeAdd i) S = S := by
          have hf : S.strokes.find? (fun x => x.id == i) = none :=
            find?_none_of_count_zero _ _ h0
          simp [applyUndoScene, undoScene, hf]
        have hTnull : applyUndoScene (.strokeAdd i) T = T := by
          have hf : T.strokes.find? (fun x => x.id == i) = none :=
            find?_none_of_count_zero _ _ hT0
          simp [applyUndoScene, undoScene, hf]
        rw [hTnull]
        rw [hSnull] at hrest
        exact ih S T D Dp R hsub htail ⟨hrelO, hrelC, hrelS⟩ hrest
      · obtain ⟨eS, hfS⟩ := find?_of_count_pos _ S.strokes
          (count_pos_of_eq_one (fun x : Stroke => x.id) i S.strokes hcnt)
        have hSdel : applyUndoScene (.strokeAdd i) S =
            { S with strokes := S.strokes.filter (fun x => !(x.id == i)) } := by
          simp [applyUndoScene, undoScene, hfS]
        by_cases hiR : R.contains i = true
        · have hT0 : cntK (fun x : Stroke => x.id) i T.strokes = 0 := by
            rw [hrelS.2 i, hiR]
            rfl
          have hTnull : applyUndoScene (.strokeAdd i) T = T := by
            have hf : T.strokes.find? (fun x => x.id == i) = none :=
              find?_none_of_count_zero _ _ hT0
            simp [applyUndoScene, undoScene, hf]
          rw [hTnull]
          rw [hSdel] at hrest
          refine ih { S with strokes := S.strokes.filter (fun x => !(x.id == i)) } T D Dp R hsub htail ⟨hrelO, hrelC, ?_⟩ hrest
          exact RelD_filter_left _ Dp R i S.strokes T.strokes hrelS hiR
        · have hiR2 : R.contains i = false := eq_false_of_ne_true hiR
          have hT1 : cntK (fun x : Stroke => x.id) i T.strokes = 1 := by
            rw [hrelS.2 i, hiR2]
            simp only [Bool.false_eq_true, if_false]
            exact hcnt
          obtain ⟨eT, hfT⟩ := find?_of_count_pos _ T.strokes
            (count_pos_of_eq_one (fun x : Stroke => x.id) i T.strokes hT1)
          have hTdel : applyUndoScene (.strokeAdd i) T =
              { T with strokes := T.strokes.filter (fun x => !(x.id == i)) } := by
            simp [applyUndoScene, undoScene, hfT]
          rw [hTdel]
          rw [hSdel] at hrest
          refine ih { S with strokes := S.strokes.filter (fun x => !(x.id == i)) } { T with strokes := T.strokes.filter (fun x => !(x.id == i)) } D Dp R hsub htail ⟨hrelO, hrelC, ?_⟩ hrest
          exact RelD_filter_both _ Dp R i S.strokes T.strokes hrelS
    | strokeDelete v =>
      have hvR : R.contains v.id = false :=
        hdisj (.strokeDelete v) (List.mem_cons_self _ _) v.id (by simp [delId])
      obtain ⟨hcnto, hcntc, hcnts⟩ := (absentAll_iff v.id S).mp hOk
      refine ⟨(absentAll_iff v.id T).mpr ⟨?_, ?_, ?_⟩, ?_⟩
      · rw [hrelO.2 v.id, hcnto]
        exact ite_self 0
      · rw [hrelC.2 v.id, hcntc]
        exact ite_self 0
      · rw [hrelS.2 v.id, hcnts]
        exact ite_self 0
      · have hS : applyUndoScene (.strokeDelete v) S = { S with strokes := S.strokes ++ [v] } := rfl
        have hT : applyUndoScene (.strokeDelete v) T = { T with strokes := T.strokes ++ [v] } := rfl
        rw [hT]
        rw [hS] at hrest
        have hsub2 : ∀ j, ((v.id :: D).contains j = true) →
            ((v.id :: Dp).contains j = true) := by
          intro j hj
          rw [contains_cons_eq] at hj
          rw [contains_cons_eq]
          cases hjv : (j == v.id)
          · simp only [hjv, Bool.false_or] at hj ⊢
            exact hsub j hj
          · simp [hjv]
        refine ih { S with strokes := S.strokes ++ [v] } { T with strokes := T.strokes ++ [v] } (v.id :: D) (v.id :: Dp) R hsub2 htail ⟨RelD_extend _ Dp R v.id S.objects T.objects hrelO hcnto,
          RelD_extend _ Dp R v.id S.connectors T.connectors hrelC hcntc,
          RelD_append _ Dp R S.strokes T.strokes v hrelS hvR⟩ hrest
    | groupCreate i =>
      refine ⟨addOk_rel _ D Dp R i S.objects T.objects hsub hrelO hOk, ?_⟩
      rcases hOk with h0 | ⟨hcnt, _⟩
      · have hT0 : cntK (fun x : CanvasObject => x.id) i T.objects = 0 := by
          rw [hrelO.2 i, h0]
          exact ite_self 0
        have hSnull : applyUndoScene (.groupCreate i) S = S := by
          have hf : S.objects.find? (fun x => x.id == i) = none :=
            find?_none_of_count_zero _ _ h0
          simp [applyUndoScene, undoScene, hf]
        have hTnull : applyUndoScene (.groupCreate i) T = T := by
          have hf : T.objects.find? (fun x => x.id == i) = none :=
            find?_none_of_count_zero _ _ hT0
          simp [applyUndoScene, undoScene, hf]
        rw [hTnull]
        rw [hSnull] at hrest
        exact ih S T D Dp R hsub htail ⟨hrelO, hrelC, hrelS⟩ hrest
      · obtain ⟨eS, hfS⟩ := find?_of_count_pos _ S.objects
          (count_pos_of_eq_one (fun x : CanvasObject => x.id) i S.objects hcnt)
        have hSdel : applyUndoScene (.groupCreate i) S =
            { S with objects := S.objects.filter (fun x => !(x.id == i)) } := by
          simp [applyUndoScene, undoScene, hfS]
        by_cases hiR : R.contains i = true
        · have hT0 : cntK (fun x : CanvasObject => x.id) i T.objects = 0 := by
            rw [hrelO.2 i, hiR]
            rfl
          have hTnull : applyUndoScene (.groupCreate i) T = T := by
            have hf : T.objects.find? (fun x => x.id == i) = none :=
              find?_none_of_count_zero _ _ hT0
            simp [applyUndoScene, undoScene, hf]
          rw [hTnull]
          rw [hSdel] at hrest
          refine ih { S with objects := S.objects.filter (fun x => !(x.id == i)) } T D Dp R hsub htail ⟨?_, hrelC, hrelS⟩ hrest
          exact RelD_filter_left _ Dp R i S.objects T.objects hrelO hiR
        · have hiR2 : R.contains i = false := eq_false_of_ne_true hiR
          have hT1 : cntK (fun x : CanvasObject => x.id) i T.objects = 1 := by
            rw [hrelO.2 i, hiR2]
            simp only [Bool.false_eq_true, if_false]
            exact hcnt
          obtain ⟨eT, hfT⟩ := find?_of_count_pos _ T.objects
            (count_pos_of_eq_one (fun x : CanvasObject => x.id) i T.objects hT1)
          have hTdel : applyUndoScene (.groupCreate i) T =
              { T with objects := T.objects.filter (fun x => !(x.id == i)) } := by
            simp [applyUndoScene, undoScene, hfT]
          rw [hTdel]
          rw [hSdel] at hrest
          refine ih { S with objects := S.objects.filter (fun x => !(x.id == i)) } { T with objects := T.objects.filter (fun x => !(x.id == i)) } D Dp R hsub htail ⟨?_, hrelC, hrelS⟩ hrest
          exact RelD_filter_both _ Dp R i S.objects T.objects hrelO
    | groupUngroup v =>
      have hvR : R.contains v.id = false :=
        hdisj (.groupUngroup v) (List.mem_cons_self _ _) v.id (by simp [delId])
      obtain ⟨hcnto, hcntc, hcnts⟩ := (absentAll_iff v.id S).mp hOk
      refine ⟨(absentAll_iff v.id T).mpr ⟨?_, ?_, ?_⟩, ?_⟩
      · rw [hrelO.2 v.id, hcnto]
        exact ite_self 0
      · rw [hrelC.2 v.id, hcntc]
        exact ite_self 0
      · rw [hrelS.2 v.id, hcnts]
        exact ite_self 0
      · have hS : applyUndoScene (.groupUngroup v) S = { S with objects := S.objects ++ [v] } := rfl
        have hT : applyUndoScene (.groupUngroup v) T = { T with objects := T.objects ++ [v] } := rfl
        rw [hT]
        rw [hS] at hrest
        have hsub2 : ∀ j, ((v.id :: D).contains j = true) →
            ((v.id :: Dp).contains j = true) := by
          intro j hj
          rw [contains_cons_eq] at hj
          rw [contains_cons_eq]
          cases hjv : (j == v.id)
          · simp only [hjv, Bool.false_or] at hj ⊢
            exact hsub j hj
          · simp [hjv]
        refine ih { S with objects := S.objects ++ [v] } { T with objects := T.objects ++ [v] } (v.id :: D) (v.id :: Dp) R hsub2 htail ⟨RelD_append _ Dp R S.objects T.objects v hrelO hvR,
          RelD_extend _ Dp R v.id S.connectors T.connectors hrelC hcntc,
          RelD_extend _ Dp R v.id S.strokes T.strokes hrelS hcnts⟩ hrest

theorem countMatches_filter_le (p q : α → Bool) (l : List α) :
    countMatches p (l.filter q) ≤ countMatches p l := by
  unfold countMatches
  rw [show (l.filter q).filter p = (l.filter p).filter q from filter_comm q p l]
  exact List.length_filter_le _ _

theorem countMatches_filter_zero_of_zero (p q : α → Bool) (l : List α)
    (h : countMatches p l = 0) : countMatches p (l.filter q) = 0 := by
  rw [countMatches_eq_zero] at h ⊢
  exact fun x hx => h x (List.mem_of_mem_filter hx)

theorem recordAction_fields (a : UAct) (s : CanvasState) (h : s.undoStack.length ≤ 4) :
    (recordAction a s).undoStack = a :: s.undoStack ∧
    (recordAction a s).redoStack = [] ∧
    (recordAction a s).scene = s.scene := by
  refine ⟨?_, rfl, rfl⟩
  show (if (a :: s.undoStack).length > 5 then (a :: s.undoStack).dropLast
      else a :: s.undoStack) = a :: s.undoStack
  apply if_neg
  rw [List.length_cons]
  omega

theorem RelD_nil_refl (key : α → String) (l : List α) : RelD key [] [] l l := by
  constructor
  · rw [filter_notin_nil]
    exact (List.filter_eq_self.mpr fun x _ => rfl).symm
  · intro j
    rfl

theorem RelD_refl_vac (key : α → String) (R : List String) (l : List α)
    (h : ∀ j, R.contains j = true → cntK key j l = 0) : RelD key [] R l l := by
  constructor
  · rw [filter_notin_nil]
    refine (List.filter_eq_self.mpr fun x hx => ?_).symm
    cases hr : R.contains (key x)
    · rfl
    · exfalso
      have h0 := h (key x) hr
      have hpos : 0 < cntK key (key x) l :=
        count_pos_of_any _ _ (List.any_eq_true.mpr ⟨x, hx, by simp⟩)
      omega
  · intro j
    by_cases hjR : R.contains j = true
    · rw [hjR, h j hjR]
      rfl
    · have hjR2 : R.contains j = false := eq_false_of_ne_true hjR
      rw [hjR2]
      rfl

theorem RelD_remove (key : α → String) (R : List String) (l : List α) :
    RelD key [] R l (l.filter (fun x => !(R.contains (key x)))) := by
  constructor
  · rw [filter_notin_nil]
    apply filter_congr_mem
    intro x _
    rfl
  · intro j
    by_cases hjR : R.contains j = true
    · rw [hjR]
      exact countMatches_filter_zero _ _ l fun x hx => by
        have hx2 : key x = j := by simpa using hx
        rw [hx2, hjR]
        rfl
    · have hjR2 : R.contains j = false := eq_false_of_ne_true hjR
      rw [hjR2]
      simp only [Bool.false_eq_true, if_false]
      exact countMatches_filter_imp _ _ (fun x hx => by
        have hx2 : key x = j := by simpa using hx
        rw [hx2, hjR2]
        rfl) l

theorem RelD_delete_self (key : α → String) (R : List String) (l : List α) (v : α)
    (hcnt1 : cntK key (key v) l = 1)
    (hvR : R.contains (key v) = false)
    (hR0 : ∀ j, R.contains j = true → cntK key j l = 0) :
    RelD key [key v] R l (l.filter (fun x => !(key x == key v)) ++ [v]) := by
  have hmemR : ∀ x ∈ l, R.contains (key x) = false := by
    intro x hx
    cases hr : R.contains (key x)
    · rfl
    · exfalso
      have h0 := hR0 (key x) hr
      have hpos : 0 < cntK key (key x) l :=
        count_pos_of_any _ _ (List.any_eq_true.mpr ⟨x, hx, by simp⟩)
      omega
  constructor
  · rw [List.filter_append,
      show [v].filter (fun x => !(([key v] : List String).contains (key x))) = [] from by
        simp [List.filter_cons, contains_cons_eq],
      List.append_nil, filter_and]
    apply filter_congr_mem
    intro x hx
    have hxR : R.contains (key x) = false := hmemR x hx
    rw [hxR]
    cases hxv : (key x == key v)
    · simp [contains_cons_eq, hxv]
    · have hxy : key x = key v := by simpa using hxv
      simp [contains_cons_eq, hxv, hxy]
  · intro j
    have happ : cntK key j (l.filter (fun x => !(key x == key v)) ++ [v]) =
        cntK key j (l.filter (fun x => !(key x == key v))) + cntK key j [v] :=
      countMatches_append _ _ _
    rw [happ]
    by_cases hjv : j = key v
    · have h0 : cntK key (key v) (l.filter (fun x => !(key x == key v))) = 0 :=
        countMatches_filter_zero _ _ l fun x hx => by rw [hx]; rfl
      have h1 : cntK key (key v) [v] = 1 := by
        simp [cntK, countMatches, List.filter_cons]
      rw [hjv, h0, h1, hvR]
      simp only [Bool.false_eq_true, if_false]
      rw [hcnt1]
    · have hvj : (key v == j) = false := beq_eq_false_iff_ne.mpr fun hc => hjv hc.symm
      have h1 : cntK key j [v] = 0 := by
        simp [cntK, countMatches, List.filter_cons, hvj]
      have h2 : cntK key j (l.filter (fun x => !(key x == key v))) = cntK key j l :=
        countMatches_filter_imp _ _ (fun x hx => by
          have hx2 : key x = j := by simpa using hx
          have hxn : (key x == key v) = false := by
            rw [hx2]
            exact beq_eq_false_iff_ne.mpr hjv
          rw [hxn]
          rfl) l
      rw [h1, h2]
      by_cases hjR : R.contains j = true
      · rw [hjR, hR0 j hjR]
        rfl
      · have hjR2 : R.contains j = false := eq_false_of_ne_true hjR
        rw [hjR2]
        simp only [Bool.false_eq_true, if_false]
        rfl

theorem addOk_push (key : α → String) (i : String) (l : List α) (v : α)
    (hv : key v = i) (h0 : cntK key i l = 0) :
    addOk key [] i (l ++ [v]) := by
  right
  constructor
  · unfold cntK at h0 ⊢
    rw [countMatches_append, h0]
    simp [countMatches, List.filter_cons, hv]
  · right
    rw [filter_notin_nil]
    apply lastOnly_intro
    · rw [hv]
      simp
    · intro x hx
      exact (countMatches_eq_zero _ _).mp h0 x hx

/-- Recording a new coherent entry on a ≤4-deep stack keeps the
    reachability invariant: the entry is pushed without shift, the redo
    stack is cleared, and the supplied per-component facts rebuild
    GoodHist for the mutated scene. -/
theorem good_record (s : CanvasState) (e : UAct) (sc2 : Scene)
    (hlen : s.undoStack.length ≤ 4)
    (hok2 : entryOk e sc2 [])
    (hstk : stackOk s.undoStack (applyUndoScene e sc2) (delId e))
    (hdg2 : ∀ a ∈ s.undoStack, ∀ j ∈ delId a, absentAllB j sc2 = true)
    (hdge : ∀ j ∈ delId e, absentAllB j sc2 = true)
    (huniq2 : ∀ i, sceneCntAll i sc2 ≤ 1) :
    GoodHist (recordAction e { s with scene := sc2 }) ∧
    (recordAction e { s with scene := sc2 }).undoStack.length = s.undoStack.length + 1 ∧
    (recordAction e { s with scene := sc2 }).redoStack = [] := by
  have hfields := recordAction_fields e { s with scene := sc2 } (by exact hlen)
  refine ⟨⟨?_, ?_, ?_⟩, ?_, hfields.2.1⟩
  · rw [hfields.1, hfields.2.2]
    refine ⟨hok2, ?_⟩
    rw [List.append_nil]
    exact hstk
  · rw [hfields.1]
    intro a ha j hj
    rw [hfields.2.2]
    rcases List.mem_cons.mp ha with rfl | ha2
    · exact hdge j hj
    · exact hdg2 a ha2 j hj
  · intro i
    rw [hfields.2.2]
    exact huniq2 i
  · rw [hfields.1]
    rfl

/-- One valid recorded operation preserves the reachability invariant,
    pushes exactly one undo entry and leaves the redo stack empty. -/
theorem applyLocal_good (op : LocalOp) (s : CanvasState)
    (hv : opValid op s = true) (hg : GoodHist s) (hlen : s.undoStack.length ≤ 4) :
    GoodHist (applyLocal op s) ∧
    (applyLocal op s).undoStack.length = s.undoStack.length + 1 ∧
    (applyLocal op s).redoStack = [] := by
  obtain ⟨hok, hdg, huniq⟩ := hg
  cases op with
  | addObject v =>
    have hv2 : absentAllB v.id s.scene = true ∧
        s.undoStack.all (fun a => !((delId a).contains v.id)) = true := by
      have h := hv
      unfold opValid freshIdB at h
      rw [Bool.and_eq_true] at h
      exact h
    obtain ⟨h1, h2, h3⟩ := (absentAll_iff v.id s.scene).mp hv2.1
    have hall : ∀ x ∈ s.scene.objects, (x.id == v.id) = false :=
      (countMatches_eq_zero _ _).mp h1
    have hfind : (s.scene.objects ++ [v]).find? (fun x => x.id == v.id) = some v := by
      rw [find?_append_left_none _ _ _ hall]
      simp [List.find?_cons]
    have hfilter : (s.scene.objects ++ [v]).filter (fun x => !(x.id == v.id)) =
        s.scene.objects := filter_append_last _ _ _ hall (by simp)
    have happ : applyLocal (.addObject v) s = recordAction (.objectAdd v.id) { s with scene := { s.scene with objects := s.scene.objects ++ [v] } } := rfl
    rw [happ]
    refine good_record s (.objectAdd v.id) _ hlen ?_ ?_ ?_ ?_ ?_
    · exact addOk_push (fun x : CanvasObject => x.id) v.id s.scene.objects v rfl h1
    · have happly : applyUndoScene (.objectAdd v.id)
          { s.scene with objects := s.scene.objects ++ [v] } = s.scene := by
        simp [applyUndoScene, undoScene, hfind, hfilter]
      rw [happly]
      exact hok
    · intro a ha j hj
      obtain ⟨g1, g2, g3⟩ := (absentAll_iff j s.scene).mp (hdg a ha j hj)
      have hjv : (v.id == j) = false := by
        have hstp := List.all_eq_true.mp hv2.2 a ha
        have hnc : (delId a).contains v.id = false := by simpa using hstp
        cases hq : (v.id == j)
        · rfl
        · exfalso
          have hoj : v.id = j := by simpa using hq
          have hmem2 : v.id ∈ delId a := by
            rw [hoj]
            exact hj
          have hc := (contains_mem _ _).mpr hmem2
          rw [hc] at hnc
          exact absurd hnc (by simp)
      apply (absentAll_iff j _).mpr
      refine ⟨?_, g2, g3⟩
      show cntK (fun x : CanvasObject => x.id) j (s.scene.objects ++ [v]) = 0
      unfold cntK at g1 ⊢
      rw [countMatches_append, g1]
      simp [countMatches, List.filter_cons, hjv]
    · intro j hj
      exact absurd hj (List.not_mem_nil j)
    · intro i
      have hu := huniq i
      unfold sceneCntAll at hu ⊢
      dsimp only
      by_cases hio : (v.id == i) = true
      · have hio2 : v.id = i := by simpa using hio
        obtain ⟨g1, g2, g3⟩ := (absentAll_iff i s.scene).mp (by
          rw [← hio2]
          exact hv2.1)
        have ho : countMatches (fun x : CanvasObject => x.id == i) [v] = 1 := by
          simp [countMatches, List.filter_cons, hio]
        unfold cntK at g1 g2 g3 ⊢
        rw [countMatches_append, g1, g2, g3, ho]
      · have hio2 : (v.id == i) = false := eq_false_of_ne_true hio
        have hz : countMatches (fun x : CanvasObject => x.id == i) [v] = 0 := by
          simp [countMatches, List.filter_cons, hio2]
        unfold cntK at hu ⊢
        rw [countMatches_append, hz]
        omega
  | deleteObject oid =>
    obtain ⟨obj, hf⟩ := find?_of_any _ _ hv
    have hid : obj.id = oid := by simpa using List.find?_some hf
    subst hid
    have hu0 := huniq obj.id
    unfold sceneCntAll at hu0
    have hpos : 0 < cntK (fun o : CanvasObject => o.id) obj.id s.scene.objects :=
      count_pos_of_any _ _ (List.any_eq_true.mpr ⟨obj, List.mem_of_find?_eq_some hf, by simp⟩)
    have hobj1 : cntK (fun o : CanvasObject => o.id) obj.id s.scene.objects = 1 := by omega
    have hB0 : cntK (fun c : Connector => c.id) obj.id s.scene.connectors = 0 := by omega
    have hC0 : cntK (fun st : Stroke => st.id) obj.id s.scene.strokes = 0 := by omega
    have hconns2 : (cascadeIds obj.id s.scene).foldl (fun acc cid => acc.filter (fun c => !(c.id == cid))) s.scene.connectors = s.scene.connectors.filter (fun c => !((cascadeIds obj.id s.scene).contains c.id)) := foldl_filter_contains (fun c : Connector => c.id) _ _
    have hRconn : ∀ j, (cascadeIds obj.id s.scene).contains j = true → 0 < cntK (fun c : Connector => c.id) j s.scene.connectors := by
      intro j hj
      have hjmem := (contains_mem _ _).mp hj
      unfold cascadeIds at hjmem
      obtain ⟨c, hc, hcj⟩ := List.mem_map.mp hjmem
      refine count_pos_of_any _ _ (List.any_eq_true.mpr ⟨c, List.mem_of_mem_filter hc, ?_⟩)
      simp [hcj]
    have hRobj0 : ∀ j, (cascadeIds obj.id s.scene).contains j = true → cntK (fun o : CanvasObject => o.id) j s.scene.objects = 0 := by
      intro j hj
      have hp := hRconn j hj
      have hu := huniq j
      unfold sceneCntAll at hu
      omega
    have hRstk0 : ∀ j, (cascadeIds obj.id s.scene).contains j = true → cntK (fun st : Stroke => st.id) j s.scene.strokes = 0 := by
      intro j hj
      have hp := hRconn j hj
      have hu := huniq j
      unfold sceneCntAll at hu
      omega
    have hvR : (cascadeIds obj.id s.scene).contains obj.id = false := by
      cases hc : (cascadeIds obj.id s.scene).contains obj.id
      · rfl
      · exfalso
        have hp := hRconn obj.id hc
        omega
    have happ : applyLocal (.deleteObject obj.id) s = recordAction (.objectDelete obj) { s with scene := { s.scene with objects := s.scene.objects.filter (fun o => !(o.id == obj.id)), connectors := (cascadeIds obj.id s.scene).foldl (fun acc cid => acc.filter (fun c => !(c.id == cid))) s.scene.connectors } } := by
      simp [applyLocal, hf]
    have habs2 : absentAllB obj.id { s.scene with objects := s.scene.objects.filter (fun o => !(o.id == obj.id)), connectors := (cascadeIds obj.id s.scene).foldl (fun acc cid => acc.filter (fun c => !(c.id == cid))) s.scene.connectors } = true := by
      apply (absentAll_iff obj.id _).mpr
      refine ⟨?_, ?_, hC0⟩
      · dsimp only
        exact countMatches_filter_zero _ _ _ (fun x hx => by rw [hx]; rfl)
      · dsimp only
        rw [hconns2]
        exact countMatches_filter_zero_of_zero _ _ _ hB0
    rw [happ]
    refine good_record s (.objectDelete obj) _ hlen ?_ ?_ ?_ ?_ ?_
    · exact habs2
    · have hdisj : ∀ b ∈ s.undoStack, ∀ j ∈ delId b, (cascadeIds obj.id s.scene).contains j = false := by
        intro b hb j hj
        cases hc : (cascadeIds obj.id s.scene).contains j
        · rfl
        · exfalso
          have hp := hRconn j hc
          obtain ⟨q1, q2, q3⟩ := (absentAll_iff j s.scene).mp (hdg b hb j hj)
          omega
      have relC : RelD (fun c : Connector => c.id) [obj.id] (cascadeIds obj.id s.scene) s.scene.connectors ((cascadeIds obj.id s.scene).foldl (fun acc cid => acc.filter (fun c => !(c.id == cid))) s.scene.connectors) := by
        rw [hconns2]
        exact RelD_extend (fun c : Connector => c.id) [] (cascadeIds obj.id s.scene) obj.id s.scene.connectors _ (RelD_remove (fun c : Connector => c.id) (cascadeIds obj.id s.scene) s.scene.connectors) hB0
      exact stackOk_stable s.undoStack s.scene { s.scene with objects := s.scene.objects.filter (fun o => !(o.id == obj.id)) ++ [obj], connectors := (cascadeIds obj.id s.scene).foldl (fun acc cid => acc.filter (fun c => !(c.id == cid))) s.scene.connectors } [] [obj.id] (cascadeIds obj.id s.scene) (fun j hj => absurd hj Bool.false_ne_true) hdisj ⟨RelD_delete_self (fun o : CanvasObject => o.id) (cascadeIds obj.id s.scene) s.scene.objects obj hobj1 hvR hRobj0, relC, RelD_extend (fun st : Stroke => st.id) [] (cascadeIds obj.id s.scene) obj.id s.scene.strokes s.scene.strokes (RelD_refl_vac (fun st : Stroke => st.id) (cascadeIds obj.id s.scene) s.scene.strokes hRstk0) hC0⟩ hok
    · intro a ha j hj
      obtain ⟨g1, g2, g3⟩ := (absentAll_iff j s.scene).mp (hdg a ha j hj)
      apply (absentAll_iff j _).mpr
      refine ⟨?_, ?_, g3⟩
      · dsimp only
        exact countMatches_filter_zero_of_zero _ _ _ g1
      · dsimp only
        rw [hconns2]
        exact countMatches_filter_zero_of_zero _ _ _ g2
    · intro j hj
      have hje : j = obj.id := by simpa [delId] using hj
      rw [hje]
      exact habs2
    · intro i
      have hu := huniq i
      unfold sceneCntAll at hu ⊢
      dsimp only
      have c1 : cntK (fun o : CanvasObject => o.id) i (s.scene.objects.filter (fun o => !(o.id == obj.id))) ≤ cntK (fun o : CanvasObject => o.id) i s.scene.objects := countMatches_filter_le _ _ _
      have c2 : cntK (fun c : Connector => c.id) i ((cascadeIds obj.id s.scene).foldl (fun acc cid => acc.filter (fun c => !(c.id == cid))) s.scene.connectors) ≤ cntK (fun c : Connector => c.id) i s.scene.connectors := by
        rw [hconns2]
        exact countMatches_filter_le _ _ _
      omega
  | moveObject oid nx ny =>
    obtain ⟨obj, hf⟩ := find?_of_any _ _ hv
    have hpf : ∀ x : CanvasObject, (x.id == oid) = true → (({ x with x := nx, y := ny } : CanvasObject).id == oid) = true :=
      fun x hx => hx
    have happ : applyLocal (.moveObject oid nx ny) s = recordAction (.objectMove oid obj.x obj.y) { s with scene := { s.scene with objects := updateFirst (fun o => o.id == oid) (fun o => { o with x := nx, y := ny }) s.scene.objects } } := by
      simp [applyLocal, hf]
    rw [happ]
    refine good_record s (.objectMove oid obj.x obj.y) _ hlen ?_ ?_ ?_ ?_ ?_
    · show cntK (fun o : CanvasObject => o.id) oid (updateFirst (fun o => o.id == oid) (fun o => { o with x := nx, y := ny }) s.scene.objects) ≤ 1
      rw [countMatches_updateFirst (fun o : CanvasObject => o.id) oid (fun o => o.id == oid) (fun o => { o with x := nx, y := ny }) (fun x => rfl) s.scene.objects]
      have hu := huniq oid
      unfold sceneCntAll at hu
      omega
    · have hfind2 : (updateFirst (fun o => o.id == oid) (fun o => { o with x := nx, y := ny }) s.scene.objects).find? (fun o => o.id == oid) = some ((fun o => { o with x := nx, y := ny }) obj) := by
        rw [find?_updateFirst _ _ hpf, hf]
        rfl
      have happly : applyUndoScene (.objectMove oid obj.x obj.y) { s.scene with objects := updateFirst (fun o => o.id == oid) (fun o => { o with x := nx, y := ny }) s.scene.objects } = s.scene := by
        simp only [applyUndoScene, undoScene, hfind2]
        rw [updateFirst_updateFirst _ _ _ hpf]
        rw [updateFirst_eq_self _ _ s.scene.objects obj hf rfl]
      rw [happly]
      exact hok
    · intro a ha j hj
      obtain ⟨g1, g2, g3⟩ := (absentAll_iff j s.scene).mp (hdg a ha j hj)
      apply (absentAll_iff j _).mpr
      refine ⟨?_, g2, g3⟩
      show cntK (fun o : CanvasObject => o.id) j (updateFirst (fun o => o.id == oid) (fun o => { o with x := nx, y := ny }) s.scene.objects) = 0
      rw [countMatches_updateFirst (fun o : CanvasObject => o.id) j (fun o => o.id == oid) (fun o => { o with x := nx, y := ny }) (fun x => rfl) s.scene.objects]
      exact g1
    · intro j hj
      exact absurd hj (List.not_mem_nil j)
    · intro i
      have hu := huniq i
      unfold sceneCntAll at hu ⊢
      dsimp only
      rw [countMatches_updateFirst (fun o : CanvasObject => o.id) i (fun o => o.id == oid) (fun o => { o with x := nx, y := ny }) (fun x => rfl) s.scene.objects]
      exact hu
  | resizeObject oid nx ny nw nh =>
    obtain ⟨obj, hf⟩ := find?_of_any _ _ hv
    have hpf : ∀ x : CanvasObject, (x.id == oid) = true → (({ x with x := nx, y := ny, width := nw, height := nh } : CanvasObject).id == oid) = true :=
      fun x hx => hx
    have happ : applyLocal (.resizeObject oid nx ny nw nh) s = recordAction (.objectResize oid obj.x obj.y obj.width obj.height) { s with scene := { s.scene with objects := updateFirst (fun o => o.id == oid) (fun o => { o with x := nx, y := ny, width := nw, height := nh }) s.scene.objects } } := by
      simp [applyLocal, hf]
    rw [happ]
    refine good_record s (.objectResize oid obj.x obj.y obj.width obj.height) _ hlen ?_ ?_ ?_ ?_ ?_
    · show cntK (fun o : CanvasObject => o.id) oid (updateFirst (fun o => o.id == oid) (fun o => { o with x := nx, y := ny, width := nw, height := nh }) s.scene.objects) ≤ 1
      rw [countMatches_updateFirst (fun o : CanvasObject => o.id) oid (fun o => o.id == oid) (fun o => { o with x := nx, y := ny, width := nw, height := nh }) (fun x => rfl) s.scene.objects]
      have hu := huniq oid
      unfold sceneCntAll at hu
      omega
    · have hfind2 : (updateFirst (fun o => o.id == oid) (fun o => { o with x := nx, y := ny, width := nw, height := nh }) s.scene.objects).find? (fun o => o.id == oid) = some ((fun o => { o with x := nx, y := ny, width := nw, height := nh }) obj) := by
        rw [find?_updateFirst _ _ hpf, hf]
        rfl
      have happly : applyUndoScene (.objectResize oid obj.x obj.y obj.width obj.height) { s.scene with objects := updateFirst (fun o => o.id == oid) (fun o => { o with x := nx, y := ny, width := nw, height := nh }) s.scene.objects } = s.scene := by
        simp only [applyUndoScene, undoScene, hfind2]
        rw [updateFirst_updateFirst _ _ _ hpf]
        rw [updateFirst_eq_self _ _ s.scene.objects obj hf rfl]
      rw [happly]
      exact hok
    · intro a ha j hj
      obtain ⟨g1, g2, g3⟩ := (absentAll_iff j s.scene).mp (hdg a ha j hj)
      apply (absentAll_iff j _).mpr
      refine ⟨?_, g2, g3⟩
      show cntK (fun o : CanvasObject => o.id) j (updateFirst (fun o => o.id == oid) (fun o => { o with x := nx, y := ny, width := nw, height := nh }) s.scene.objects) = 0
      rw [countMatches_updateFirst (fun o : CanvasObject => o.id) j (fun o => o.id == oid) (fun o => { o with x := nx, y := ny, width := nw, height := nh }) (fun x => rfl) s.scene.objects]
      exact g1
    · intro j hj
      exact absurd hj (List.not_mem_nil j)
    · intro i
      have hu := huniq i
      unfold sceneCntAll at hu ⊢
      dsimp only
      rw [countMatches_updateFirst (fun o : CanvasObject => o.id) i (fun o => o.id == oid) (fun o => { o with x := nx, y := ny, width := nw, height := nh }) (fun x => rfl) s.scene.objects]
      exact hu
  | setObjectText oid t =>
    obtain ⟨obj, hf⟩ := find?_of_any _ _ hv
    have hpf : ∀ x : CanvasObject, (x.id == oid) = true → (({ x with text := t } : CanvasObject).id == oid) = true :=
      fun x hx => hx
    have happ : applyLocal (.setObjectText oid t) s = recordAction (.objectText oid obj.text) { s with scene := { s.scene with objects := updateFirst (fun o => o.id == oid) (fun o => { o with text := t }) s.scene.objects } } := by
      simp [applyLocal, hf]
    rw [happ]
    refine good_record s (.objectText oid obj.text) _ hlen ?_ ?_ ?_ ?_ ?_
    · show cntK (fun o : CanvasObject => o.id) oid (updateFirst (fun o => o.id == oid) (fun o => { o with text := t }) s.scene.objects) ≤ 1
      rw [countMatches_updateFirst (fun o : CanvasObject => o.id) oid (fun o => o.id == oid) (fun o => { o with text := t }) (fun x => rfl) s.scene.objects]
      have hu := huniq oid
      unfold sceneCntAll at hu
      omega
    · have hfind2 : (updateFirst (fun o => o.id == oid) (fun o => { o with text := t }) s.scene.objects).find? (fun o => o.id == oid) = some ((fun o => { o with text := t }) obj) := by
        rw [find?_updateFirst _ _ hpf, hf]
        rfl
      have happly : applyUndoScene (.objectText oid obj.text) { s.scene with objects := updateFirst (fun o => o.id == oid) (fun o => { o with text := t }) s.scene.objects } = s.scene := by
        simp only [applyUndoScene, undoScene, hfind2]
        rw [updateFirst_updateFirst _ _ _ hpf]
        rw [updateFirst_eq_self _ _ s.scene.objects obj hf rfl]
      rw [happly]
      exact hok
    · intro a ha j hj
      obtain ⟨g1, g2, g3⟩ := (absentAll_iff j s.scene).mp (hdg a ha j hj)
      apply (absentAll_iff j _).mpr
      refine ⟨?_, g2, g3⟩
      show cntK (fun o : CanvasObject => o.id) j (updateFirst (fun o => o.id == oid) (fun o => { o with text := t }) s.scene.objects) = 0
      rw [countMatches_updateFirst (fun o : CanvasObject => o.id) j (fun o => o.id == oid) (fun o => { o with text := t }) (fun x => rfl) s.scene.objects]
      exact g1
    · intro j hj
      exact absurd hj (List.not_mem_nil j)
    · intro i
      have hu := huniq i
      unfold sceneCntAll at hu ⊢
      dsimp only
      rw [countMatches_updateFirst (fun o : CanvasObject => o.id) i (fun o => o.id == oid) (fun o => { o with text := t }) (fun x => rfl) s.scene.objects]
      exact hu
  | addConnector v =>
    have hv2 : absentAllB v.id s.scene = true ∧
        s.undoStack.all (fun a => !((delId a).contains v.id)) = true := by
      have h := hv
      unfold opValid freshIdB at h
      rw [Bool.and_eq_true] at h
      exact h
    obtain ⟨h1, h2, h3⟩ := (absentAll_iff v.id s.scene).mp hv2.1
    have hall : ∀ x ∈ s.scene.connectors, (x.id == v.id) = false :=
      (countMatches_eq_zero _ _).mp h2
    have hfind : (s.scene.connectors ++ [v]).find? (fun x => x.id == v.id) = some v := by
      rw [find?_append_left_none _ _ _ hall]
      simp [List.find?_cons]
    have hfilter : (s.scene.connectors ++ [v]).filter (fun x => !(x.id == v.id)) =
        s.scene.connectors := filter_append_last _ _ _ hall (by simp)
    have happ : applyLocal (.addConnector v) s = recordAction (.connectorAdd v.id) { s with scene := { s.scene with connectors := s.scene.connectors ++ [v] } } := rfl
    rw [happ]
    refine good_record s (.connectorAdd v.id) _ hlen ?_ ?_ ?_ ?_ ?_
    · exact addOk_push (fun x : Connector => x.id) v.id s.scene.connectors v rfl h2
    · have happly : applyUndoScene (.connectorAdd v.id)
          { s.scene with connectors := s.scene.connectors ++ [v] } = s.scene := by
        simp [applyUndoScene, undoScene, hfind, hfilter]
      rw [happly]
      exact hok
    · intro a ha j hj
      obtain ⟨g1, g2, g3⟩ := (absentAll_iff j s.scene).mp (hdg a ha j hj)
      have hjv : (v.id == j) = false := by
        have hstp := List.all_eq_true.mp hv2.2 a ha
        have hnc : (delId a).contains v.id = false := by simpa using hstp
        cases hq : (v.id == j)
        · rfl
        · exfalso
          have hoj : v.id = j := by simpa using hq
          have hmem2 : v.id ∈ delId a := by
            rw [hoj]
            exact hj
          have hc := (contains_mem _ _).mpr hmem2
          rw [hc] at hnc
          exact absurd hnc (by simp)
      apply (absentAll_iff j _).mpr
      refine ⟨g1, ?_, g3⟩
      show cntK (fun x : Connector => x.id) j (s.scene.connectors ++ [v]) = 0
      unfold cntK at g2 ⊢
      rw [countMatches_append, g2]
      simp [countMatches, List.filter_cons, hjv]
    · intro j hj
      exact absurd hj (List.not_mem_nil j)
    · intro i
      have hu := huniq i
      unfold sceneCntAll at hu ⊢
      dsimp only
      by_cases hio : (v.id == i) = true
      · have hio2 : v.id = i := by simpa using hio
        obtain ⟨g1, g2, g3⟩ := (absentAll_iff i s.scene).mp (by
          rw [← hio2]
          exact hv2.1)
        have ho : countMatches (fun x : Connector => x.id == i) [v] = 1 := by
          simp [countMatches, List.filter_cons, hio]
        unfold cntK at g1 g2 g3 ⊢
        rw [countMatches_append, g1, g2, g3, ho]
      · have hio2 : (v.id == i) = false := eq_false_of_ne_true hio
        have hz : countMatches (fun x : Connector => x.id == i) [v] = 0 := by
          simp [countMatches, List.filter_cons, hio2]
        unfold cntK at hu ⊢
        rw [countMatches_append, hz]
        omega
  | deleteConnector cid =>
    obtain ⟨conn, hf⟩ := find?_of_any _ _ hv
    have hid : conn.id = cid := by simpa using List.find?_some hf
    subst hid
    have hu0 := huniq conn.id
    unfold sceneCntAll at hu0
    have hpos : 0 < cntK (fun c : Connector => c.id) conn.id s.scene.connectors :=
      count_pos_of_any _ _ (List.any_eq_true.mpr ⟨conn, List.mem_of_find?_eq_some hf, by simp⟩)
    have hcnt1 : cntK (fun c : Connector => c.id) conn.id s.scene.connectors = 1 := by omega
    have hA0 : cntK (fun o : CanvasObject => o.id) conn.id s.scene.objects = 0 := by
      omega
    have hC0 : cntK (fun st : Stroke => st.id) conn.id s.scene.strokes = 0 := by
      omega
    have happ : applyLocal (.deleteConnector conn.id) s = recordAction (.connectorDelete conn) { s with scene := { s.scene with connectors := s.scene.connectors.filter (fun c => !(c.id == conn.id)) } } := by
      simp [applyLocal, hf]
    have habs2 : absentAllB conn.id { s.scene with connectors := s.scene.connectors.filter (fun c => !(c.id == conn.id)) } = true := by
      apply (absentAll_iff conn.id _).mpr
      refine ⟨hA0, ?_, hC0⟩
      dsimp only
      exact countMatches_filter_zero _ _ _ (fun x hx => by rw [hx]; rfl)
    rw [happ]
    refine good_record s (.connectorDelete conn) _ hlen ?_ ?_ ?_ ?_ ?_
    · exact habs2
    · exact stackOk_stable s.undoStack s.scene { s.scene with connectors := s.scene.connectors.filter (fun c => !(c.id == conn.id)) ++ [conn] } [] [conn.id] [] (fun j hj => absurd hj Bool.false_ne_true) (fun b hb j hj => rfl) ⟨RelD_extend (fun o : CanvasObject => o.id) [] [] conn.id s.scene.objects s.scene.objects (RelD_nil_refl _ _) hA0, RelD_delete_self (fun c : Connector => c.id) [] s.scene.connectors conn hcnt1 rfl (fun j hj => absurd hj Bool.false_ne_true), RelD_extend (fun st : Stroke => st.id) [] [] conn.id s.scene.strokes s.scene.strokes (RelD_nil_refl _ _) hC0⟩ hok
    · intro a ha j hj
      obtain ⟨g1, g2, g3⟩ := (absentAll_iff j s.scene).mp (hdg a ha j hj)
      apply (absentAll_iff j _).mpr
      refine ⟨g1, ?_, g3⟩
      dsimp only
      exact countMatches_filter_zero_of_zero _ _ _ g2
    · intro j hj
      have hje : j = conn.id := by simpa [delId] using hj
      rw [hje]
      exact habs2
    · intro i
      have hu := huniq i
      unfold sceneCntAll at hu ⊢
      dsimp only
      have cle : cntK (fun c : Connector => c.id) i (s.scene.connectors.filter (fun c => !(c.id == conn.id))) ≤ cntK (fun c : Connector => c.id) i s.scene.connectors := countMatches_filter_le _ _ _
      omega
  | addStroke v =>
    have hv2 : absentAllB v.id s.scene = true ∧
        s.undoStack.all (fun a => !((delId a).contains v.id)) = true := by
      have h := hv
      unfold opValid freshIdB at h
      rw [Bool.and_eq_true] at h
      exact h
    obtain ⟨h1, h2, h3⟩ := (absentAll_iff v.id s.scene).mp hv2.1
    have hall : ∀ x ∈ s.scene.strokes, (x.id == v.id) = false :=
      (countMatches_eq_zero _ _).mp h3
    have hfind : (s.scene.strokes ++ [v]).find? (fun x => x.id == v.id) = some v := by
      rw [find?_append_left_none _ _ _ hall]
      simp [List.find?_cons]
    have hfilter : (s.scene.strokes ++ [v]).filter (fun x => !(x.id == v.id)) =
        s.scene.strokes := filter_append_last _ _ _ hall (by simp)
    have happ : applyLocal (.addStroke v) s = recordAction (.strokeAdd v.id) { s with scene := { s.scene with strokes := s.scene.strokes ++ [v] } } := rfl
    rw [happ]
    refine good_record s (.strokeAdd v.id) _ hlen ?_ ?_ ?_ ?_ ?_
    · exact addOk_push (fun x : Stroke => x.id) v.id s.scene.strokes v rfl h3
    · have happly : applyUndoScene (.strokeAdd v.id)
          { s.scene with strokes := s.scene.strokes ++ [v] } = s.scene := by
        simp [applyUndoScene, undoScene, hfind, hfilter]
      rw [happly]
      exact hok
    · intro a ha j hj
      obtain ⟨g1, g2, g3⟩ := (absentAll_iff j s.scene).mp (hdg a ha j hj)
      have hjv : (v.id == j) = false := by
        have hstp := List.all_eq_true.mp hv2.2 a ha
        have hnc : (delId a).contains v.id = false := by simpa using hstp
        cases hq : (v.id == j)
        · rfl
        · exfalso
          have hoj : v.id = j := by simpa using hq
          have hmem2 : v.id ∈ delId a := by
            rw [hoj]
            exact hj
          have hc := (contains_mem _ _).mpr hmem2
          rw [hc] at hnc
          exact absurd hnc (by simp)
      apply (absentAll_iff j _).mpr
      refine ⟨g1, g2, ?_⟩
      show cntK (fun x : Stroke => x.id) j (s.scene.strokes ++ [v]) = 0
      unfold cntK at g3 ⊢
      rw [countMatches_append, g3]
      simp [countMatches, List.filter_cons, hjv]
    · intro j hj
      exact absurd hj (List.not_mem_nil j)
    · intro i
      have hu := huniq i
      unfold sceneCntAll at hu ⊢
      dsimp only
      by_cases hio : (v.id == i) = true
      · have hio2 : v.id = i := by simpa using hio
        obtain ⟨g1, g2, g3⟩ := (absentAll_iff i s.scene).mp (by
          rw [← hio2]
          exact hv2.1)
        have ho : countMatches (fun x : Stroke => x.id == i) [v] = 1 := by
          simp [countMatches, List.filter_cons, hio]
        unfold cntK at g1 g2 g3 ⊢
        rw [countMatches_append, g1, g2, g3, ho]
      · have hio2 : (v.id == i) = false := eq_false_of_ne_true hio
        have hz : countMatches (fun x : Stroke => x.id == i) [v] = 0 := by
          simp [countMatches, List.filter_cons, hio2]
        unfold cntK at hu ⊢
        rw [countMatches_append, hz]
        omega
  | deleteStroke sid =>
    obtain ⟨stroke, hf⟩ := find?_of_any _ _ hv
    have hid : stroke.id = sid := by simpa using List.find?_some hf
    subst hid
    have hu0 := huniq stroke.id
    unfold sceneCntAll at hu0
    have hpos : 0 < cntK (fun st : Stroke => st.id) stroke.id s.scene.strokes :=
      count_pos_of_any _ _ (List.any_eq_true.mpr ⟨stroke, List.mem_of_find?_eq_some hf, by simp⟩)
    have hcnt1 : cntK (fun st : Stroke => st.id) stroke.id s.scene.strokes = 1 := by omega
    have hA0 : cntK (fun o : CanvasObject => o.id) stroke.id s.scene.objects = 0 := by
      omega
    have hB0 : cntK (fun c : Connector => c.id) stroke.id s.scene.connectors = 0 := by
      omega
    have happ : applyLocal (.deleteStroke stroke.id) s = recordAction (.strokeDelete stroke) { s with scene := { s.scene with strokes := s.scene.strokes.filter (fun st => !(st.id == stroke.id)) } } := by
      simp [applyLocal, hf]
    have habs2 : absentAllB stroke.id { s.scene with strokes := s.scene.strokes.filter (fun st => !(st.id == stroke.id)) } = true := by
      apply (absentAll_iff stroke.id _).mpr
      refine ⟨hA0, hB0, ?_⟩
      dsimp only
      exact countMatches_filter_zero _ _ _ (fun x hx => by rw [hx]; rfl)
    rw [happ]
    refine good_record s (.strokeDelete stroke) _ hlen ?_ ?_ ?_ ?_ ?_
    · exact habs2
    · exact stackOk_stable s.undoStack s.scene { s.scene with strokes := s.scene.strokes.filter (fun st => !(st.id == stroke.id)) ++ [stroke] } [] [stroke.id] [] (fun j hj => absurd hj Bool.false_ne_true) (fun b hb j hj => rfl) ⟨RelD_extend (fun o : CanvasObject => o.id) [] [] stroke.id s.scene.objects s.scene.objects (RelD_nil_refl _ _) hA0, RelD_extend (fun c : Connector => c.id) [] [] stroke.id s.scene.connectors s.scene.connectors (RelD_nil_refl _ _) hB0, RelD_delete_self (fun st : Stroke => st.id) [] s.scene.strokes stroke hcnt1 rfl (fun j hj => absurd hj Bool.false_ne_true)⟩ hok
    · intro a ha j hj
      obtain ⟨g1, g2, g3⟩ := (absentAll_iff j s.scene).mp (hdg a ha j hj)
      apply (absentAll_iff j _).mpr
      refine ⟨g1, g2, ?_⟩
      dsimp only
      exact countMatches_filter_zero_of_zero _ _ _ g3
    · intro j hj
      have hje : j = stroke.id := by simpa [delId] using hj
      rw [hje]
      exact habs2
    · intro i
      have hu := huniq i
      unfold sceneCntAll at hu ⊢
      dsimp only
      have cle : cntK (fun st : Stroke => st.id) i (s.scene.strokes.filter (fun st => !(st.id == stroke.id))) ≤ cntK (fun st : Stroke => st.id) i s.scene.strokes := countMatches_filter_le _ _ _
      omega
  | createGroup g merged =>
    have hv2 : freshIdB g.id s = true ∧ merged.all (fun i => s.scene.objects.any (fun o => o.id == i)) = true := by
      have h := hv
      unfold opValid at h
      rw [Bool.and_eq_true] at h
      exact h
    have hfr : absentAllB g.id s.scene = true ∧ s.undoStack.all (fun a => !((delId a).contains g.id)) = true := by
      have h := hv2.1
      unfold freshIdB at h
      rw [Bool.and_eq_true] at h
      exact h
    obtain ⟨h1, h2, h3⟩ := (absentAll_iff g.id s.scene).mp hfr.1
    have hmerged : ∀ j, merged.contains j = true → 0 < cntK (fun o : CanvasObject => o.id) j s.scene.objects := by
      intro j hj
      have hjmem := (contains_mem _ _).mp hj
      have hany := List.all_eq_true.mp hv2.2 j hjmem
      exact count_pos_of_any _ _ (by simpa using hany)
    have hmconn : ∀ j, merged.contains j = true → cntK (fun c : Connector => c.id) j s.scene.connectors = 0 := by
      intro j hj
      have hp := hmerged j hj
      have hu := huniq j
      unfold sceneCntAll at hu
      omega
    have hmstk : ∀ j, merged.contains j = true → cntK (fun st : Stroke => st.id) j s.scene.strokes = 0 := by
      intro j hj
      have hp := hmerged j hj
      have hu := huniq j
      unfold sceneCntAll at hu
      omega
    have hdisjm : ∀ b ∈ s.undoStack, ∀ j ∈ delId b, merged.contains j = false := by
      intro b hb j hj
      cases hc : merged.contains j
      · rfl
      · exfalso
        have hp := hmerged j hc
        obtain ⟨q1, q2, q3⟩ := (absentAll_iff j s.scene).mp (hdg b hb j hj)
        omega
    have h1f : cntK (fun o : CanvasObject => o.id) g.id (s.scene.objects.filter (fun o => !(merged.contains o.id))) = 0 := countMatches_filter_zero_of_zero _ _ _ h1
    have hallf : ∀ x ∈ s.scene.objects.filter (fun o => !(merged.contains o.id)), (x.id == g.id) = false := (countMatches_eq_zero _ _).mp h1f
    have hfind : ((s.scene.objects.filter (fun o => !(merged.contains o.id))) ++ [g]).find? (fun o => o.id == g.id) = some g := by
      rw [find?_append_left_none _ _ _ hallf]
      simp [List.find?_cons]
    have hfilter : ((s.scene.objects.filter (fun o => !(merged.contains o.id))) ++ [g]).filter (fun o => !(o.id == g.id)) = s.scene.objects.filter (fun o => !(merged.contains o.id)) := filter_append_last _ _ _ hallf (by simp)
    have happ : applyLocal (.createGroup g merged) s = recordAction (.groupCreate g.id) { s with scene := { s.scene with objects := (s.scene.objects.filter (fun o => !(merged.contains o.id))) ++ [g] } } := rfl
    rw [happ]
    refine good_record s (.groupCreate g.id) _ hlen ?_ ?_ ?_ ?_ ?_
    · exact addOk_push (fun o : CanvasObject => o.id) g.id (s.scene.objects.filter (fun o => !(merged.contains o.id))) g rfl h1f
    · have happly : applyUndoScene (.groupCreate g.id) { s.scene with objects := (s.scene.objects.filter (fun o => !(merged.contains o.id))) ++ [g] } = { s.scene with objects := s.scene.objects.filter (fun o => !(merged.contains o.id)) } := by
        simp only [applyUndoScene, undoScene, hfind, hfilter]
      rw [happly]
      exact stackOk_stable s.undoStack s.scene { s.scene with objects := s.scene.objects.filter (fun o => !(merged.contains o.id)) } [] [] merged (fun j hj => hj) hdisjm ⟨RelD_remove (fun o : CanvasObject => o.id) merged s.scene.objects, RelD_refl_vac (fun c : Connector => c.id) merged s.scene.connectors hmconn, RelD_refl_vac (fun st : Stroke => st.id) merged s.scene.strokes hmstk⟩ hok
    · intro a ha j hj
      obtain ⟨g1, g2, g3⟩ := (absentAll_iff j s.scene).mp (hdg a ha j hj)
      have hjg : (g.id == j) = false := by
        have hstp := List.all_eq_true.mp hfr.2 a ha
        have hnc : (delId a).contains g.id = false := by simpa using hstp
        cases hq : (g.id == j)
        · rfl
        · exfalso
          have hoj : g.id = j := by simpa using hq
          have hmem2 : g.id ∈ delId a := by
            rw [hoj]
            exact hj
          have hcn := (contains_mem _ _).mpr hmem2
          rw [hcn] at hnc
          exact absurd hnc (by simp)
      apply (absentAll_iff j _).mpr
      refine ⟨?_, g2, g3⟩
      show cntK (fun o : CanvasObject => o.id) j ((s.scene.objects.filter (fun o => !(merged.contains o.id))) ++ [g]) = 0
      have hfz : cntK (fun o : CanvasObject => o.id) j (s.scene.objects.filter (fun o => !(merged.contains o.id))) = 0 := countMatches_filter_zero_of_zero _ _ _ g1
      unfold cntK at hfz ⊢
      rw [countMatches_append, hfz]
      simp [countMatches, List.filter_cons, hjg]
    · intro j hj
      exact absurd hj (List.not_mem_nil j)
    · intro i
      have hu := huniq i
      unfold sceneCntAll at hu ⊢
      dsimp only
      by_cases hio : (g.id == i) = true
      · have hio2 : g.id = i := by simpa using hio
        obtain ⟨q1, q2, q3⟩ := (absentAll_iff i s.scene).mp (by
          rw [← hio2]
          exact hfr.1)
        have hfz : cntK (fun o : CanvasObject => o.id) i (s.scene.objects.filter (fun o => !(merged.contains o.id))) = 0 := countMatches_filter_zero_of_zero _ _ _ q1
        have ho : countMatches (fun x : CanvasObject => x.id == i) [g] = 1 := by
          simp [countMatches, List.filter_cons, hio]
        unfold cntK at hfz q2 q3 ⊢
        rw [countMatches_append, hfz, q2, q3, ho]
      · have hio2 : (g.id == i) = false := eq_false_of_ne_true hio
        have hz : countMatches (fun x : CanvasObject => x.id == i) [g] = 0 := by
          simp [countMatches, List.filter_cons, hio2]
        have hfle : cntK (fun o : CanvasObject => o.id) i (s.scene.objects.filter (fun o => !(merged.contains o.id))) ≤ cntK (fun o : CanvasObject => o.id) i s.scene.objects := countMatches_filter_le _ _ _
        unfold cntK at hfle hu ⊢
        rw [countMatches_append, hz]
        omega
  | ungroup gid =>
    obtain ⟨g, hf⟩ := find?_of_any _ _ hv
    have hid : g.id = gid := by simpa using List.find?_some hf
    subst hid
    have hu0 := huniq g.id
    unfold sceneCntAll at hu0
    have hpos : 0 < cntK (fun o : CanvasObject => o.id) g.id s.scene.objects :=
      count_pos_of_any _ _ (List.any_eq_true.mpr ⟨g, List.mem_of_find?_eq_some hf, by simp⟩)
    have hcnt1 : cntK (fun o : CanvasObject => o.id) g.id s.scene.objects = 1 := by omega
    have hB0 : cntK (fun c : Connector => c.id) g.id s.scene.connectors = 0 := by
      omega
    have hC0 : cntK (fun st : Stroke => st.id) g.id s.scene.strokes = 0 := by
      omega
    have happ : applyLocal (.ungroup g.id) s = recordAction (.groupUngroup g) { s with scene := { s.scene with objects := s.scene.objects.filter (fun o => !(o.id == g.id)) } } := by
      simp [applyLocal, hf]
    have habs2 : absentAllB g.id { s.scene with objects := s.scene.objects.filter (fun o => !(o.id == g.id)) } = true := by
      apply (absentAll_iff g.id _).mpr
      refine ⟨?_, hB0, hC0⟩
      dsimp only
      exact countMatches_filter_zero _ _ _ (fun x hx => by rw [hx]; rfl)
    rw [happ]
    refine good_record s (.groupUngroup g) _ hlen ?_ ?_ ?_ ?_ ?_
    · exact habs2
    · exact stackOk_stable s.undoStack s.scene { s.scene with objects := s.scene.objects.filter (fun o => !(o.id == g.id)) ++ [g] } [] [g.id] [] (fun j hj => absurd hj Bool.false_ne_true) (fun b hb j hj => rfl) ⟨RelD_delete_self (fun o : CanvasObject => o.id) [] s.scene.objects g hcnt1 rfl (fun j hj => absurd hj Bool.false_ne_true), RelD_extend (fun c : Connector => c.id) [] [] g.id s.scene.connectors s.scene.connectors (RelD_nil_refl _ _) hB0, RelD_extend (fun st : Stroke => st.id) [] [] g.id s.scene.strokes s.scene.strokes (RelD_nil_refl _ _) hC0⟩ hok
    · intro a ha j hj
      obtain ⟨g1, g2, g3⟩ := (absentAll_iff j s.scene).mp (hdg a ha j hj)
      apply (absentAll_iff j _).mpr
      refine ⟨?_, g2, g3⟩
      dsimp only
      exact countMatches_filter_zero_of_zero _ _ _ g1
    · intro j hj
      have hje : j = g.id := by simpa [delId] using hj
      rw [hje]
      exact habs2
    · intro i
      have hu := huniq i
      unfold sceneCntAll at hu ⊢
      dsimp only
      have cle : cntK (fun o : CanvasObject => o.id) i (s.scene.objects.filter (fun o => !(o.id == g.id))) ≤ cntK (fun o : CanvasObject => o.id) i s.scene.objects := countMatches_filter_le _ _ _
      omega

/-- A whole valid operation sequence run from a good state preserves the
    reachability invariant, keeps the redo stack empty and records one
    undo entry per operation. -/
theorem runLocal_good : ∀ (ops : List LocalOp) (s : CanvasState),
    ValidOps ops s = true → GoodHist s → s.redoStack = [] →
    s.undoStack.length + ops.length ≤ 5 →
    GoodHist (runLocal ops s) ∧ (runLocal ops s).redoStack = [] ∧
    (runLocal ops s).undoStack.length = s.undoStack.length + ops.length := by
  intro ops
  induction ops with
  | nil =>
    intro s hv hg hr hlen
    exact ⟨hg, hr, by simp [runLocal]⟩
  | cons op rest ih =>
    intro s hv hg hr hlen
    have hv2 : opValid op s = true ∧ ValidOps rest (applyLocal op s) = true := by
      have h := hv
      unfold ValidOps at h
      rw [Bool.and_eq_true] at h
      exact h
    have hlen4 : s.undoStack.length ≤ 4 := by
      rw [List.length_cons] at hlen
      omega
    obtain ⟨hg2, hl2, hr2⟩ := applyLocal_good op s hv2.1 hg hlen4
    have hrun : runLocal (op :: rest) s = runLocal rest (applyLocal op s) := rfl
    rw [hrun]
    have hlen2 : (applyLocal op s).undoStack.length + rest.length ≤ 5 := by
      rw [hl2]
      rw [List.length_cons] at hlen
      omega
    obtain ⟨hg3, hr3, hl3⟩ := ih (applyLocal op s) hv2.2 hg2 hr2 hlen2
    refine ⟨hg3, hr3, ?_⟩
    rw [hl3, hl2, List.length_cons]
    omega

/-- Claim C2: for any sequence of at most 5 recorded forward actions -
    the model's eleven recordAction call sites: object, connector and
    stroke adds, the three deletes with the object delete's unrecorded
    connector cascade, move, resize, text edit, group create with its
    unrecorded merged-group removal, and ungroup - run through
    recordAction from a state with no history and globally unique ids,
    every operation is recorded, and performing undo for each recorded
    entry (most recent first) and then redo for each returns the Scene
    (objects, strokes, connectors) field-for-field to the state
    immediately before the first undo. -/
theorem c2_undo_redo_roundtrip (ops : List LocalOp) (s0 : CanvasState)
    (hu : s0.undoStack = []) (hr : s0.redoStack = [])
    (hids : (sceneIds s0.scene).Nodup) (hlen : ops.length ≤ 5)
    (hv : ValidOps ops s0 = true) :
    (runLocal ops s0).undoStack.length = ops.length ∧
    (redoN (runLocal ops s0).undoStack.length
      (undoN (runLocal ops s0).undoStack.length (runLocal ops s0))).scene =
      (runLocal ops s0).scene := by
  have huniq0 : ∀ i : String, sceneCntAll i s0.scene ≤ 1 := by
    intro i
    have h1 := countMatches_map_key (fun o : CanvasObject => o.id) i s0.scene.objects
    have h2 := countMatches_map_key (fun c : Connector => c.id) i s0.scene.connectors
    have h3 := countMatches_map_key (fun st : Stroke => st.id) i s0.scene.strokes
    have htot : countMatches (fun k => k == i) (sceneIds s0.scene) ≤ 1 :=
      nodup_count_le_one i _ hids
    unfold sceneIds at htot
    rw [countMatches_append, countMatches_append] at htot
    unfold sceneCntAll
    omega
  have hg0 : GoodHist s0 := by
    refine ⟨?_, ?_, huniq0⟩
    · rw [hu]
      exact trivial
    · rw [hu]
      intro a ha j hj
      exact absurd ha (List.not_mem_nil a)
  have hlen0 : s0.undoStack.length + ops.length ≤ 5 := by
    rw [hu]
    simp only [List.length_nil]
    omega
  obtain ⟨hgR, hrR, hlR⟩ := runLocal_good ops s0 hv hg0 hr hlen0
  obtain ⟨hokR, hdgR, huniqR⟩ := hgR
  obtain ⟨rs, hrsle, hredo, hmain⟩ :=
    undo_redo_replay (runLocal ops s0).undoStack (runLocal ops s0) [] rfl hokR
  obtain ⟨hequiv, hrestored⟩ :=
    hmain (undoN (runLocal ops s0).undoStack.length (runLocal ops s0)) rfl hredo
  have hfix : redoN ((runLocal ops s0).undoStack.length - rs.length)
      (redoN rs.length (undoN (runLocal ops s0).undoStack.length (runLocal ops s0))) =
      redoN rs.length (undoN (runLocal ops s0).undoStack.length (runLocal ops s0)) :=
    redoN_of_empty _ _ (by rw [hrestored, hrR])
  refine ⟨by rw [hlR, hu]; simp, ?_⟩
  calc (redoN (runLocal ops s0).undoStack.length
          (undoN (runLocal ops s0).undoStack.length (runLocal ops s0))).scene
      = (redoN ((runLocal ops s0).undoStack.length - rs.length)
          (redoN rs.length
            (undoN (runLocal ops s0).undoStack.length (runLocal ops s0)))).scene := by
        rw [← redoN_add, Nat.add_sub_cancel' hrsle]
    _ = (redoN rs.length
          (undoN (runLocal ops s0).undoStack.length (runLocal ops s0))).scene := by
        rw [hfix]
    _ = (runLocal ops s0).scene := EquivScene_nil_eq _ _ hequiv

/-- Concrete replay of the roundtrip: add object a, add a connector
    anchored to a, add object b, delete a (cascading the connector away
    unrecorded); all four operations are recorded, and undoing all four
    then redoing all four restores the scene exactly. -/
theorem c2_undo_redo_roundtrip_witness :
    ValidOps opsC2 {} = true ∧ opsC2.length ≤ 5 ∧
    ((runLocal opsC2 {}).undoStack.length = opsC2.length ∧
      (redoN (runLocal opsC2 {}).undoStack.length
        (undoN (runLocal opsC2 {}).undoStack.length (runLocal opsC2 {}))).scene =
        (runLocal opsC2 {}).scene) :=
  ⟨by decide, by decide,
    c2_undo_redo_roundtrip opsC2 {} rfl rfl (by decide) (by decide) (by decide)⟩

end Collab
